import Mathlib

/-!
# ParallelProject: the per-frame update engine of `sequential.cpp` and `parallel.cpp`

Both translation units declare the same classes (`Vector3`, `Texture`, `GameObject`,
`Light`, `GameState`); `parallel.cpp` adds OpenMP pragmas and times each frame.

The C++ scalar type is `float`.  The embedding is parametric in the scalar
arithmetic (`Arith F`): every function of the source is translated once, over an
arbitrary carrier `F` with the ten primitive operations the source uses.  Two
interpretations are then fixed:

* `realArith`   : exact arithmetic on the real numbers (the idealisation in which
  the formulas `intensity / (distance + 1)` and `0.1 * cos r` are written);
* `binary32 m`  : IEEE-754 single precision, round to nearest, ties to even, with
  the two libm functions `cosf`, `sinf` supplied by `m : Libm`.

Statements that hold for every `Arith F` hold in both.  The texture dimension is a
parameter `S` of the data model (the source fixes `S = TEX_SIZE = 256`), and the
parallel regions of `parallel.cpp` are modelled through the schedules of
`Parallel.Schedule`.
-/

namespace ParallelProject

set_option maxRecDepth 20000

set_option exponentiation.threshold 512

/-! ## Compile-time constants (`#define`) -/

def MAX_PLAYERS : Nat := 100

def GRID_SIZE : Nat := 100

def OBJECT_COUNT : Nat := 50

def LIGHT_COUNT : Nat := 10

def TEX_SIZE : Nat := 256

/-! ## Scalar arithmetic -/

/-- The primitive `float` operations used by the source: the literals `0.0f`, `1.0f`,
`0.1f`, the four binary operators, and `sqrtf`, `cosf`, `sinf`. -/
structure Arith (F : Type) where
  zero : F
  one : F
  tenth : F
  add : F → F → F
  sub : F → F → F
  mul : F → F → F
  div : F → F → F
  sqrtf : F → F
  cosf : F → F
  sinf : F → F

/-! ## IEEE-754 binary32

Every finite binary32 number is an integer multiple of `2^-149` of magnitude below
`2^128`; a finite datum is stored as its sign and its magnitude in units of `2^-149`.
Signed zeros, infinities and a single NaN are represented.  Rounding is to nearest, ties
to even (the default rounding mode), with gradual underflow.  No contraction of
`a * b + c` into a fused operation and no excess precision are modelled. -/

/-- A binary32 datum: `fin neg mag` is `(-1)^neg * mag * 2^-149`. -/
inductive F32 where
  | fin (neg : Bool) (mag : Nat) : F32
  | inf (neg : Bool) : F32
  | nan : F32
  deriving DecidableEq

namespace F32

/-- Nearest integer to `a / d`, ties to even (`d > 0`). -/
def roundHalfEven (a d : Nat) : Nat :=
  let q := a / d
  let r := a % d
  if 2 * r < d then q else if d < 2 * r then q + 1 else if q % 2 = 0 then q else q + 1

/-- Halves `n` until it is below two, at most `fuel` times, counting the halvings. -/
def log2Aux : Nat → Nat → Nat
  | 0, _ => 0
  | fuel + 1, n => if n < 2 then 0 else log2Aux fuel (n / 2) + 1

/-- The floor of the binary logarithm of `n` (and `0` for `n = 0`). -/
def log2 (n : Nat) : Nat :=
  log2Aux n n

/-- The magnitude `2^128`, in units of `2^-149`: the overflow threshold. -/
def huge : Nat :=
  2 ^ 128 * 2 ^ 149

/-- The largest finite magnitude, `(2^24 - 1) * 2^104`, in units of `2^-149`. -/
def maxFinite : Nat :=
  (2 ^ 24 - 1) * 2 ^ 253

/-- Round the magnitude `a / b` (in units of `2^-149`, `b > 0`) to 24 significant bits.
Below `2^24` units the spacing of binary32 numbers is one unit (subnormals and the
first binade); from there on it is `2^(e-23)` for magnitudes in `[2^e, 2^(e+1))`. -/
def roundMag (a b : Nat) : Nat :=
  let k := log2 (a / b) - 23
  roundHalfEven a (b * 2 ^ k) * 2 ^ k

/-- Round `(-1)^neg * a / b` units; a rounded magnitude of `2^128` or more overflows. -/
def round (neg : Bool) (a b : Nat) : F32 :=
  let r := roundMag a b
  if r < huge then fin neg r else inf neg

/-- A datum is a binary32 number when it is an infinity, NaN, or a finite magnitude
that rounding leaves unchanged. -/
def IsBinary32 : F32 → Prop
  | fin _ mag => roundMag mag 1 = mag ∧ mag < huge
  | inf _ => True
  | nan => True

instance (x : F32) : Decidable (IsBinary32 x) := by
  cases x <;> unfold IsBinary32 <;> infer_instance

/-- The literal `0.0f`. -/
def zero : F32 :=
  fin false 0

/-- The literal `1.0f`, that is `2^149` units. -/
def one : F32 :=
  fin false (2 ^ 149)

/-- The literal `0.1f`: the binary32 number nearest to one tenth. -/
def tenth : F32 :=
  round false (2 ^ 149) 10

/-- The number `0.5`. -/
def half : F32 :=
  fin false (2 ^ 148)

/-- The number `0.25`. -/
def quarter : F32 :=
  fin false (2 ^ 147)

/-- The conversion `static_cast<float>(n)` of a non-negative integer below `2^24`
(every such integer is a binary32 number). -/
def ofNat (n : Nat) : F32 :=
  fin false (n * 2 ^ 149)

/-- Unary minus (sign flip). -/
def neg : F32 → F32
  | fin s a => fin (!s) a
  | inf s => inf (!s)
  | nan => nan

/-- The signed value of a finite datum in units of `2^-149`. -/
def units (s : Bool) (a : Nat) : Int :=
  if s then -(a : Int) else (a : Int)

/-- Operator `+`.  An exact zero sum is `-0` only when both operands are negative. -/
def add : F32 → F32 → F32
  | nan, _ => nan
  | _, nan => nan
  | inf s, inf t => if s = t then inf s else nan
  | inf s, fin _ _ => inf s
  | fin _ _, inf t => inf t
  | fin s a, fin t b =>
    let v := units s a + units t b
    if v = 0 then fin (s && t) 0 else round (decide (v < 0)) v.natAbs 1

/-- Operator `-`. -/
def sub (x y : F32) : F32 :=
  add x (neg y)

/-- Operator `*`. -/
def mul : F32 → F32 → F32
  | nan, _ => nan
  | _, nan => nan
  | inf s, inf t => inf (xor s t)
  | inf s, fin t b => if b = 0 then nan else inf (xor s t)
  | fin s a, inf t => if a = 0 then nan else inf (xor s t)
  | fin s a, fin t b => round (xor s t) (a * b) (2 ^ 149)

/-- Operator `/`. -/
def div : F32 → F32 → F32
  | nan, _ => nan
  | _, nan => nan
  | inf _, inf _ => nan
  | inf s, fin t _ => inf (xor s t)
  | fin s _, inf t => fin (xor s t) 0
  | fin s a, fin t b =>
    if b = 0 then (if a = 0 then nan else inf (xor s t))
    else round (xor s t) (a * 2 ^ 149) b

/-- Bitwise integer square root: adds the bits `2^(k-1), ..., 2^0` to `r` while the
square stays at most `n`. -/
def isqrtAux (n : Nat) : Nat → Nat → Nat
  | 0, r => r
  | k + 1, r =>
    let c := r + 2 ^ k
    if c * c ≤ n then isqrtAux n k c else isqrtAux n k r

/-- The floor of the square root of `n`. -/
def isqrt (n : Nat) : Nat :=
  isqrtAux n (log2 n / 2 + 1) 0

/-- Correctly rounded square root of the magnitude `a` units: the result in units is
the square root of `a * 2^149`. -/
def sqrtMag (a : Nat) : Nat :=
  let n := a * 2 ^ 149
  let s := isqrt n
  let k := log2 s - 23
  let q := s / 2 ^ k
  let h := (2 * q + 1) ^ 2 * 4 ^ k
  if 4 * n < h then q * 2 ^ k
  else if h < 4 * n then (q + 1) * 2 ^ k
  else if q % 2 = 0 then q * 2 ^ k else (q + 1) * 2 ^ k

/-- Function `sqrtf`. -/
def sqrt : F32 → F32
  | nan => nan
  | inf s => if s then nan else inf false
  | fin s a => if a = 0 then fin s 0 else if s then nan else fin false (sqrtMag a)

end F32

/-- The two libm functions used by the source.  Their accuracy is implementation
defined; only their values at zero (C standard, Annex F.10.1) are fixed. -/
structure Libm where
  cosf : F32 → F32
  sinf : F32 → F32
  cosf_zero : ∀ s, cosf (F32.fin s 0) = F32.one
  sinf_zero : ∀ s, sinf (F32.fin s 0) = F32.fin s 0

/-- An inhabitant of `Libm` (the leading Taylor terms `cos x = 1`, `sin x = x`); it only
shows that the two laws of `Libm` can be met. -/
def Libm.leading : Libm where
  cosf := fun _ => F32.one
  sinf := fun x => x
  cosf_zero := fun _ => rfl
  sinf_zero := fun _ => rfl

/-- Single-precision arithmetic over a given libm. -/
def binary32 (m : Libm) : Arith F32 where
  zero := F32.zero
  one := F32.one
  tenth := F32.tenth
  add := F32.add
  sub := F32.sub
  mul := F32.mul
  div := F32.div
  sqrtf := F32.sqrt
  cosf := m.cosf
  sinf := m.sinf

/-- Exact arithmetic on the real numbers. -/
noncomputable def realArith : Arith ℝ where
  zero := 0
  one := 1
  tenth := 1 / 10
  add := fun a b => a + b
  sub := fun a b => a - b
  mul := fun a b => a * b
  div := fun a b => a / b
  sqrtf := Real.sqrt
  cosf := Real.cos
  sinf := Real.sin

/-! ## Data model -/

/-- Class `Vector3`: three scalars. -/
structure Vector3 (F : Type) where
  x : F
  y : F
  z : F
  deriving DecidableEq

/-- Class `Texture`: `float pixels[S][S]`.  The source fixes `S = TEX_SIZE`; the
embedding is stated for every dimension `S`. -/
structure Texture (F : Type) (S : Nat) where
  pixels : Fin S → Fin S → F

/-- Class `GameObject`. -/
structure GameObject (F : Type) (S : Nat) where
  position : Vector3 F
  rotation : Vector3 F
  texture : Texture F S

/-- Class `Light`. -/
structure Light (F : Type) where
  position : Vector3 F
  intensity : F
  deriving DecidableEq

/-- Class `GameState`: one participant. -/
structure GameState (F : Type) (S : Nat) where
  player_id : Int
  objects : List (GameObject F S)
  lights : List (Light F)

/-- The assignment `pixels[ti][tj] = v`. -/
def Texture.write {F : Type} {S : Nat} (t : Texture F S) (ti tj : Fin S) (v : F) :
    Texture F S :=
  ⟨Function.update t.pixels ti (Function.update (t.pixels ti) tj v)⟩

/-- One line written to `std::cout` by `printGameState`. -/
inductive OutputLine (F : Type) where
  | playerId (id : Int) : OutputLine F
  | objectPosition (i : Nat) (x y z : F) : OutputLine F

/-! ## `sequential.cpp` -/

namespace Sequential

variable {F : Type} {S : Nat}

/-- `GameObject::updatePosition` (sequential.cpp:55-59). -/
def updatePosition (A : Arith F) (obj : GameObject F S) : GameObject F S :=
  { obj with
    position :=
      { x := A.add obj.position.x (A.mul (A.cosf obj.rotation.x) A.tenth)
        y := A.add obj.position.y (A.mul (A.sinf obj.rotation.y) A.tenth)
        z := A.add obj.position.z (A.mul (A.cosf obj.rotation.z) A.tenth) } }

/-- The local variable `distance` of `computeLighting` (sequential.cpp:92-95). -/
def distance (A : Arith F) (obj : GameObject F S) (light : Light F) : F :=
  let dx := A.sub obj.position.x light.position.x
  let dy := A.sub obj.position.y light.position.y
  let dz := A.sub obj.position.z light.position.z
  A.sqrtf (A.add (A.add (A.mul dx dx) (A.mul dy dy)) (A.mul dz dz))

/-- `GameState::computeLighting` (sequential.cpp:91-97). -/
def computeLighting (A : Arith F) (obj : GameObject F S) (light : Light F) : F :=
  A.div light.intensity (A.add (distance A obj light) A.one)

/-- The light loop of `updateGameState` (sequential.cpp:105-108): `total_light` starts at
`0.0f` and is incremented by each light's contribution, in container order. -/
def lightLoop (A : Arith F) (lights : List (Light F)) (obj : GameObject F S) : F :=
  lights.foldl (fun total_light light => A.add total_light (computeLighting A obj light)) A.zero

/-- The texel loops of `updateGameState` (sequential.cpp:111-115): rows `ti` outermost,
columns `tj` innermost, each step performing `pixels[ti][tj] *= total_light`. -/
def texelLoop (A : Arith F) (total_light : F) (tex : Texture F S) : Texture F S :=
  (List.finRange S).foldl
    (fun t ti =>
      (List.finRange S).foldl
        (fun t tj => t.write ti tj (A.mul (t.pixels ti tj) total_light)) t)
    tex

/-- The body of the object loop of `updateGameState` (sequential.cpp:102-115), returning
the updated object together with the value of the local variable `total_light`. -/
def updateObject (A : Arith F) (lights : List (Light F)) (obj : GameObject F S) :
    GameObject F S × F :=
  let obj := updatePosition A obj
  let total_light := lightLoop A lights obj
  ({ obj with texture := texelLoop A total_light obj.texture }, total_light)

/-- `GameState::updateGameState` (sequential.cpp:100-117). -/
def updateGameState (A : Arith F) (s : GameState F S) : GameState F S :=
  { s with objects := s.objects.map (fun obj => (updateObject A s.lights obj).1) }

/-- The values taken by the local variable `total_light` during one call of
`updateGameState`, one per object, in object order. -/
def totalLights (A : Arith F) (s : GameState F S) : List F :=
  s.objects.map (fun obj => (updateObject A s.lights obj).2)

/-- `GameState::printGameState` (sequential.cpp:120-127). -/
def printGameState (s : GameState F S) : List (OutputLine F) :=
  OutputLine.playerId s.player_id ::
    s.objects.enum.map
      (fun p => OutputLine.objectPosition p.1 p.2.position.x p.2.position.y p.2.position.z)

/-- One iteration of the frame loop of `main` (sequential.cpp:141-147): every state is
updated and then printed. -/
def runFrame (A : Arith F) (game_states : List (GameState F S)) :
    List (GameState F S) × List (OutputLine F) :=
  let r := game_states.map
    (fun state =>
      let state := updateGameState A state
      (state, printGameState state))
  (r.map Prod.fst, (r.map Prod.snd).flatten)

/-- The frame loop of `main` (sequential.cpp:140-148) run for `frames` iterations (the
source fixes `frames = 10`); returns the final population and everything printed. -/
def frameLoop (A : Arith F) :
    Nat → List (GameState F S) → List (GameState F S) × List (OutputLine F)
  | 0, game_states => (game_states, [])
  | frames + 1, game_states =>
    let r := runFrame A game_states
    let rest := frameLoop A frames r.1
    (rest.1, r.2 ++ rest.2)

end Sequential

/-! ## `parallel.cpp`

The OpenMP regions of `updateGameState` are modelled by their serialisations.  A
`Schedule` fixes one: the order in which the iterations of the object loop take effect,
for each object the way the `reduction(+:total_light)` clause combines the per-light
contributions with the private copies (each initialised to `0.0f`) and the original
variable, and the order in which the collapsed texel iterations are executed.  Iterations
of the object loop touch disjoint objects and only read the lights, so every
interleaving has the effect of such a serialisation. -/

namespace Parallel

variable {F : Type} {S : Nat}

/-- `GameObject::updatePosition` (parallel.cpp:60-64). -/
def updatePosition (A : Arith F) (obj : GameObject F S) : GameObject F S :=
  { obj with
    position :=
      { x := A.add obj.position.x (A.mul (A.cosf obj.rotation.x) A.tenth)
        y := A.add obj.position.y (A.mul (A.sinf obj.rotation.y) A.tenth)
        z := A.add obj.position.z (A.mul (A.cosf obj.rotation.z) A.tenth) } }

/-- `GameState::computeLighting` (parallel.cpp:94-103). -/
def computeLighting (A : Arith F) (obj : GameObject F S) (light : Light F) : F :=
  let dx := A.sub obj.position.x light.position.x
  let dy := A.sub obj.position.y light.position.y
  let dz := A.sub obj.position.z light.position.z
  let distance := A.sqrtf (A.add (A.add (A.mul dx dx) (A.mul dy dy)) (A.mul dz dz))
  A.div light.intensity (A.add distance A.one)

/-- A way of combining the iterations of a `reduction(+:total_light)` loop: `identity`
is the initial value `0.0f` of a private copy or of the original variable, `iteration i`
is the contribution of iteration `light_idx = i`, and `combine` is one application of
`+`. -/
inductive Reduction where
  | identity : Reduction
  | iteration (light_idx : Nat) : Reduction
  | combine (l r : Reduction) : Reduction

/-- The iterations occurring in a reduction, left to right. -/
def Reduction.iterations : Reduction → List Nat
  | identity => []
  | iteration light_idx => [light_idx]
  | combine l r => l.iterations ++ r.iterations

/-- The value of a reduction, given the contribution of each iteration. -/
def Reduction.eval (A : Arith F) (contribution : Nat → F) : Reduction → F
  | identity => A.zero
  | iteration light_idx => contribution light_idx
  | combine l r => A.add (l.eval A contribution) (r.eval A contribution)

/-- The reduction performed by a single thread: `((0.0f + c 0) + c 1) + ...` over the
first `n` iterations. -/
def Reduction.chain : Nat → Reduction
  | 0 => identity
  | n + 1 => combine (chain n) (iteration n)

/-- One serialisation of the parallel regions of `updateGameState`. -/
structure Schedule (S : Nat) where
  objectOrder : List Nat
  reduction : Nat → Reduction
  texelOrder : Nat → List (Fin S × Fin S)

/-- All texel indices, rows outermost. -/
def allTexels (S : Nat) : List (Fin S × Fin S) :=
  List.product (List.finRange S) (List.finRange S)

/-- A schedule executes every iteration of every loop exactly once. -/
def Schedule.Valid (sched : Schedule S) (s : GameState F S) : Prop :=
  sched.objectOrder.Perm (List.range s.objects.length) ∧
  (∀ obj_idx, (sched.reduction obj_idx).iterations.Perm (List.range s.lights.length)) ∧
  (∀ obj_idx, (sched.texelOrder obj_idx).Perm (allTexels S))

/-- The schedule of an execution with one thread. -/
def Schedule.oneThread (s : GameState F S) : Schedule S where
  objectOrder := List.range s.objects.length
  reduction := fun _ => Reduction.chain s.lights.length
  texelOrder := fun _ => allTexels S

/-- The value added by iteration `light_idx` of the reduction loop,
`computeLighting(obj, lights[light_idx])`; the loop only runs for
`light_idx < lights.size()`. -/
def contribution (A : Arith F) (lights : List (Light F)) (obj : GameObject F S)
    (light_idx : Nat) : F :=
  match lights[light_idx]? with
  | some light => computeLighting A obj light
  | none => A.zero

/-- The reduction loop of `updateGameState` (parallel.cpp:110-114). -/
def lightReduction (A : Arith F) (r : Reduction) (lights : List (Light F))
    (obj : GameObject F S) : F :=
  r.eval A (contribution A lights obj)

/-- The collapsed texel loops of `updateGameState` (parallel.cpp:116-121). -/
def texelLoop (A : Arith F) (order : List (Fin S × Fin S)) (total_light : F)
    (tex : Texture F S) : Texture F S :=
  order.foldl (fun t p => t.write p.1 p.2 (A.mul (t.pixels p.1 p.2) total_light)) tex

/-- The body of the object loop of `updateGameState` (parallel.cpp:107-121), returning
the updated object together with the final value of `total_light`. -/
def updateObject (A : Arith F) (r : Reduction) (order : List (Fin S × Fin S))
    (lights : List (Light F)) (obj : GameObject F S) : GameObject F S × F :=
  let obj := updatePosition A obj
  let total_light := lightReduction A r lights obj
  ({ obj with texture := texelLoop A order total_light obj.texture }, total_light)

/-- Iteration `obj_idx` of the object loop of `updateGameState` (parallel.cpp:106-122):
the body is applied, in place, to `objects[obj_idx]`. -/
def objectIteration (A : Arith F) (sched : Schedule S) (lights : List (Light F))
    (objects : List (GameObject F S)) (obj_idx : Nat) : List (GameObject F S) :=
  match objects[obj_idx]? with
  | some obj =>
    objects.set obj_idx
      (updateObject A (sched.reduction obj_idx) (sched.texelOrder obj_idx) lights obj).1
  | none => objects

/-- `GameState::updateGameState` (parallel.cpp:104-123) under a schedule. -/
def updateGameState (A : Arith F) (sched : Schedule S) (s : GameState F S) : GameState F S :=
  { s with objects := sched.objectOrder.foldl (objectIteration A sched s.lights) s.objects }

/-- The values of `total_light` in the iterations of the object loop, by object index:
iteration `obj_idx` of a valid schedule is the only one to touch `objects[obj_idx]`, so
it reads the object as it was before the call. -/
def totalLights (A : Arith F) (sched : Schedule S) (s : GameState F S) : List F :=
  s.objects.enum.map
    (fun p =>
      (updateObject A (sched.reduction p.1) (sched.texelOrder p.1) s.lights p.2).2)

end Parallel

/-! ## Well-formed single-precision states and the concrete states used below -/

/-- A datum that is neither an infinity nor NaN. -/
def F32.IsFinite : F32 → Prop
  | F32.fin _ _ => True
  | F32.inf _ => False
  | F32.nan => False

/-- A datum that is `+∞` or a finite number with sign bit clear. -/
def F32.NonNeg : F32 → Prop
  | F32.fin s _ => s = false
  | F32.inf s => s = false
  | F32.nan => False

/-- A datum that is `+∞` or a finite number with sign bit clear and magnitude at least
`1.0`. -/
def F32.AtLeastOne : F32 → Prop
  | F32.fin s a => s = false ∧ 2 ^ 149 ≤ a
  | F32.inf s => s = false
  | F32.nan => False

/-- The three coordinates are finite. -/
def Vector3.IsFinite (v : Vector3 F32) : Prop :=
  v.x.IsFinite ∧ v.y.IsFinite ∧ v.z.IsFinite

/-- Every scalar of the vector is a binary32 number. -/
def Vector3.IsBinary32 (v : Vector3 F32) : Prop :=
  v.x.IsBinary32 ∧ v.y.IsBinary32 ∧ v.z.IsBinary32

instance (v : Vector3 F32) : Decidable v.IsBinary32 := by
  unfold Vector3.IsBinary32
  infer_instance

/-- Every scalar of the object is a binary32 number. -/
def GameObject.IsBinary32 {S : Nat} (obj : GameObject F32 S) : Prop :=
  obj.position.IsBinary32 ∧ obj.rotation.IsBinary32 ∧
    ∀ i j, (obj.texture.pixels i j).IsBinary32

/-- Every scalar of the light is a binary32 number. -/
def Light.IsBinary32 (light : Light F32) : Prop :=
  light.position.IsBinary32 ∧ light.intensity.IsBinary32

instance (light : Light F32) : Decidable light.IsBinary32 := by
  unfold Light.IsBinary32
  infer_instance

/-- Every scalar of the participant is a binary32 number. -/
def GameState.IsBinary32 {S : Nat} (s : GameState F32 S) : Prop :=
  (∀ obj ∈ s.objects, obj.IsBinary32) ∧ ∀ light ∈ s.lights, light.IsBinary32

/-- A texture with the same value in every texel. -/
def flatTexture {F : Type} (S : Nat) (v : F) : Texture F S :=
  ⟨fun _ _ => v⟩

/-- An object with the given position and rotation and the value `v` in every texel. -/
def objectAt {F : Type} (position rotation : Vector3 F) (v : F) : GameObject F TEX_SIZE :=
  ⟨position, rotation, flatTexture TEX_SIZE v⟩

/-- A light at the origin. -/
def originLight (intensity : F32) : Light F32 :=
  ⟨⟨F32.zero, F32.zero, F32.zero⟩, intensity⟩

/-- The first scenario in single precision with rotation `(0, 0, 0)`: an object at
`(1, 0, 0)` with texels `1.0f` and a light at the origin of intensity `0.5`. -/
def unitState : GameState F32 TEX_SIZE :=
  ⟨0, [objectAt ⟨F32.one, F32.zero, F32.zero⟩ ⟨F32.zero, F32.zero, F32.zero⟩ F32.one],
    [originLight F32.half]⟩

/-- The first scenario in exact arithmetic with rotation `(0, 0, 0)`. -/
noncomputable def unitStateReal : GameState ℝ TEX_SIZE :=
  ⟨0, [objectAt ⟨1, 0, 0⟩ ⟨0, 0, 0⟩ 1], [⟨⟨0, 0, 0⟩, 1 / 2⟩]⟩

/-- The first scenario in exact arithmetic with a rotation for which `updatePosition`
does not move the object. -/
noncomputable def unitStateStill : GameState ℝ TEX_SIZE :=
  ⟨0, [objectAt ⟨1, 0, 0⟩ ⟨Real.pi / 2, 0, Real.pi / 2⟩ 1], [⟨⟨0, 0, 0⟩, 1 / 2⟩]⟩

/-- A single-precision state whose object is moved to `(1, 0, 0)` by `updatePosition`:
it starts at `(0.9f, 0, -0.1f)` with rotation `(0, 0, 0)`. -/
def unitStateArriving : GameState F32 TEX_SIZE :=
  ⟨0, [objectAt ⟨F32.round false (9 * 2 ^ 149) 10, F32.zero, F32.neg F32.tenth⟩
      ⟨F32.zero, F32.zero, F32.zero⟩ F32.one],
    [originLight F32.half]⟩

/-- The second scenario in exact arithmetic with rotation `(0, 0, 0)`: an object at
the origin with texels `1` and a light at the origin of intensity `1`. -/
noncomputable def zeroStateReal : GameState ℝ TEX_SIZE :=
  ⟨0, [objectAt ⟨0, 0, 0⟩ ⟨0, 0, 0⟩ 1], [⟨⟨0, 0, 0⟩, 1⟩]⟩

/-- The second scenario in exact arithmetic with a rotation for which `updatePosition`
does not move the object. -/
noncomputable def zeroStateStill : GameState ℝ TEX_SIZE :=
  ⟨0, [objectAt ⟨0, 0, 0⟩ ⟨Real.pi / 2, 0, Real.pi / 2⟩ 1], [⟨⟨0, 0, 0⟩, 1⟩]⟩

/-- A single-precision state whose object is moved to the origin by `updatePosition`:
it starts at `(-0.1f, 0, -0.1f)` with rotation `(0, 0, 0)`. -/
def zeroStateArriving : GameState F32 TEX_SIZE :=
  ⟨0, [objectAt ⟨F32.neg F32.tenth, F32.zero, F32.neg F32.tenth⟩
      ⟨F32.zero, F32.zero, F32.zero⟩ F32.one],
    [originLight F32.one]⟩

/-- An object at the origin with rotation `(0, 0, 0)` and texels all `1.0f`. -/
def originObject : GameObject F32 TEX_SIZE where
  position := ⟨F32.zero, F32.zero, F32.zero⟩
  rotation := ⟨F32.zero, F32.zero, F32.zero⟩
  texture := flatTexture TEX_SIZE F32.one

/-- The point `(0.1f, 0, 0.1f)`, where `updatePosition` puts `originObject`. -/
def spot : Vector3 F32 :=
  ⟨F32.tenth, F32.zero, F32.tenth⟩

/-- A light at `spot` with the given intensity. -/
def spotLight (intensity : F32) : Light F32 :=
  ⟨spot, intensity⟩

/-- Three lights of intensities `1`, `2^-24`, `2^-24`. -/
def lightsBigFirst : List (Light F32) :=
  [spotLight F32.one, spotLight (F32.fin false (2 ^ 125)), spotLight (F32.fin false (2 ^ 125))]

/-- The same three lights with the one of intensity `1` last. -/
def lightsBigLast : List (Light F32) :=
  [spotLight (F32.fin false (2 ^ 125)), spotLight (F32.fin false (2 ^ 125)), spotLight F32.one]

/-- A participant owning `originObject` and the given lights. -/
def originState (lights : List (Light F32)) : GameState F32 TEX_SIZE :=
  ⟨0, [originObject], lights⟩

/-- An object at the grid point `(5, 25, 84)` with rotation `(0, 0, 0)` and texels all
`1.0f`. -/
def gridObject : GameObject F32 TEX_SIZE :=
  objectAt ⟨F32.ofNat 5, F32.ofNat 25, F32.ofNat 84⟩ ⟨F32.zero, F32.zero, F32.zero⟩ F32.one

/-- A light at the grid point `(x, y, z)` with intensity `k / 100.0f`. -/
def gridLight (x y z k : Nat) : Light F32 :=
  ⟨⟨F32.ofNat x, F32.ofNat y, F32.ofNat z⟩, F32.div (F32.ofNat k) (F32.ofNat 100)⟩

/-- Three lights on the grid. -/
def gridLights : List (Light F32) :=
  [gridLight 27 36 5 46, gridLight 29 13 57 24, gridLight 95 82 45 14]

/-- The lights of `gridLights` in reverse order. -/
def gridLightsReversed : List (Light F32) :=
  [gridLight 95 82 45 14, gridLight 29 13 57 24, gridLight 27 36 5 46]

/-- A participant owning `gridObject` and the given lights. -/
def gridState (lights : List (Light F32)) : GameState F32 TEX_SIZE :=
  ⟨0, [gridObject], lights⟩

/-- A schedule for one object and three lights: one thread runs iteration 0, another
iterations 1 and 2, and the original variable is combined with the two private copies
in thread order. -/
def gridSchedule : Parallel.Schedule TEX_SIZE where
  objectOrder := [0]
  reduction := fun _ =>
    .combine (.combine .identity (.combine .identity (.iteration 0)))
      (.combine (.combine .identity (.iteration 1)) (.iteration 2))
  texelOrder := fun _ => Parallel.allTexels TEX_SIZE

/-- Four lights of intensities `1`, `1`, `2^-23`, `2^-23`. -/
def fourLights : List (Light F32) :=
  [spotLight F32.one, spotLight F32.one, spotLight (F32.fin false (2 ^ 126)),
    spotLight (F32.fin false (2 ^ 126))]

/-- The reduction of a team of two threads under the static schedule: thread 0 runs
iterations 0 and 1, thread 1 runs iterations 2 and 3, and the original variable is
combined with the two private copies in thread order. -/
def twoThreadReduction : Parallel.Reduction :=
  .combine
    (.combine .identity (.combine (.combine .identity (.iteration 0)) (.iteration 1)))
    (.combine (.combine .identity (.iteration 2)) (.iteration 3))

/-- A schedule for one object and four lights: the light reduction is done by two
threads, the texel loop in row-major order. -/
def twoThreadSchedule : Parallel.Schedule TEX_SIZE where
  objectOrder := [0]
  reduction := fun _ => twoThreadReduction
  texelOrder := fun _ => Parallel.allTexels TEX_SIZE

/-- An object with 2×2 texture in exact arithmetic, at `(3, 0, 4)`. -/
noncomputable def sampleObject : GameObject ℝ 2 where
  position := ⟨3, 0, 4⟩
  rotation := ⟨0, 0, 0⟩
  texture := flatTexture 2 1

/-- Two lights in exact arithmetic. -/
noncomputable def sampleLights : List (Light ℝ) :=
  [⟨⟨0, 0, 0⟩, 1 / 2⟩, ⟨⟨1, 2, 3⟩, 1 / 4⟩]

/-- The two lights of `sampleLights` in the other order. -/
noncomputable def sampleLightsSwapped : List (Light ℝ) :=
  [⟨⟨1, 2, 3⟩, 1 / 4⟩, ⟨⟨0, 0, 0⟩, 1 / 2⟩]

/-- A participant in exact arithmetic. -/
noncomputable def sampleState : GameState ℝ 2 :=
  ⟨7, [sampleObject, sampleObject], sampleLights⟩

/-- A schedule for `sampleState`: second object first, lights combined in reverse order
from the right, texels in reverse row-major order. -/
def sampleSchedule : Parallel.Schedule 2 where
  objectOrder := [1, 0]
  reduction := fun _ => .combine (.iteration 1) (.combine (.iteration 0) .identity)
  texelOrder := fun _ => (Parallel.allTexels 2).reverse

/-- A schedule for `sampleState` that reverses the object loop and the texel loop and
combines the lights in the sequential order. -/
def sampleScheduleInOrder : Parallel.Schedule 2 where
  objectOrder := [1, 0]
  reduction := fun _ => Parallel.Reduction.chain 2
  texelOrder := fun _ => (Parallel.allTexels 2).reverse

/-! ## Specification-side definitions (spec section 4.3) -/

/-- The Euclidean distance between two points of space. -/
noncomputable def euclideanDistance (p q : Vector3 ℝ) : ℝ :=
  Real.sqrt ((p.x - q.x) ^ 2 + (p.y - q.y) ^ 2 + (p.z - q.z) ^ 2)

/-- Pass 2 as the spec words it: the sum, over every light, of
`intensity / (distance(object, light) + 1)`, for an object at the point `p`. -/
noncomputable def illumination (lights : List (Light ℝ)) (p : Vector3 ℝ) : ℝ :=
  (lights.map
    (fun light => light.intensity / (euclideanDistance light.position p + 1))).sum

/-! ## Further concrete states -/

/-- A second participant in exact arithmetic: it shares its first object and its lights
with `sampleState` and differs in the remaining objects. -/
noncomputable def sampleStateOther : GameState ℝ 2 :=
  ⟨8, [sampleObject, ⟨⟨9, 9, 9⟩, ⟨1, 2, 3⟩, flatTexture 2 5⟩], sampleLights⟩

/-! ## Construction (`rand()`)

The constructors draw from `rand()`.  The generator is represented by the sequence of
the values it returns: `rand k` is the value returned by call number `k`, counting from
zero.  A constructor takes the number `n` of calls made before it starts and returns,
with the constructed value, the number of calls made when it is done.  Operator `%` on
`int` truncates towards zero (`Int.tmod`). -/

/-- The arithmetic of the constructors: the operations of `Arith`, the conversion
`static_cast<float>` of an `int`, and the literals `255.0f` and `100.0f`. -/
structure CtorArith (F : Type) extends Arith F where
  ofInt : Int → F
  twoFiftyFive : F
  hundred : F

/-- The conversion `static_cast<float>(i)` of an integer, rounded to nearest. -/
def F32.ofInt (i : Int) : F32 :=
  F32.round (decide (i < 0)) (i.natAbs * 2 ^ 149) 1

/-- Single-precision arithmetic of the constructors. -/
def binary32Ctor (m : Libm) : CtorArith F32 where
  toArith := binary32 m
  ofInt := F32.ofInt
  twoFiftyFive := F32.ofNat 255
  hundred := F32.ofNat 100

/-- Exact arithmetic of the constructors. -/
noncomputable def realCtor : CtorArith ℝ where
  toArith := realArith
  ofInt := fun i => (i : ℝ)
  twoFiftyFive := 255
  hundred := 100

/-- A finite datum with sign bit clear and magnitude below `1.0`. -/
def F32.BelowOne : F32 → Prop
  | F32.fin s a => s = false ∧ a < 2 ^ 149
  | F32.inf _ => False
  | F32.nan => False

instance (x : F32) : Decidable x.BelowOne := by
  cases x <;> unfold F32.BelowOne <;> infer_instance

/-- A finite datum with sign bit clear and magnitude at most `1.0`. -/
def F32.AtMostOne : F32 → Prop
  | F32.fin s a => s = false ∧ a ≤ 2 ^ 149
  | F32.inf _ => False
  | F32.nan => False

instance (x : F32) : Decidable x.AtMostOne := by
  cases x <;> unfold F32.AtMostOne <;> infer_instance

/-- The order in which the three arguments of a call `Vector3(a, b, c)` are evaluated;
the language leaves it to the compiler.  The constructor names list the arguments in
the order of their evaluation. -/
inductive ArgOrder where
  | xyz
  | xzy
  | yxz
  | yzx
  | zxy
  | zyx
  deriving DecidableEq

/-- The vector whose arguments evaluate, in the order of evaluation, to `first`,
`second`, `third`. -/
def ArgOrder.vector3 {F : Type} (o : ArgOrder) (first second third : F) : Vector3 F :=
  match o with
  | .xyz => ⟨first, second, third⟩
  | .xzy => ⟨first, third, second⟩
  | .yxz => ⟨second, first, third⟩
  | .yzx => ⟨third, first, second⟩
  | .zxy => ⟨second, third, first⟩
  | .zyx => ⟨third, second, first⟩

/-- What the language and the library leave open during construction: the values
returned by `rand()`, the evaluation order at the three call sites of `Vector3`, and the
indeterminate contents of `pixels` before the loops of `Texture::Texture` (for the
texture whose construction starts at call number `n`). -/
structure Platform (F : Type) (S : Nat) where
  rand : Nat → Int
  objectPosition : ArgOrder
  objectRotation : ArgOrder
  lightPosition : ArgOrder
  storage : Nat → Texture F S

/-- The expression `static_cast<float>(rand() % modulus)`, evaluated by call number
`k`. -/
def draw {F : Type} (A : CtorArith F) (rand : Nat → Int) (modulus : Int) (k : Nat) : F :=
  A.ofInt (Int.tmod (rand k) modulus)

/-- A call `Vector3(d, d, d)` with `d` the expression
`static_cast<float>(rand() % modulus)`, the first call of `rand()` being number `n`. -/
def randomVector3 {F : Type} (A : CtorArith F) (o : ArgOrder) (rand : Nat → Int)
    (modulus : Int) (n : Nat) : Vector3 F :=
  o.vector3 (draw A rand modulus n) (draw A rand modulus (n + 1))
    (draw A rand modulus (n + 2))

/-- The number of elements of the list that precede the first occurrence of `a`: for a
list of loop iterations in the order of their execution, the number of iterations
executed before iteration `a`. -/
def rank {α : Type} [DecidableEq α] (a : α) : List α → Nat
  | [] => 0
  | b :: rest => if b = a then 0 else rank a rest + 1

/-- The call `resize(count)` on an empty `std::vector`: `count` elements are
default-constructed, one after the other. -/
def resize {α : Type} (ctor : Nat → α × Nat) : Nat → Nat → List α × Nat
  | 0, n => ([], n)
  | count + 1, n =>
    let first := ctor n
    let rest := resize ctor count first.2
    (first.1 :: rest.1, rest.2)

namespace Sequential

variable {F : Type} {S : Nat}

/-- `Texture::Texture` (sequential.cpp:27-33); `pixels` is the array before the
loops. -/
def Texture.ctor (A : CtorArith F) (rand : Nat → Int) (pixels : Texture F S) (n : Nat) :
    Texture F S × Nat :=
  (List.finRange S).foldl
    (fun st i =>
      (List.finRange S).foldl
        (fun st j =>
          (st.1.write i j (A.div (draw A rand 256 st.2) A.twoFiftyFive), st.2 + 1))
        st)
    (pixels, n)

/-- `GameObject::GameObject` (sequential.cpp:44-52): the member `texture` is
default-constructed before the body runs. -/
def GameObject.ctor (A : CtorArith F) (P : Platform F S) (n : Nat) :
    GameObject F S × Nat :=
  let texture := Texture.ctor A P.rand (P.storage n) n
  let position := randomVector3 A P.objectPosition P.rand GRID_SIZE texture.2
  let rotation := randomVector3 A P.objectRotation P.rand 360 (texture.2 + 3)
  (⟨position, rotation, texture.1⟩, texture.2 + 6)

/-- `Light::Light` (sequential.cpp:69-74). -/
def Light.ctor (A : CtorArith F) (P : Platform F S) (n : Nat) : Light F × Nat :=
  let position := randomVector3 A P.lightPosition P.rand GRID_SIZE n
  let intensity := A.div (draw A P.rand 100 (n + 3)) A.hundred
  (⟨position, intensity⟩, n + 4)

/-- `GameState::GameState` (sequential.cpp:85-88). -/
def GameState.ctor (A : CtorArith F) (P : Platform F S) (id : Int) (n : Nat) :
    GameState F S × Nat :=
  let objects := resize (GameObject.ctor A P) OBJECT_COUNT n
  let lights := resize (Light.ctor A P) LIGHT_COUNT objects.2
  (⟨id, objects.1, lights.1⟩, lights.2)

/-- The initialisation loop of `main` (sequential.cpp:132-137), for `players`
participants (the source fixes `players = MAX_PLAYERS`), starting with call number `n`
of `rand()`. -/
def initialise (A : CtorArith F) (P : Platform F S) (players : Nat) (n : Nat) :
    List (GameState F S) × Nat :=
  (List.range players).foldl
    (fun st i =>
      let state := GameState.ctor A P (i : Int) st.2
      (st.1 ++ [state.1], state.2))
    ([], n)

/-- Function `main` (sequential.cpp:131-151) with `frames` iterations of the frame loop
(the source fixes `frames = 10`); returns the final population and everything
printed. -/
def main (A : CtorArith F) (P : Platform F S) (frames : Nat) :
    List (GameState F S) × List (OutputLine F) :=
  let game_states := (initialise A P MAX_PLAYERS 0).1
  frameLoop A.toArith frames game_states

end Sequential

namespace Parallel

variable {F : Type} {S : Nat}

/-- `Texture::Texture` (parallel.cpp:29-38).  Both loops are parallel regions; `order`
is the order in which the iterations `(i, j)` call `rand()` (the calls are taken to be
atomic), and `pixels` is the array before the loops. -/
def Texture.ctor (A : CtorArith F) (rand : Nat → Int) (order : List (Fin S × Fin S))
    (pixels : Texture F S) (n : Nat) : Texture F S × Nat :=
  order.foldl
    (fun st p =>
      (st.1.write p.1 p.2 (A.div (draw A rand 256 st.2) A.twoFiftyFive), st.2 + 1))
    (pixels, n)

/-- `GameObject::GameObject` (parallel.cpp:49-57); `order n` is the order of the
iterations in the construction of the texture that starts at call number `n`. -/
def GameObject.ctor (A : CtorArith F) (P : Platform F S)
    (order : Nat → List (Fin S × Fin S)) (n : Nat) : GameObject F S × Nat :=
  let texture := Texture.ctor A P.rand (order n) (P.storage n) n
  let position := randomVector3 A P.objectPosition P.rand GRID_SIZE texture.2
  let rotation := randomVector3 A P.objectRotation P.rand 360 (texture.2 + 3)
  (⟨position, rotation, texture.1⟩, texture.2 + 6)

/-- `Light::Light` (parallel.cpp:74-79). -/
def Light.ctor (A : CtorArith F) (P : Platform F S) (n : Nat) : Light F × Nat :=
  let position := randomVector3 A P.lightPosition P.rand GRID_SIZE n
  let intensity := A.div (draw A P.rand 100 (n + 3)) A.hundred
  (⟨position, intensity⟩, n + 4)

/-- `GameState::GameState` (parallel.cpp:89-92). -/
def GameState.ctor (A : CtorArith F) (P : Platform F S)
    (order : Nat → List (Fin S × Fin S)) (id : Int) (n : Nat) : GameState F S × Nat :=
  let objects := resize (GameObject.ctor A P order) OBJECT_COUNT n
  let lights := resize (Light.ctor A P) LIGHT_COUNT objects.2
  (⟨id, objects.1, lights.1⟩, lights.2)

/-- The initialisation loop of `main` (parallel.cpp:136-141). -/
def initialise (A : CtorArith F) (P : Platform F S) (order : Nat → List (Fin S × Fin S))
    (players : Nat) (n : Nat) : List (GameState F S) × Nat :=
  (List.range players).foldl
    (fun st i =>
      let state := GameState.ctor A P order (i : Int) st.2
      (st.1 ++ [state.1], state.2))
    ([], n)

/-- `GameState::printGameState` (parallel.cpp:125-132). -/
def printGameState (s : GameState F S) : List (OutputLine F) :=
  OutputLine.playerId s.player_id ::
    s.objects.enum.map
      (fun p => OutputLine.objectPosition p.1 p.2.position.x p.2.position.y p.2.position.z)

/-- What `main` of `parallel.cpp` writes: the lines of `printGameState` and, at the end
of iteration `frame` of the frame loop, the line `Wall-clock time taken: ... seconds`
(the elapsed time itself is not represented). -/
inductive Printed (F : Type) where
  | line (l : OutputLine F) : Printed F
  | wallClock (frame : Nat) : Printed F

/-- The participant loop of one iteration of the frame loop (parallel.cpp:146-151);
`sched k` is the schedule of the call of `updateGameState` on participant `k`. -/
def runFrame (A : Arith F) (sched : Nat → Schedule S) (game_states : List (GameState F S)) :
    List (GameState F S) × List (OutputLine F) :=
  let r := game_states.enum.map
    (fun p =>
      let state := updateGameState A (sched p.1) p.2
      (state, printGameState state))
  (r.map Prod.fst, (r.map Prod.snd).flatten)

/-- The frame loop of `main` (parallel.cpp:144-155): `frames` iterations starting with
iteration number `frame`; `sched f k` is the schedule in iteration `f` for
participant `k`. -/
def frameLoop (A : Arith F) (sched : Nat → Nat → Schedule S) :
    Nat → Nat → List (GameState F S) → List (GameState F S) × List (Printed F)
  | 0, _, game_states => (game_states, [])
  | frames + 1, frame, game_states =>
    let r := runFrame A (sched frame) game_states
    let rest := frameLoop A sched frames (frame + 1) r.1
    (rest.1, r.2.map Printed.line ++ Printed.wallClock frame :: rest.2)

/-- Function `main` (parallel.cpp:135-158) with `frames` iterations of the frame loop
(the source fixes `frames = 10`). -/
def main (A : CtorArith F) (P : Platform F S) (order : Nat → List (Fin S × Fin S))
    (sched : Nat → Nat → Schedule S) (frames : Nat) :
    List (GameState F S) × List (Printed F) :=
  let game_states := (initialise A P order MAX_PLAYERS 0).1
  frameLoop A.toArith sched frames 0 game_states

end Parallel


/-- A sequence of values of `rand()`: `255, 555, 855, ...`. -/
def sampleRand (k : Nat) : Int :=
  300 * k + 255

/-- A platform in exact arithmetic: arguments evaluated right to left, storage zeroed. -/
noncomputable def samplePlatform : Platform ℝ 2 :=
  ⟨sampleRand, .zyx, .zyx, .zyx, fun _ => flatTexture 2 0⟩

/-- A platform in single precision: arguments evaluated right to left, storage holding
NaN. -/
def samplePlatformF32 : Platform F32 2 :=
  ⟨sampleRand, .zyx, .zyx, .zyx, fun _ => flatTexture 2 F32.nan⟩

/-! ## Successive frames -/

/-- The value of the local variable `total_light` for object `i` in call number `f`
(counting from zero) of a succession of calls of `updateGameState` on the participant
`s`; `0.0f` when the participant has no object `i`. -/
def frameTotalLight {F : Type} {S : Nat} (A : Arith F) (s : GameState F S) (f i : Nat) : F :=
  ((Sequential.totalLights A ((Sequential.updateGameState A)^[f] s))[i]?).getD A.zero

/-- The assignments of `updatePosition` as a map on positions, for an object of rotation
`r`. -/
def advance {F : Type} (A : Arith F) (r p : Vector3 F) : Vector3 F :=
  { x := A.add p.x (A.mul (A.cosf r.x) A.tenth)
    y := A.add p.y (A.mul (A.sinf r.y) A.tenth)
    z := A.add p.z (A.mul (A.cosf r.z) A.tenth) }

/-- The claimed position after `k` calls: the initial position `p` plus `k` times
`(0.1 cos r.x, 0.1 sin r.y, 0.1 cos r.z)`. -/
noncomputable def positionAfter (r p : Vector3 ℝ) (k : Nat) : Vector3 ℝ :=
  { x := p.x + k * (0.1 * Real.cos r.x)
    y := p.y + k * (0.1 * Real.sin r.y)
    z := p.z + k * (0.1 * Real.cos r.z) }

/-- A participant in exact arithmetic that owns one object and no light. -/
noncomputable def darkState : GameState ℝ 2 :=
  ⟨0, [sampleObject], []⟩

/-- Two lights at `spot`, of intensities `1` and `2^-24 + 2^-47`. -/
def lightsRoundUp : List (Light F32) :=
  [spotLight F32.one, spotLight (F32.fin false (2 ^ 125 + 2 ^ 102))]

/-- The exact sum of the intensities of the lights, in units of `2^-149` (infinities and
NaN counted as zero). -/
def intensityUnits (lights : List (Light F32)) : Int :=
  (lights.map
    (fun light =>
      match light.intensity with
      | F32.fin s a => F32.units s a
      | F32.inf _ => 0
      | F32.nan => 0)).sum

/-! ## Comparisons in single precision -/

/-- Operator `<=` on binary32 data: false when an operand is NaN, and `-0 <= +0`. -/
def F32.le : F32 → F32 → Prop
  | F32.nan, _ => False
  | _, F32.nan => False
  | F32.inf s, F32.inf t => s = true ∨ t = false
  | F32.inf s, F32.fin _ _ => s = true
  | F32.fin _ _, F32.inf t => t = false
  | F32.fin s a, F32.fin t b => F32.units s a ≤ F32.units t b

instance (x y : F32) : Decidable (F32.le x y) := by
  cases x <;> cases y <;> unfold F32.le <;> infer_instance

/-- Operator `<` on binary32 data: false when an operand is NaN. -/
def F32.lt : F32 → F32 → Prop
  | F32.nan, _ => False
  | _, F32.nan => False
  | F32.inf s, F32.inf t => s = true ∧ t = false
  | F32.inf s, F32.fin _ _ => s = true
  | F32.fin _ _, F32.inf t => t = false
  | F32.fin s a, F32.fin t b => F32.units s a < F32.units t b

instance (x y : F32) : Decidable (F32.lt x y) := by
  cases x <;> cases y <;> unfold F32.lt <;> infer_instance

/-- The sum of the intensities of the lights, accumulated from `0.0f` in container order
in the given arithmetic. -/
def intensitySum {F : Type} (A : Arith F) (lights : List (Light F)) : F :=
  lights.foldl (fun total light => A.add total light.intensity) A.zero

/-! ## Further single-precision states, and assumptions on libm -/

/-- An object far from the origin, at `(0, 0, 1e30f)`, with rotation `(0, 0, 0)` and
texels all `1.0f`; `1e30f` is `13234890 * 2^76`. -/
def farObject : GameObject F32 TEX_SIZE :=
  objectAt ⟨F32.zero, F32.zero, F32.fin false (13234890 * 2 ^ 225)⟩
    ⟨F32.zero, F32.zero, F32.zero⟩ F32.one

/-- Two lights at `spot`, of intensities `0.5` and `0.25`. -/
def lightsDim : List (Light F32) :=
  [spotLight F32.half, spotLight F32.quarter]

/-- A participant whose object, at the origin with rotation `(0, 0, 0)`, has texels all
`+∞`, with one light at `spot` of intensity `0`. -/
def glareState : GameState F32 TEX_SIZE :=
  ⟨0, [objectAt ⟨F32.zero, F32.zero, F32.zero⟩ ⟨F32.zero, F32.zero, F32.zero⟩ (F32.inf false)],
    [spotLight F32.zero]⟩

/-- A participant whose object, at the origin with rotation `(0, 0, 0)`, has texels all
`0`, with two lights at `spot` whose intensity is the largest finite number. -/
def blindingState : GameState F32 TEX_SIZE :=
  ⟨0, [objectAt ⟨F32.zero, F32.zero, F32.zero⟩ ⟨F32.zero, F32.zero, F32.zero⟩ F32.zero],
    [spotLight (F32.fin false F32.maxFinite), spotLight (F32.fin false F32.maxFinite)]⟩

/-- A participant whose object is `farObject`, with one light at the origin of intensity
`+∞`. -/
def dazzleState : GameState F32 TEX_SIZE :=
  ⟨0, [farObject], [⟨⟨F32.zero, F32.zero, F32.zero⟩, F32.inf false⟩]⟩

/-- The operands of operator `*` for which the product is NaN although neither operand
is: a zero and an infinity. -/
def F32.InvalidProduct : F32 → F32 → Prop
  | F32.fin _ a, F32.inf _ => a = 0
  | F32.inf _, F32.fin _ b => b = 0
  | _, _ => False

instance (x y : F32) : Decidable (F32.InvalidProduct x y) := by
  cases x <;> cases y <;> unfold F32.InvalidProduct <;> infer_instance

/-- A finite datum of magnitude at most the largest finite binary32 number. -/
def F32.InRange : F32 → Prop
  | F32.fin _ a => a ≤ F32.maxFinite
  | F32.inf _ => False
  | F32.nan => False

instance (x : F32) : Decidable x.InRange := by
  cases x <;> unfold F32.InRange <;> infer_instance

/-- A libm whose `cosf` and `sinf` return, for every finite argument, a finite value of
magnitude at most `1`. -/
def Libm.Bounded (m : Libm) : Prop :=
  ∀ x : F32, x.IsFinite →
    (∃ s a, m.cosf x = F32.fin s a ∧ a ≤ 2 ^ 149) ∧
    (∃ s a, m.sinf x = F32.fin s a ∧ a ≤ 2 ^ 149)

/-- An inhabitant of `Libm` that is bounded (`cos x = 1`, `sin x = ±0`); it only shows
that the laws of `Libm` and `Libm.Bounded` can be met together. -/
def Libm.flat : Libm where
  cosf := fun _ => F32.one
  sinf := fun x =>
    match x with
    | F32.fin s _ => F32.fin s 0
    | F32.inf _ => F32.nan
    | F32.nan => F32.nan
  cosf_zero := fun _ => rfl
  sinf_zero := fun _ => rfl

/-! ## Lemmas on the loops -/

section Loops

variable {F : Type} {S : Nat}

theorem texture_write_pixels (t : Texture F S) (ti tj i j : Fin S) (v : F) :
    (t.write ti tj v).pixels i j = if i = ti ∧ j = tj then v else t.pixels i j := by
  unfold Texture.write
  by_cases hi : i = ti
  · subst hi
    by_cases hj : j = tj
    · subst hj
      simp
    · simp [Function.update_noteq hj, hj]
  · simp [Function.update_noteq hi, hi]

/-- A loop that rewrites each listed texel once, from its own current value, maps the
listed texels and leaves the others alone. -/
theorem foldl_write_pixels (f : F → F) (order : List (Fin S × Fin S))
    (hnd : order.Nodup) (tex : Texture F S) (i j : Fin S) :
    (order.foldl (fun t p => t.write p.1 p.2 (f (t.pixels p.1 p.2))) tex).pixels i j =
      if (i, j) ∈ order then f (tex.pixels i j) else tex.pixels i j := by
  induction order generalizing tex with
  | nil => simp
  | cons p rest ih =>
    obtain ⟨hp, hrest⟩ := List.nodup_cons.mp hnd
    rw [List.foldl_cons, ih hrest, texture_write_pixels]
    by_cases hmem : (i, j) ∈ rest
    · have hne : ¬ (i = p.1 ∧ j = p.2) := by
        rintro ⟨h1, h2⟩
        apply hp
        have : p = (i, j) := Prod.ext h1.symm h2.symm
        rw [this]
        exact hmem
      simp [hmem, hne]
    · by_cases hhead : (i, j) = p
      · subst hhead
        simp [hmem]
      · have hne : ¬ (i = p.1 ∧ j = p.2) := by
          rintro ⟨h1, h2⟩
          exact hhead (Prod.ext h1 h2)
        simp [hmem, hne, hhead]

/-- Two nested loops are one loop over the pairs of indices, rows outermost. -/
theorem foldl_nested_eq_product {T α β : Type} (g : T → α → β → T) (l₁ : List α)
    (l₂ : List β) (init : T) :
    l₁.foldl (fun t a => l₂.foldl (fun t b => g t a b) t) init =
      (List.product l₁ l₂).foldl (fun t p => g t p.1 p.2) init := by
  induction l₁ generalizing init with
  | nil => rfl
  | cons a rest ih =>
    have hprod : List.product (a :: rest) l₂ = l₂.map (Prod.mk a) ++ List.product rest l₂ := by
      simp [List.product]
    rw [List.foldl_cons, ih, hprod, List.foldl_append, List.foldl_map]

theorem allTexels_nodup : (Parallel.allTexels S).Nodup := by
  unfold Parallel.allTexels
  exact List.Nodup.product (List.nodup_finRange _) (List.nodup_finRange _)

theorem mem_allTexels (p : Fin S × Fin S) : p ∈ Parallel.allTexels S := by
  unfold Parallel.allTexels
  obtain ⟨i, j⟩ := p
  simp [List.mem_product]

/-- The collapsed texel loop, in any order that visits every texel once, multiplies
every texel by `total_light`. -/
theorem par_texelLoop_pixels (A : Arith F) (order : List (Fin S × Fin S))
    (horder : order.Perm (Parallel.allTexels S)) (total_light : F) (tex : Texture F S)
    (i j : Fin S) :
    (Parallel.texelLoop A order total_light tex).pixels i j =
      A.mul (tex.pixels i j) total_light := by
  unfold Parallel.texelLoop
  rw [foldl_write_pixels (fun v => A.mul v total_light) order
    (horder.nodup_iff.mpr allTexels_nodup)]
  simp [horder.mem_iff, mem_allTexels]

theorem seq_texelLoop_eq (A : Arith F) (total_light : F) (tex : Texture F S) :
    Sequential.texelLoop A total_light tex =
      Parallel.texelLoop A (Parallel.allTexels S) total_light tex := by
  have h := foldl_nested_eq_product
    (fun (t : Texture F S) ti tj => t.write ti tj (A.mul (t.pixels ti tj) total_light))
    (List.finRange S) (List.finRange S) tex
  unfold Sequential.texelLoop Parallel.texelLoop Parallel.allTexels
  rw [h]

/-- The nested texel loops multiply every texel by `total_light`. -/
theorem seq_texelLoop_pixels (A : Arith F) (total_light : F) (tex : Texture F S)
    (i j : Fin S) :
    (Sequential.texelLoop A total_light tex).pixels i j =
      A.mul (tex.pixels i j) total_light := by
  rw [seq_texelLoop_eq]
  exact par_texelLoop_pixels A _ (List.Perm.refl _) total_light tex i j

theorem texture_ext {t₁ t₂ : Texture F S} (h : ∀ i j, t₁.pixels i j = t₂.pixels i j) :
    t₁ = t₂ := by
  cases t₁
  cases t₂
  congr
  funext i j
  exact h i j

theorem objectIteration_getElem? (A : Arith F) (sched : Parallel.Schedule S)
    (lights : List (Light F)) (objects : List (GameObject F S)) (i j : Nat) :
    (Parallel.objectIteration A sched lights objects i)[j]? =
      if j = i then
        (objects[j]?).map
          (fun obj =>
            (Parallel.updateObject A (sched.reduction j) (sched.texelOrder j) lights obj).1)
      else objects[j]? := by
  unfold Parallel.objectIteration
  by_cases hji : j = i
  · subst hji
    cases hobj : objects[j]? with
    | none => simp [hobj]
    | some obj =>
      have hlt : j < objects.length := by
        by_contra hge
        rw [List.getElem?_eq_none (Nat.le_of_not_lt hge)] at hobj
        exact Option.noConfusion hobj
      simp [List.getElem?_set, hlt]
  · cases hobj : objects[i]? with
    | none => simp [hji]
    | some obj =>
      have hij : ¬ i = j := fun h => hji h.symm
      simp [List.getElem?_set, hji, hij]

/-- The object loop, in any order without repetition, applies the body to the listed
objects and leaves the others alone. -/
theorem foldl_objectIteration_getElem? (A : Arith F) (sched : Parallel.Schedule S)
    (lights : List (Light F)) (order : List Nat) (hnd : order.Nodup)
    (objects : List (GameObject F S)) (j : Nat) :
    (order.foldl (Parallel.objectIteration A sched lights) objects)[j]? =
      if j ∈ order then
        (objects[j]?).map
          (fun obj =>
            (Parallel.updateObject A (sched.reduction j) (sched.texelOrder j) lights obj).1)
      else objects[j]? := by
  induction order generalizing objects with
  | nil => simp
  | cons i rest ih =>
    obtain ⟨hi, hrest⟩ := List.nodup_cons.mp hnd
    rw [List.foldl_cons, ih hrest, objectIteration_getElem?]
    by_cases hji : j = i
    · subst hji
      simp [hi]
    · by_cases hmem : j ∈ rest
      · simp [hji, hmem]
      · simp [hji, hmem]

/-- Under a valid schedule the parallel object loop applies the body, with the schedule
of that iteration, to every object. -/
theorem par_updateGameState_objects (A : Arith F) (sched : Parallel.Schedule S)
    (s : GameState F S) (hvalid : sched.Valid s) :
    (Parallel.updateGameState A sched s).objects =
      s.objects.enum.map
        (fun p =>
          (Parallel.updateObject A (sched.reduction p.1) (sched.texelOrder p.1)
            s.lights p.2).1) := by
  obtain ⟨horder, -, -⟩ := hvalid
  apply List.ext_getElem?
  intro j
  show (sched.objectOrder.foldl (Parallel.objectIteration A sched s.lights) s.objects)[j]? = _
  rw [foldl_objectIteration_getElem? A sched s.lights sched.objectOrder
    (horder.nodup_iff.mpr (List.nodup_range _)) s.objects j]
  by_cases hj : j < s.objects.length
  · have hmem : j ∈ sched.objectOrder := horder.mem_iff.mpr (List.mem_range.mpr hj)
    simp [hmem, List.getElem?_eq_getElem hj, hj]
  · have hmem : ¬ j ∈ sched.objectOrder := fun h => hj (List.mem_range.mp (horder.mem_iff.mp h))
    have hge : s.objects.length ≤ j := Nat.le_of_not_lt hj
    simp [hmem, List.getElem?_eq_none hge, hge]

theorem par_computeLighting_eq {F : Type} (A : Arith F) (obj : GameObject F S)
    (light : Light F) :
    Parallel.computeLighting A obj light = Sequential.computeLighting A obj light :=
  rfl

theorem map_range_contribution {F : Type} (A : Arith F) (lights : List (Light F))
    (obj : GameObject F S) :
    (List.range lights.length).map (Parallel.contribution A lights obj) =
      lights.map (Parallel.computeLighting A obj) := by
  apply List.ext_getElem
  · simp
  · intro i h1 h2
    have hi : i < lights.length := by simpa using h2
    simp [Parallel.contribution, List.getElem?_eq_getElem hi]

theorem enum_map_congr {α β : Type} (l : List α) (f : Nat × α → β) (g : α → β)
    (h : ∀ p ∈ l.enum, f p = g p.2) : l.enum.map f = l.map g := by
  rw [List.map_congr_left h]
  conv_rhs => rw [← List.enum_map_snd l]
  rw [List.map_map]
  rfl

/-- With a texel order that visits every texel once and a reduction whose value is the
total of the sequential light loop, the parallel body is the sequential body. -/
theorem par_updateObject_eq (A : Arith F) (r : Parallel.Reduction)
    (order : List (Fin S × Fin S)) (lights : List (Light F)) (obj : GameObject F S)
    (horder : order.Perm (Parallel.allTexels S))
    (htotal : Parallel.lightReduction A r lights (Sequential.updatePosition A obj) =
      Sequential.lightLoop A lights (Sequential.updatePosition A obj)) :
    Parallel.updateObject A r order lights obj = Sequential.updateObject A lights obj := by
  have htex : Parallel.texelLoop A order
      (Sequential.lightLoop A lights (Sequential.updatePosition A obj))
      (Sequential.updatePosition A obj).texture =
      Sequential.texelLoop A (Sequential.lightLoop A lights (Sequential.updatePosition A obj))
        (Sequential.updatePosition A obj).texture := by
    apply texture_ext
    intro i j
    rw [par_texelLoop_pixels A order horder, seq_texelLoop_pixels]
  show ((⟨(Sequential.updatePosition A obj).position, (Sequential.updatePosition A obj).rotation,
      Parallel.texelLoop A order
        (Parallel.lightReduction A r lights (Sequential.updatePosition A obj))
        (Sequential.updatePosition A obj).texture⟩ : GameObject F S),
      Parallel.lightReduction A r lights (Sequential.updatePosition A obj)) = _
  rw [htotal, htex]
  rfl

/-- The reduction of a single thread is the sequential accumulation. -/
theorem chain_eval (A : Arith F) (c : Nat → F) (n : Nat) :
    (Parallel.Reduction.chain n).eval A c =
      (List.range n).foldl (fun total i => A.add total (c i)) A.zero := by
  induction n with
  | zero => rfl
  | succ n ih =>
    rw [List.range_succ, List.foldl_append, ← ih]
    rfl

theorem par_lightReduction_chain (A : Arith F) (lights : List (Light F))
    (obj : GameObject F S) :
    Parallel.lightReduction A (Parallel.Reduction.chain lights.length) lights obj =
      Sequential.lightLoop A lights obj := by
  unfold Parallel.lightReduction Sequential.lightLoop
  rw [chain_eval]
  have h := List.foldl_map (Parallel.contribution A lights obj)
    (fun total c => A.add total c) (List.range lights.length) A.zero
  rw [← h, map_range_contribution, List.foldl_map]
  rfl

theorem chain_iterations (n : Nat) :
    (Parallel.Reduction.chain n).iterations = List.range n := by
  induction n with
  | zero => rfl
  | succ n ih =>
    rw [List.range_succ, ← ih]
    rfl

theorem oneThread_valid (s : GameState F S) : (Parallel.Schedule.oneThread s).Valid s := by
  refine ⟨List.Perm.refl _, fun _ => ?_, fun _ => List.Perm.refl _⟩
  show (Parallel.Reduction.chain s.lights.length).iterations.Perm _
  rw [chain_iterations]

/-- Under a valid schedule whose reductions all yield the total of the sequential light
loop, the parallel update is the sequential update. -/
theorem par_updateGameState_eq (A : Arith F) (sched : Parallel.Schedule S) (s : GameState F S)
    (hvalid : sched.Valid s)
    (htotal : ∀ (obj_idx : Nat) (obj : GameObject F S),
      Parallel.lightReduction A (sched.reduction obj_idx) s.lights
          (Sequential.updatePosition A obj) =
        Sequential.lightLoop A s.lights (Sequential.updatePosition A obj)) :
    Parallel.updateGameState A sched s = Sequential.updateGameState A s := by
  have hobjs := par_updateGameState_objects A sched s hvalid
  have hmap : s.objects.enum.map
      (fun p =>
        (Parallel.updateObject A (sched.reduction p.1) (sched.texelOrder p.1)
          s.lights p.2).1) =
      s.objects.map (fun obj => (Sequential.updateObject A s.lights obj).1) := by
    apply enum_map_congr
    intro p _
    rw [par_updateObject_eq A _ _ s.lights p.2 (hvalid.2.2 p.1) (htotal p.1 p.2)]
  show ({ s with objects := (Parallel.updateGameState A sched s).objects } :
    GameState F S) = _
  rw [hobjs, hmap]
  rfl

/-- Under a valid schedule that combines every reduction in the sequential order the
parallel update is the sequential update, in every arithmetic. -/
theorem par_updateGameState_chain (A : Arith F) (sched : Parallel.Schedule S)
    (s : GameState F S) (hvalid : sched.Valid s)
    (hchain : ∀ obj_idx, sched.reduction obj_idx = Parallel.Reduction.chain s.lights.length) :
    Parallel.updateGameState A sched s = Sequential.updateGameState A s := by
  apply par_updateGameState_eq A sched s hvalid
  intro obj_idx obj
  rw [hchain obj_idx]
  exact par_lightReduction_chain A s.lights _

/-- Run by one thread, `parallel.cpp` computes what `sequential.cpp` computes, in every
arithmetic. -/
theorem par_updateGameState_oneThread (A : Arith F) (s : GameState F S) :
    Parallel.updateGameState A (Parallel.Schedule.oneThread s) s =
      Sequential.updateGameState A s :=
  par_updateGameState_chain A _ s (oneThread_valid s) (fun _ => rfl)

theorem par_updateGameState_positions (A : Arith F) (sched : Parallel.Schedule S)
    (s : GameState F S) (hvalid : sched.Valid s) :
    (Parallel.updateGameState A sched s).objects.map (fun obj => obj.position) =
      (Sequential.updateGameState A s).objects.map (fun obj => obj.position) := by
  rw [par_updateGameState_objects A sched s hvalid]
  show _ = (s.objects.map (fun obj => (Sequential.updateObject A s.lights obj).1)).map _
  rw [List.map_map, List.map_map]
  exact enum_map_congr s.objects _ _ (fun _ _ => rfl)

/-- Under a valid texel order the parallel body multiplies every texel by the
`total_light` it computed. -/
theorem par_updateObject_fst_pixels {F : Type} {S : Nat} (A : Arith F)
    (r : Parallel.Reduction) (order : List (Fin S × Fin S))
    (horder : order.Perm (Parallel.allTexels S)) (lights : List (Light F))
    (obj : GameObject F S) (i j : Fin S) :
    (Parallel.updateObject A r order lights obj).1.texture.pixels i j =
      A.mul (obj.texture.pixels i j) (Parallel.updateObject A r order lights obj).2 := by
  show (Parallel.texelLoop A order (Parallel.lightReduction A r lights
    (Parallel.updatePosition A obj)) (Parallel.updatePosition A obj).texture).pixels i j = _
  rw [par_texelLoop_pixels A order horder]
  rfl

end Loops


/-! ## Frame effect and population invariants -/

section Frame

variable {F : Type} {S : Nat}

theorem seq_updateObject_fst_rotation (A : Arith F) (lights : List (Light F))
    (obj : GameObject F S) :
    (Sequential.updateObject A lights obj).1.rotation = obj.rotation :=
  rfl

/-- The loop body multiplies every texel by the `total_light` it computed. -/
theorem seq_updateObject_fst_pixels (A : Arith F) (lights : List (Light F))
    (obj : GameObject F S) (i j : Fin S) :
    (Sequential.updateObject A lights obj).1.texture.pixels i j =
      A.mul (obj.texture.pixels i j) (Sequential.updateObject A lights obj).2 := by
  show (Sequential.texelLoop A (Sequential.lightLoop A lights (Sequential.updatePosition A obj))
    (Sequential.updatePosition A obj).texture).pixels i j = _
  rw [seq_texelLoop_pixels]
  rfl

theorem seq_updateGameState_objects_length (A : Arith F) (s : GameState F S) :
    (Sequential.updateGameState A s).objects.length = s.objects.length := by
  simp [Sequential.updateGameState]

theorem seq_runFrame_fst (A : Arith F) (game_states : List (GameState F S)) :
    (Sequential.runFrame A game_states).1 =
      game_states.map (Sequential.updateGameState A) := by
  simp [Sequential.runFrame, Function.comp_def]

/-- The frame loop applies `updateGameState` to every participant, `frames` times. -/
theorem seq_frameLoop_fst (A : Arith F) (frames : Nat)
    (game_states : List (GameState F S)) :
    (Sequential.frameLoop A frames game_states).1 =
      game_states.map (fun s => (Sequential.updateGameState A)^[frames] s) := by
  induction frames generalizing game_states with
  | zero => simp [Sequential.frameLoop]
  | succ n ih =>
    simp only [Sequential.frameLoop, ih, seq_runFrame_fst, List.map_map,
      Function.iterate_succ]

theorem seq_iterate_updateGameState_counts (A : Arith F) (frames : Nat)
    (s : GameState F S) :
    ((Sequential.updateGameState A)^[frames] s).objects.length = s.objects.length ∧
      ((Sequential.updateGameState A)^[frames] s).lights.length = s.lights.length := by
  induction frames generalizing s with
  | zero => simp
  | succ n ih =>
    rw [Function.iterate_succ_apply]
    obtain ⟨h1, h2⟩ := ih (Sequential.updateGameState A s)
    rw [h1, h2]
    simp [Sequential.updateGameState]

/-- The texels of a participant with a single object after the sequential update. -/
theorem seq_texels_single (A : Arith F) (id : Int) (obj : GameObject F S)
    (lights : List (Light F)) (ti tj : Fin S) :
    (Sequential.updateGameState A ⟨id, [obj], lights⟩).objects.map
        (fun o => o.texture.pixels ti tj) =
      [A.mul (obj.texture.pixels ti tj)
        (Sequential.lightLoop A lights (Sequential.updatePosition A obj))] := by
  simp only [Sequential.updateGameState, List.map_cons, List.map_nil]
  rw [seq_updateObject_fst_pixels]
  rfl

/-- The texels of a participant with a single object after the parallel update. -/
theorem par_texels_single (A : Arith F) (sched : Parallel.Schedule S) (id : Int)
    (obj : GameObject F S) (lights : List (Light F))
    (hvalid : sched.Valid ⟨id, [obj], lights⟩) (ti tj : Fin S) :
    (Parallel.updateGameState A sched ⟨id, [obj], lights⟩).objects.map
        (fun o => o.texture.pixels ti tj) =
      [A.mul (obj.texture.pixels ti tj)
        (Parallel.lightReduction A (sched.reduction 0) lights
          (Sequential.updatePosition A obj))] := by
  rw [par_updateGameState_objects A sched _ hvalid]
  simp only [List.enum_cons, List.enumFrom_cons, List.enumFrom_nil, List.enum_nil,
    List.map_cons, List.map_nil]
  rw [par_updateObject_fst_pixels A (sched.reduction 0) (sched.texelOrder 0) (hvalid.2.2 0)]
  rfl

theorem seq_totalLights_getElem? (A : Arith F) (s : GameState F S) (i : Nat) :
    (Sequential.totalLights A s)[i]? =
      (s.objects[i]?).map
        (fun obj => Sequential.lightLoop A s.lights (Sequential.updatePosition A obj)) := by
  unfold Sequential.totalLights
  rw [List.getElem?_map]
  rfl

theorem seq_updateGameState_texel_getElem? (A : Arith F) (s : GameState F S) (i : Nat)
    (ti tj : Fin S) :
    ((Sequential.updateGameState A s).objects[i]?).map (fun obj => obj.texture.pixels ti tj) =
      (s.objects[i]?).map
        (fun obj => A.mul (obj.texture.pixels ti tj)
          (Sequential.lightLoop A s.lights (Sequential.updatePosition A obj))) := by
  unfold Sequential.updateGameState
  simp only [List.getElem?_map, Option.map_map]
  congr 1
  funext obj
  exact seq_updateObject_fst_pixels A s.lights obj ti tj

/-- The outcome of one frame for object `i` of a participant with a single light, from
the value of the light loop at the updated object. -/
theorem seq_single_light_outcome (A : Arith F) (s : GameState F S) (i : Nat)
    (obj : GameObject F S) (light : Light F) (total v w : F) (hl : s.lights = [light])
    (ho : s.objects[i]? = some obj)
    (htotal : Sequential.lightLoop A [light] (Sequential.updatePosition A obj) = total)
    (htex : ∀ ti tj, obj.texture.pixels ti tj = v) (hmul : A.mul v total = w) :
    (Sequential.totalLights A s)[i]? = some total ∧
      ∀ ti tj : Fin S,
        ((Sequential.updateGameState A s).objects[i]?).map
          (fun o => o.texture.pixels ti tj) = some w := by
  constructor
  · rw [seq_totalLights_getElem?, ho, hl, Option.map_some', htotal]
  · intro ti tj
    rw [seq_updateGameState_texel_getElem?, ho, hl, Option.map_some', htotal, htex, hmul]

theorem seq_totalLights_eq_map (A : Arith F) (s : GameState F S) :
    Sequential.totalLights A s =
      (Sequential.updateGameState A s).objects.map
        (fun obj => Sequential.lightLoop A s.lights obj) := by
  unfold Sequential.totalLights Sequential.updateGameState
  rw [List.map_map]
  rfl

theorem seq_texels_eq_zipWith (A : Arith F) (s : GameState F S) (ti tj : Fin S) :
    (Sequential.updateGameState A s).objects.map (fun obj => obj.texture.pixels ti tj) =
      List.zipWith (fun obj total_light => A.mul (obj.texture.pixels ti tj) total_light)
        s.objects (Sequential.totalLights A s) := by
  unfold Sequential.updateGameState Sequential.totalLights
  generalize s.lights = lights
  induction s.objects with
  | nil => rfl
  | cons obj rest ih =>
    simp only [List.map_cons, List.zipWith_cons_cons]
    rw [← ih, seq_updateObject_fst_pixels]

theorem zipWith_enum_map {α β γ : Type} (f : α → β → γ) (g : Nat × α → β) (l : List α) :
    List.zipWith f l (l.enum.map g) = l.enum.map (fun p => f p.2 (g p)) := by
  apply List.ext_getElem?
  intro i
  rw [List.getElem?_zipWith, List.getElem?_map, List.getElem?_map, List.getElem?_enum]
  cases l[i]? <;> rfl

theorem par_texels_eq_zipWith (A : Arith F) (sched : Parallel.Schedule S) (s : GameState F S)
    (hvalid : sched.Valid s) (ti tj : Fin S) :
    (Parallel.updateGameState A sched s).objects.map (fun obj => obj.texture.pixels ti tj) =
      List.zipWith (fun obj total_light => A.mul (obj.texture.pixels ti tj) total_light)
        s.objects (Parallel.totalLights A sched s) := by
  rw [par_updateGameState_objects A sched s hvalid]
  unfold Parallel.totalLights
  rw [zipWith_enum_map, List.map_map]
  apply List.map_congr_left
  intro p _
  exact par_updateObject_fst_pixels A (sched.reduction p.1) (sched.texelOrder p.1)
    (hvalid.2.2 p.1) s.lights p.2 ti tj

end Frame

/-! ## Exact arithmetic -/

section Exact

variable {S : Nat}

theorem seq_distance_real (obj : GameObject ℝ S) (light : Light ℝ) :
    Sequential.distance realArith obj light =
      euclideanDistance light.position obj.position := by
  have h : (obj.position.x - light.position.x) * (obj.position.x - light.position.x) +
      (obj.position.y - light.position.y) * (obj.position.y - light.position.y) +
      (obj.position.z - light.position.z) * (obj.position.z - light.position.z) =
      (light.position.x - obj.position.x) ^ 2 + (light.position.y - obj.position.y) ^ 2 +
        (light.position.z - obj.position.z) ^ 2 := by
    ring
  show Real.sqrt _ = Real.sqrt _
  exact congrArg Real.sqrt h

theorem seq_computeLighting_real (obj : GameObject ℝ S) (light : Light ℝ) :
    Sequential.computeLighting realArith obj light =
      light.intensity / (euclideanDistance light.position obj.position + 1) := by
  unfold Sequential.computeLighting
  rw [seq_distance_real]
  rfl

theorem foldl_add_eq_sum {α : Type} (c : α → ℝ) (l : List α) (init : ℝ) :
    l.foldl (fun total a => total + c a) init = init + (l.map c).sum := by
  induction l generalizing init with
  | nil => simp
  | cons a rest ih =>
    rw [List.foldl_cons, ih, List.map_cons, List.sum_cons]
    ring

/-- In exact arithmetic the light loop computes the sum of the contributions. -/
theorem seq_lightLoop_real (lights : List (Light ℝ)) (obj : GameObject ℝ S) :
    Sequential.lightLoop realArith lights obj = illumination lights obj.position := by
  unfold Sequential.lightLoop illumination
  have h := foldl_add_eq_sum (fun light => Sequential.computeLighting realArith obj light)
    lights 0
  have hc : (fun light : Light ℝ => Sequential.computeLighting realArith obj light) =
      fun light => light.intensity / (euclideanDistance light.position obj.position + 1) := by
    funext light
    exact seq_computeLighting_real obj light
  rw [hc, zero_add] at h
  exact h

theorem illumination_perm {lights lights' : List (Light ℝ)} (h : lights.Perm lights')
    (p : Vector3 ℝ) : illumination lights p = illumination lights' p := by
  unfold illumination
  exact List.Perm.sum_eq (List.Perm.map _ h)

theorem seq_totalLights_real (s : GameState ℝ S) :
    Sequential.totalLights realArith s =
      s.objects.map
        (fun obj => illumination s.lights (Sequential.updatePosition realArith obj).position) := by
  unfold Sequential.totalLights
  apply List.map_congr_left
  intro obj _
  exact seq_lightLoop_real s.lights (Sequential.updatePosition realArith obj)

/-- In exact arithmetic a reduction is the sum of the contributions of its iterations. -/
theorem reduction_eval_real (c : Nat → ℝ) (r : Parallel.Reduction) :
    r.eval realArith c = (r.iterations.map c).sum := by
  induction r with
  | identity => rfl
  | iteration i => simp [Parallel.Reduction.eval, Parallel.Reduction.iterations]
  | combine l r ihl ihr =>
    simp only [Parallel.Reduction.eval, Parallel.Reduction.iterations, List.map_append,
      List.sum_append, ihl, ihr]
    rfl

/-- In exact arithmetic every reduction that uses each light once yields the total of
the sequential light loop. -/
theorem par_lightReduction_real (r : Parallel.Reduction) (lights : List (Light ℝ))
    (hr : r.iterations.Perm (List.range lights.length)) (obj : GameObject ℝ S) :
    Parallel.lightReduction realArith r lights obj =
      Sequential.lightLoop realArith lights obj := by
  unfold Parallel.lightReduction
  rw [reduction_eval_real, List.Perm.sum_eq (List.Perm.map _ hr), map_range_contribution,
    seq_lightLoop_real]
  unfold illumination
  congr 1
  apply List.map_congr_left
  intro light _
  rw [par_computeLighting_eq, seq_computeLighting_real]

/-- In exact arithmetic the parallel body, under any valid schedule, is the sequential
body. -/
theorem par_updateObject_real (r : Parallel.Reduction) (order : List (Fin S × Fin S))
    (lights : List (Light ℝ)) (obj : GameObject ℝ S)
    (hr : r.iterations.Perm (List.range lights.length))
    (horder : order.Perm (Parallel.allTexels S)) :
    Parallel.updateObject realArith r order lights obj =
      Sequential.updateObject realArith lights obj :=
  par_updateObject_eq realArith r order lights obj horder
    (par_lightReduction_real r lights hr _)

theorem lightLoop_half_real (obj : GameObject ℝ S) (h : obj.position = ⟨1, 0, 0⟩) :
    Sequential.lightLoop realArith [⟨⟨0, 0, 0⟩, 1 / 2⟩] obj = 1 / 4 := by
  simp only [Sequential.lightLoop, Sequential.computeLighting, Sequential.distance, h,
    realArith, List.foldl]
  norm_num

theorem lightLoop_one_real (obj : GameObject ℝ S) (h : obj.position = ⟨0, 0, 0⟩) :
    Sequential.lightLoop realArith [⟨⟨0, 0, 0⟩, 1⟩] obj = 1 := by
  simp only [Sequential.lightLoop, Sequential.computeLighting, Sequential.distance, h,
    realArith, List.foldl]
  norm_num

/-- In exact arithmetic an object whose rotation has `cos x = sin y = cos z = 0` is not
moved by `updatePosition`. -/
theorem updatePosition_still (obj : GameObject ℝ S) (hx : Real.cos obj.rotation.x = 0)
    (hy : Real.sin obj.rotation.y = 0) (hz : Real.cos obj.rotation.z = 0) :
    (Sequential.updatePosition realArith obj).position = obj.position := by
  simp only [Sequential.updatePosition, realArith, hx, hy, hz, zero_mul, add_zero]

theorem half_div_ne (d : ℝ) (hd0 : 0 ≤ d) (hd : d ≠ 1) : 0 + 1 / 2 / (d + 1) ≠ 1 / 4 := by
  intro h
  apply hd
  have hne : d + 1 ≠ 0 := by positivity
  field_simp at h
  linarith

theorem one_div_ne (d : ℝ) (hd0 : 0 < d) : 0 + 1 / (d + 1) ≠ 1 := by
  intro h
  have hne : d + 1 ≠ 0 := by positivity
  field_simp at h
  linarith

/-- In exact arithmetic, with rotation `(0, 0, 0)`, the object of the first scenario is
lit with a total other than `1 / 4`. -/
theorem lightLoop_unitStateReal (obj : GameObject ℝ S) (hp : obj.position = ⟨1, 0, 0⟩)
    (hr : obj.rotation = ⟨0, 0, 0⟩) :
    Sequential.lightLoop realArith [⟨⟨0, 0, 0⟩, 1 / 2⟩]
      (Sequential.updatePosition realArith obj) ≠ 1 / 4 := by
  simp only [Sequential.lightLoop, Sequential.computeLighting, Sequential.distance,
    Sequential.updatePosition, hp, hr, realArith, List.foldl, Real.cos_zero, Real.sin_zero]
  apply half_div_ne _ (Real.sqrt_nonneg _)
  intro h
  rw [Real.sqrt_eq_one] at h
  norm_num at h

/-- In exact arithmetic, with rotation `(0, 0, 0)`, the object of the second scenario is
lit with a total other than `1`. -/
theorem lightLoop_zeroStateReal (obj : GameObject ℝ S) (hp : obj.position = ⟨0, 0, 0⟩)
    (hr : obj.rotation = ⟨0, 0, 0⟩) :
    Sequential.lightLoop realArith [⟨⟨0, 0, 0⟩, 1⟩]
      (Sequential.updatePosition realArith obj) ≠ 1 := by
  simp only [Sequential.lightLoop, Sequential.computeLighting, Sequential.distance,
    Sequential.updatePosition, hp, hr, realArith, List.foldl, Real.cos_zero, Real.sin_zero]
  apply one_div_ne
  apply Real.sqrt_pos.mpr
  norm_num

/-- In exact arithmetic the parallel update, under any valid schedule, is the sequential
update. -/
theorem par_updateGameState_real (sched : Parallel.Schedule S) (s : GameState ℝ S)
    (hvalid : sched.Valid s) :
    Parallel.updateGameState realArith sched s = Sequential.updateGameState realArith s :=
  par_updateGameState_eq realArith sched s hvalid
    (fun obj_idx _ => par_lightReduction_real _ s.lights (hvalid.2.1 obj_idx) _)

theorem par_totalLights_real (sched : Parallel.Schedule S) (s : GameState ℝ S)
    (hvalid : sched.Valid s) :
    Parallel.totalLights realArith sched s = Sequential.totalLights realArith s := by
  unfold Parallel.totalLights Sequential.totalLights
  apply enum_map_congr
  intro p _
  rw [par_updateObject_real _ _ s.lights p.2 (hvalid.2.1 p.1) (hvalid.2.2 p.1)]

theorem seq_totalLights_real_updated (s : GameState ℝ S) :
    Sequential.totalLights realArith s =
      (Sequential.updateGameState realArith s).objects.map
        (fun obj => illumination s.lights obj.position) := by
  rw [seq_totalLights_eq_map]
  apply List.map_congr_left
  intro obj _
  exact seq_lightLoop_real s.lights obj

end Exact

/-! ## Single precision -/

theorem f32_mul_comm (x y : F32) : F32.mul x y = F32.mul y x := by
  cases x <;> cases y <;> simp [F32.mul, Bool.xor_comm, Nat.mul_comm]

/-- The literal `0.1f` is `13421773 * 2^-27` (bit pattern `0x3DCCCCCD`). -/
theorem tenth_eq : F32.tenth = F32.fin false (13421773 * 2 ^ 122) := by
  decide

theorem lightsBig_perm : lightsBigFirst.Perm lightsBigLast := by
  show ([spotLight F32.one] ++
      [spotLight (F32.fin false (2 ^ 125)), spotLight (F32.fin false (2 ^ 125))]).Perm
    ([spotLight (F32.fin false (2 ^ 125)), spotLight (F32.fin false (2 ^ 125))] ++
      [spotLight F32.one])
  exact List.perm_append_comm

theorem origin_advanced (m : Libm) :
    (Sequential.updatePosition (binary32 m) originObject).position = spot := by
  simp only [Sequential.updatePosition, originObject, binary32, F32.zero, m.cosf_zero,
    m.sinf_zero, spot]
  decide

theorem lightLoop_bigFirst (m : Libm) {S : Nat} (obj : GameObject F32 S)
    (h : obj.position = spot) :
    Sequential.lightLoop (binary32 m) lightsBigFirst obj = F32.one := by
  simp only [Sequential.lightLoop, Sequential.computeLighting, Sequential.distance, h,
    lightsBigFirst, spotLight, binary32, List.foldl]
  decide

theorem lightLoop_bigLast (m : Libm) {S : Nat} (obj : GameObject F32 S)
    (h : obj.position = spot) :
    Sequential.lightLoop (binary32 m) lightsBigLast obj = F32.fin false (2 ^ 149 + 2 ^ 126) := by
  simp only [Sequential.lightLoop, Sequential.computeLighting, Sequential.distance, h,
    lightsBigLast, spotLight, binary32, List.foldl]
  decide

theorem seq_totalLights_origin (m : Libm) (lights : List (Light F32)) :
    Sequential.totalLights (binary32 m) (originState lights) =
      [Sequential.lightLoop (binary32 m) lights
        (Sequential.updatePosition (binary32 m) originObject)] :=
  rfl

theorem originState_isBinary32 (lights : List (Light F32))
    (h : ∀ light ∈ lights, light.IsBinary32) : (originState lights).IsBinary32 := by
  refine ⟨?_, h⟩
  intro obj hobj
  have hobj' : obj = originObject := by simpa [originState] using hobj
  subst hobj'
  refine ⟨by decide, by decide, fun _ _ => ?_⟩
  show F32.one.IsBinary32
  decide

theorem lightLoop_four (m : Libm) {S : Nat} (obj : GameObject F32 S)
    (h : obj.position = spot) :
    Sequential.lightLoop (binary32 m) fourLights obj = F32.fin false (2 ^ 150) := by
  simp only [Sequential.lightLoop, Sequential.computeLighting, Sequential.distance, h,
    fourLights, spotLight, binary32, List.foldl]
  decide

theorem lightReduction_twoThread (m : Libm) {S : Nat} (obj : GameObject F32 S)
    (h : obj.position = spot) (obj_idx : Nat) :
    Parallel.lightReduction (binary32 m) (twoThreadSchedule.reduction obj_idx) fourLights obj =
      F32.fin false (2 ^ 150 + 2 ^ 127) := by
  simp only [Parallel.lightReduction, Parallel.Reduction.eval, twoThreadReduction,
    twoThreadSchedule,
    Parallel.contribution, Parallel.computeLighting, h, fourLights, spotLight, binary32,
    List.getElem?_cons_zero, List.getElem?_cons_succ]
  decide

theorem twoThreadSchedule_valid : twoThreadSchedule.Valid (originState fourLights) := by
  refine ⟨?_, fun _ => ?_, fun _ => List.Perm.refl _⟩
  · exact List.Perm.refl _
  · exact List.Perm.refl _

theorem originObject_pixels (ti tj : Fin TEX_SIZE) :
    originObject.texture.pixels ti tj = F32.one :=
  rfl

theorem f32_one_mul_two : F32.mul F32.one (F32.fin false (2 ^ 150)) = F32.fin false (2 ^ 150) := by
  decide

theorem f32_one_mul_two_ulp :
    F32.mul F32.one (F32.fin false (2 ^ 150 + 2 ^ 127)) = F32.fin false (2 ^ 150 + 2 ^ 127) := by
  decide

theorem sampleSchedule_valid : sampleSchedule.Valid sampleState := by
  refine ⟨?_, fun _ => ?_, fun _ => List.reverse_perm _⟩
  · exact List.Perm.swap 0 1 []
  · exact List.Perm.swap 0 1 []

theorem sampleScheduleInOrder_valid : sampleScheduleInOrder.Valid sampleState := by
  refine ⟨?_, fun _ => ?_, fun _ => List.reverse_perm _⟩
  · exact List.Perm.swap 0 1 []
  · exact List.Perm.refl _

theorem sampleLights_perm : sampleState.lights.Perm sampleLightsSwapped :=
  List.Perm.swap _ _ []

theorem lightLoop_half_f32 (m : Libm) {S : Nat} (obj : GameObject F32 S)
    (h : obj.position = ⟨F32.one, F32.zero, F32.zero⟩) :
    Sequential.lightLoop (binary32 m) [originLight F32.half] obj = F32.quarter := by
  simp only [Sequential.lightLoop, Sequential.computeLighting, Sequential.distance, h,
    originLight, binary32, List.foldl]
  decide

theorem lightLoop_one_f32 (m : Libm) {S : Nat} (obj : GameObject F32 S)
    (h : obj.position = ⟨F32.zero, F32.zero, F32.zero⟩) :
    Sequential.lightLoop (binary32 m) [originLight F32.one] obj = F32.one := by
  simp only [Sequential.lightLoop, Sequential.computeLighting, Sequential.distance, h,
    originLight, binary32, List.foldl]
  decide

theorem unit_advanced (m : Libm) {S : Nat} (obj : GameObject F32 S)
    (hp : obj.position = ⟨F32.one, F32.zero, F32.zero⟩)
    (hr : obj.rotation = ⟨F32.zero, F32.zero, F32.zero⟩) :
    (Sequential.updatePosition (binary32 m) obj).position =
      ⟨F32.fin false (9227469 * 2 ^ 126), F32.zero, F32.tenth⟩ := by
  simp only [Sequential.updatePosition, hp, hr, binary32, F32.zero, m.cosf_zero,
    m.sinf_zero]
  decide

theorem arriving_at_unit (m : Libm) {S : Nat} (obj : GameObject F32 S)
    (hp : obj.position = ⟨F32.round false (9 * 2 ^ 149) 10, F32.zero, F32.neg F32.tenth⟩)
    (hr : obj.rotation = ⟨F32.zero, F32.zero, F32.zero⟩) :
    (Sequential.updatePosition (binary32 m) obj).position =
      ⟨F32.one, F32.zero, F32.zero⟩ := by
  simp only [Sequential.updatePosition, hp, hr, binary32, F32.zero, m.cosf_zero,
    m.sinf_zero]
  decide

theorem arriving_at_zero (m : Libm) {S : Nat} (obj : GameObject F32 S)
    (hp : obj.position = ⟨F32.neg F32.tenth, F32.zero, F32.neg F32.tenth⟩)
    (hr : obj.rotation = ⟨F32.zero, F32.zero, F32.zero⟩) :
    (Sequential.updatePosition (binary32 m) obj).position =
      ⟨F32.zero, F32.zero, F32.zero⟩ := by
  simp only [Sequential.updatePosition, hp, hr, binary32, F32.zero, m.cosf_zero,
    m.sinf_zero]
  decide

theorem lightLoop_half_moved (m : Libm) {S : Nat} (obj : GameObject F32 S)
    (h : obj.position = ⟨F32.fin false (9227469 * 2 ^ 126), F32.zero, F32.tenth⟩) :
    Sequential.lightLoop (binary32 m) [originLight F32.half] obj =
      F32.fin false (7971931 * 2 ^ 124) := by
  simp only [Sequential.lightLoop, Sequential.computeLighting, Sequential.distance, h,
    originLight, binary32, List.foldl]
  decide

theorem lightLoop_one_moved (m : Libm) {S : Nat} (obj : GameObject F32 S)
    (h : obj.position = spot) :
    Sequential.lightLoop (binary32 m) [originLight F32.one] obj =
      F32.fin false (7349265 * 2 ^ 126) := by
  simp only [Sequential.lightLoop, Sequential.computeLighting, Sequential.distance, h, spot,
    originLight, binary32, List.foldl]
  decide

theorem log2Aux_eq_log (fuel n : Nat) (h : n ≤ fuel) : F32.log2Aux fuel n = Nat.log 2 n := by
  induction fuel generalizing n with
  | zero =>
    have hn : n = 0 := Nat.le_zero.mp h
    subst hn
    simp [F32.log2Aux]
  | succ fuel ih =>
    unfold F32.log2Aux
    by_cases hlt : n < 2
    · rw [if_pos hlt, Nat.log_of_lt hlt]
    · rw [if_neg hlt]
      have h2 : 2 ≤ n := Nat.le_of_not_lt hlt
      have hdiv : n / 2 ≤ fuel := by omega
      rw [ih (n / 2) hdiv, Nat.log_of_one_lt_of_le (by decide) h2]

theorem f32_log2_eq_log (n : Nat) : F32.log2 n = Nat.log 2 n :=
  log2Aux_eq_log n n (Nat.le_refl n)

theorem roundHalfEven_ge (a d : Nat) : a / d ≤ F32.roundHalfEven a d := by
  unfold F32.roundHalfEven
  simp only
  split_ifs <;> omega

theorem roundHalfEven_le_succ (a d : Nat) : F32.roundHalfEven a d ≤ a / d + 1 := by
  unfold F32.roundHalfEven
  simp only
  split_ifs <;> omega

/-- Rounding `a / d` does not exceed an integer bound on `a / d`. -/
theorem roundHalfEven_le_of_le (a d c : Nat) (hd : 0 < d) (h : a ≤ c * d) :
    F32.roundHalfEven a d ≤ c := by
  have hq : a / d ≤ c := by
    calc a / d ≤ c * d / d := Nat.div_le_div_right h
      _ = c := Nat.mul_div_cancel c hd
  by_cases hlt : a / d < c
  · exact Nat.le_trans (roundHalfEven_le_succ a d) hlt
  · have heq : a / d = c := Nat.le_antisymm hq (Nat.le_of_not_lt hlt)
    have hmod : a % d = 0 := by
      have hdm := Nat.div_add_mod a d
      rw [heq] at hdm
      have : d * c = c * d := Nat.mul_comm d c
      omega
    unfold F32.roundHalfEven
    simp only [hmod, heq]
    rw [if_pos (by omega)]

theorem roundHalfEven_scale (c a d : Nat) (hc : 0 < c) :
    F32.roundHalfEven (c * a) (c * d) = F32.roundHalfEven a d := by
  unfold F32.roundHalfEven
  simp only [Nat.mul_div_mul_left a d hc, Nat.mul_mod_mul_left]
  have h1 : (2 * (c * (a % d)) < c * d) ↔ (2 * (a % d) < d) := by
    rw [show 2 * (c * (a % d)) = c * (2 * (a % d)) by ring]
    exact Nat.mul_lt_mul_left hc
  have h2 : (c * d < 2 * (c * (a % d))) ↔ (d < 2 * (a % d)) := by
    rw [show 2 * (c * (a % d)) = c * (2 * (a % d)) by ring]
    exact Nat.mul_lt_mul_left hc
  simp only [h1, h2]

theorem huge_eq : F32.huge = 2 ^ 24 * 2 ^ 253 := by
  unfold F32.huge
  rw [← Nat.pow_add, ← Nat.pow_add]

theorem maxFinite_lt_huge : F32.maxFinite < F32.huge := by
  rw [huge_eq]
  unfold F32.maxFinite
  exact Nat.mul_lt_mul_of_pos_right (by decide) (Nat.two_pow_pos _)

/-- Rounding a magnitude of at least `2^e` units (`e ≥ 23`) gives at least `2^e`. -/
theorem roundMag_ge_pow (n e : Nat) (he : 23 ≤ e) (h : 2 ^ e ≤ n) :
    2 ^ e ≤ F32.roundMag n 1 := by
  unfold F32.roundMag
  simp only [Nat.div_one, Nat.one_mul]
  rw [f32_log2_eq_log]
  have hpos : 0 < 2 ^ e := Nat.two_pow_pos e
  have hn0 : n ≠ 0 := by omega
  have hL : e ≤ Nat.log 2 n := Nat.le_log_of_pow_le (by decide) h
  have hpow : 2 ^ Nat.log 2 n ≤ n := Nat.pow_log_le_self 2 hn0
  have hsplit : 2 ^ Nat.log 2 n = 2 ^ 23 * 2 ^ (Nat.log 2 n - 23) := by
    rw [← Nat.pow_add]
    congr 1
    omega
  have h23 : 2 ^ 23 ≤ n / 2 ^ (Nat.log 2 n - 23) := by
    rw [Nat.le_div_iff_mul_le (Nat.two_pow_pos _), ← hsplit]
    exact hpow
  calc 2 ^ e ≤ 2 ^ Nat.log 2 n := Nat.pow_le_pow_right (by decide) hL
    _ = 2 ^ 23 * 2 ^ (Nat.log 2 n - 23) := hsplit
    _ ≤ n / 2 ^ (Nat.log 2 n - 23) * 2 ^ (Nat.log 2 n - 23) := Nat.mul_le_mul_right _ h23
    _ ≤ F32.roundHalfEven n (2 ^ (Nat.log 2 n - 23)) * 2 ^ (Nat.log 2 n - 23) :=
      Nat.mul_le_mul_right _ (roundHalfEven_ge _ _)

/-- Rounding a quotient that does not exceed the largest finite magnitude does not
overflow. -/
theorem roundMag_le_maxFinite (a b : Nat) (hb : 0 < b) (h : a ≤ F32.maxFinite * b) :
    F32.roundMag a b ≤ F32.maxFinite := by
  unfold F32.roundMag
  simp only
  rw [f32_log2_eq_log]
  have hQ : a / b ≤ F32.maxFinite := Nat.div_le_of_le_mul (by rwa [Nat.mul_comm] at h)
  have hQlt : a / b < 2 ^ 24 * 2 ^ 253 := by
    have := maxFinite_lt_huge
    rw [huge_eq] at this
    omega
  have hQup : a / b < 2 ^ (Nat.log 2 (a / b) + 1) := Nat.lt_pow_succ_log_self (by decide) _
  have hL : Nat.log 2 (a / b) < 277 := by
    by_cases h0 : a / b = 0
    · rw [h0, Nat.log_zero_right]
      decide
    · apply Nat.log_lt_of_lt_pow h0
      rw [show 277 = 24 + 253 from rfl, Nat.pow_add]
      exact hQlt
  by_cases hk : Nat.log 2 (a / b) - 23 ≤ 252
  · have hdiv : a / (b * 2 ^ (Nat.log 2 (a / b) - 23)) =
        a / b / 2 ^ (Nat.log 2 (a / b) - 23) := (Nat.div_div_eq_div_mul a b _).symm
    have hQk : a / b / 2 ^ (Nat.log 2 (a / b) - 23) < 2 ^ 24 := by
      rw [Nat.div_lt_iff_lt_mul (Nat.two_pow_pos _), ← Nat.pow_add]
      apply Nat.lt_of_lt_of_le hQup
      apply Nat.pow_le_pow_right (by decide)
      omega
    have hr : F32.roundHalfEven a (b * 2 ^ (Nat.log 2 (a / b) - 23)) ≤ 2 ^ 24 := by
      have := roundHalfEven_le_succ a (b * 2 ^ (Nat.log 2 (a / b) - 23))
      rw [hdiv] at this
      omega
    calc F32.roundHalfEven a (b * 2 ^ (Nat.log 2 (a / b) - 23)) *
          2 ^ (Nat.log 2 (a / b) - 23)
        ≤ 2 ^ 24 * 2 ^ (Nat.log 2 (a / b) - 23) := Nat.mul_le_mul_right _ hr
      _ ≤ 2 ^ 24 * 2 ^ 252 := Nat.mul_le_mul_left _ (Nat.pow_le_pow_right (by decide) hk)
      _ ≤ F32.maxFinite := by
        unfold F32.maxFinite
        decide
  · have hk' : Nat.log 2 (a / b) - 23 = 253 := by omega
    rw [hk']
    have hr : F32.roundHalfEven a (b * 2 ^ 253) ≤ 2 ^ 24 - 1 := by
      apply roundHalfEven_le_of_le _ _ _ (Nat.mul_pos hb (Nat.two_pow_pos _))
      calc a ≤ F32.maxFinite * b := h
        _ = (2 ^ 24 - 1) * (b * 2 ^ 253) := by
          unfold F32.maxFinite
          rw [Nat.mul_assoc, Nat.mul_comm (2 ^ 253) b]
    exact Nat.mul_le_mul_right _ hr

/-- A finite binary32 magnitude is at most the largest finite magnitude. -/
theorem isBinary32_le_maxFinite (a : Nat) (h : F32.roundMag a 1 = a) (hlt : a < F32.huge) :
    a ≤ F32.maxFinite := by
  have hmax := roundMag_le_maxFinite a 1 Nat.one_pos
  by_cases hle : a ≤ F32.maxFinite
  · exact hle
  · exfalso
    unfold F32.roundMag at h
    simp only [Nat.div_one, Nat.one_mul] at h
    rw [f32_log2_eq_log] at h
    have ha0 : a ≠ 0 := by
      intro h0
      apply hle
      rw [h0]
      exact Nat.zero_le _
    have hup : a < 2 ^ (Nat.log 2 a + 1) := Nat.lt_pow_succ_log_self (by decide) _
    have hL : Nat.log 2 a < 277 := by
      apply Nat.log_lt_of_lt_pow ha0
      rw [show 277 = 24 + 253 from rfl, Nat.pow_add, ← huge_eq]
      exact hlt
    have hm : F32.roundHalfEven a (2 ^ (Nat.log 2 a - 23)) < 2 ^ 24 := by
      apply Nat.lt_of_mul_lt_mul_right (a := 2 ^ (Nat.log 2 a - 23))
      rw [h, ← Nat.pow_add]
      apply Nat.lt_of_lt_of_le hup
      apply Nat.pow_le_pow_right (by decide)
      omega
    apply hle
    rw [← h]
    unfold F32.maxFinite
    apply Nat.mul_le_mul
    · omega
    · apply Nat.pow_le_pow_right (by decide)
      omega

theorem round_cases (s : Bool) (a b : Nat) :
    (F32.round s a b = F32.fin s (F32.roundMag a b) ∧ F32.roundMag a b < F32.huge) ∨
      F32.round s a b = F32.inf s := by
  unfold F32.round
  simp only
  by_cases h : F32.roundMag a b < F32.huge
  · left
    rw [if_pos h]
    exact ⟨rfl, h⟩
  · right
    rw [if_neg h]

theorem f32_add_fin_not_nan (s t : Bool) (a b : Nat) :
    F32.add (F32.fin s a) (F32.fin t b) ≠ F32.nan := by
  unfold F32.add
  simp only
  split_ifs
  · exact fun h => F32.noConfusion h
  · rcases round_cases (decide (F32.units s a + F32.units t b < 0))
      (F32.units s a + F32.units t b).natAbs 1 with ⟨h, -⟩ | h <;>
      · rw [h]
        exact fun h => F32.noConfusion h

theorem f32_sub_not_nan (x y : F32) (hx : x.IsFinite) (hy : y.IsFinite) :
    F32.sub x y ≠ F32.nan := by
  cases x with
  | inf s => exact hx.elim
  | nan => exact hx.elim
  | fin s a =>
    cases y with
    | inf t => exact hy.elim
    | nan => exact hy.elim
    | fin t b => exact f32_add_fin_not_nan s (!t) a b

theorem f32_mul_self_nonNeg (x : F32) (hx : x ≠ F32.nan) : (F32.mul x x).NonNeg := by
  cases x with
  | nan => exact (hx rfl).elim
  | inf s => simp [F32.mul, F32.NonNeg]
  | fin s a =>
    unfold F32.mul
    simp only [Bool.xor_self]
    rcases round_cases false (a * a) (2 ^ 149) with ⟨h, -⟩ | h <;>
      · rw [h]
        rfl

theorem f32_add_nonNeg (x y : F32) (hx : x.NonNeg) (hy : y.NonNeg) : (F32.add x y).NonNeg := by
  cases x with
  | nan => exact hx.elim
  | inf s =>
    have hs : s = false := hx
    subst hs
    cases y with
    | nan => exact hy.elim
    | inf t =>
      have ht : t = false := hy
      subst ht
      simp [F32.add, F32.NonNeg]
    | fin t b => simp [F32.add, F32.NonNeg]
  | fin s a =>
    have hs : s = false := hx
    subst hs
    cases y with
    | nan => exact hy.elim
    | inf t =>
      have ht : t = false := hy
      subst ht
      simp [F32.add, F32.NonNeg]
    | fin t b =>
      have ht : t = false := hy
      subst ht
      unfold F32.add
      simp only [F32.units, Bool.false_eq_true, if_false, Bool.and_self]
      split_ifs with h0
      · rfl
      · have hneg : decide ((a : Int) + (b : Int) < 0) = false := by
          rw [decide_eq_false_iff_not]
          omega
        rw [hneg]
        rcases round_cases false ((a : Int) + (b : Int)).natAbs 1 with ⟨h, -⟩ | h <;>
          · rw [h]
            rfl

theorem f32_sqrt_nonNeg (x : F32) (hx : x.NonNeg) : (F32.sqrt x).NonNeg := by
  cases x with
  | nan => exact hx.elim
  | inf s =>
    have hs : s = false := hx
    subst hs
    simp [F32.sqrt, F32.NonNeg]
  | fin s a =>
    have hs : s = false := hx
    subst hs
    unfold F32.sqrt
    simp only [Bool.false_eq_true, if_false]
    split_ifs <;> rfl

/-- Adding `1.0f` to a non-negative datum gives at least `1.0f`. -/
theorem f32_add_one_atLeastOne (x : F32) (hx : x.NonNeg) : (F32.add x F32.one).AtLeastOne := by
  cases x with
  | nan => exact hx.elim
  | inf s =>
    have hs : s = false := hx
    subst hs
    simp [F32.add, F32.one, F32.AtLeastOne]
  | fin s a =>
    have hs : s = false := hx
    subst hs
    unfold F32.add F32.one
    simp only [F32.units, Bool.false_eq_true, if_false]
    have hpos : (0 : Int) < ((2 ^ 149 : Nat) : Int) := by
      exact_mod_cast Nat.two_pow_pos 149
    have hne : ¬ ((a : Int) + ((2 ^ 149 : Nat) : Int) = 0) := by omega
    have hneg : decide ((a : Int) + ((2 ^ 149 : Nat) : Int) < 0) = false := by
      rw [decide_eq_false_iff_not]
      omega
    rw [if_neg hne, hneg]
    have habs : ((a : Int) + ((2 ^ 149 : Nat) : Int)).natAbs = a + 2 ^ 149 := by
      omega
    rw [habs]
    rcases round_cases false (a + 2 ^ 149) 1 with ⟨h, -⟩ | h
    · rw [h]
      exact ⟨rfl, roundMag_ge_pow (a + 2 ^ 149) 149 (by decide) (Nat.le_add_left _ _)⟩
    · rw [h]
      rfl

/-- Dividing a finite binary32 number by a datum that is at least `1.0f` gives a finite
result. -/
theorem f32_div_finite (s : Bool) (a : Nat) (d : F32) (ha : (F32.fin s a).IsBinary32)
    (hd : d.AtLeastOne) : (F32.div (F32.fin s a) d).IsFinite := by
  cases d with
  | nan => exact hd.elim
  | inf t => trivial
  | fin t r =>
    obtain ⟨-, hr⟩ := hd
    have hr0 : r ≠ 0 := by
      have := Nat.two_pow_pos 149
      omega
    unfold F32.div
    simp only [if_neg hr0]
    have hmax : a ≤ F32.maxFinite := isBinary32_le_maxFinite a ha.1 ha.2
    have hle : F32.roundMag (a * 2 ^ 149) r ≤ F32.maxFinite := by
      apply roundMag_le_maxFinite _ _ (Nat.pos_of_ne_zero hr0)
      calc a * 2 ^ 149 ≤ F32.maxFinite * 2 ^ 149 := Nat.mul_le_mul_right _ hmax
        _ ≤ F32.maxFinite * r := Nat.mul_le_mul_left _ hr
    have hlt : F32.roundMag (a * 2 ^ 149) r < F32.huge :=
      Nat.lt_of_le_of_lt hle maxFinite_lt_huge
    unfold F32.round
    simp only [if_pos hlt]
    trivial

theorem f32_sub_self (s : Bool) (a : Nat) :
    F32.sub (F32.fin s a) (F32.fin s a) = F32.zero := by
  unfold F32.sub F32.neg F32.add F32.zero
  simp only
  have hv : F32.units s a + F32.units (!s) a = 0 := by
    cases s <;> simp [F32.units]
  rw [if_pos hv]
  cases s <;> rfl

theorem f32_div_one (s : Bool) (a : Nat) (ha : (F32.fin s a).IsBinary32) :
    F32.div (F32.fin s a) F32.one = F32.fin s a := by
  obtain ⟨hfix, hlt⟩ := ha
  have hne : ¬ (2 ^ 149 = 0) := by
    have := Nat.two_pow_pos 149
    omega
  have hround : F32.roundMag (a * 2 ^ 149) (2 ^ 149) = a := by
    have h1 : F32.roundMag (a * 2 ^ 149) (2 ^ 149) = F32.roundMag a 1 := by
      unfold F32.roundMag
      simp only [Nat.mul_div_cancel a (Nat.two_pow_pos 149), Nat.div_one]
      rw [Nat.mul_comm a (2 ^ 149), roundHalfEven_scale _ _ _ (Nat.two_pow_pos 149),
        Nat.one_mul]
    rw [h1, hfix]
  unfold F32.div F32.one
  simp only [if_neg hne, Bool.xor_false]
  unfold F32.round
  simp only [hround, if_pos hlt]

/-- In single precision, for finite positions, the squared-distance sum under the root
is non-negative (possibly `+∞`). -/
theorem seq_distance_nonNeg (m : Libm) {S : Nat} (obj : GameObject F32 S) (light : Light F32)
    (ho : obj.position.IsFinite) (hl : light.position.IsFinite) :
    (Sequential.distance (binary32 m) obj light).NonNeg := by
  obtain ⟨hox, hoy, hoz⟩ := ho
  obtain ⟨hlx, hly, hlz⟩ := hl
  show (F32.sqrt (F32.add (F32.add
    (F32.mul (F32.sub obj.position.x light.position.x)
      (F32.sub obj.position.x light.position.x))
    (F32.mul (F32.sub obj.position.y light.position.y)
      (F32.sub obj.position.y light.position.y)))
    (F32.mul (F32.sub obj.position.z light.position.z)
      (F32.sub obj.position.z light.position.z)))).NonNeg
  apply f32_sqrt_nonNeg
  apply f32_add_nonNeg
  · apply f32_add_nonNeg
    · exact f32_mul_self_nonNeg _ (f32_sub_not_nan _ _ hox hlx)
    · exact f32_mul_self_nonNeg _ (f32_sub_not_nan _ _ hoy hly)
  · exact f32_mul_self_nonNeg _ (f32_sub_not_nan _ _ hoz hlz)

/-- In single precision the distance from a finite point to itself is `+0`. -/
theorem seq_distance_self (m : Libm) {S : Nat} (obj : GameObject F32 S) (light : Light F32)
    (ho : obj.position.IsFinite) (heq : obj.position = light.position) :
    Sequential.distance (binary32 m) obj light = F32.zero := by
  obtain ⟨hox, hoy, hoz⟩ := ho
  show F32.sqrt (F32.add (F32.add
    (F32.mul (F32.sub obj.position.x light.position.x)
      (F32.sub obj.position.x light.position.x))
    (F32.mul (F32.sub obj.position.y light.position.y)
      (F32.sub obj.position.y light.position.y)))
    (F32.mul (F32.sub obj.position.z light.position.z)
      (F32.sub obj.position.z light.position.z))) = F32.zero
  rw [← heq]
  have hself : ∀ x : F32, x.IsFinite → F32.sub x x = F32.zero := by
    intro x hx
    cases x with
    | inf s => exact hx.elim
    | nan => exact hx.elim
    | fin s a => exact f32_sub_self s a
  rw [hself _ hox, hself _ hoy, hself _ hoz]
  decide

theorem f32_zero_add_one : F32.add F32.zero F32.one = F32.one := by
  decide

theorem grid_advanced (m : Libm) :
    (Sequential.updatePosition (binary32 m) gridObject).position =
      ⟨F32.fin false (10695475 * 2 ^ 128), F32.ofNat 25,
        F32.fin false (11023155 * 2 ^ 132)⟩ := by
  simp only [Sequential.updatePosition, gridObject, objectAt, binary32, F32.zero,
    m.cosf_zero, m.sinf_zero]
  decide

theorem lightLoop_grid (m : Libm) {S : Nat} (obj : GameObject F32 S)
    (h : obj.position = ⟨F32.fin false (10695475 * 2 ^ 128), F32.ofNat 25,
      F32.fin false (11023155 * 2 ^ 132)⟩) :
    Sequential.lightLoop (binary32 m) gridLights obj = F32.fin false (13802532 * 2 ^ 119) := by
  simp only [Sequential.lightLoop, Sequential.computeLighting, Sequential.distance, h,
    gridLights, gridLight, binary32, List.foldl]
  decide

theorem lightLoop_gridReversed (m : Libm) {S : Nat} (obj : GameObject F32 S)
    (h : obj.position = ⟨F32.fin false (10695475 * 2 ^ 128), F32.ofNat 25,
      F32.fin false (11023155 * 2 ^ 132)⟩) :
    Sequential.lightLoop (binary32 m) gridLightsReversed obj =
      F32.fin false (13802533 * 2 ^ 119) := by
  simp only [Sequential.lightLoop, Sequential.computeLighting, Sequential.distance, h,
    gridLightsReversed, gridLight, binary32, List.foldl]
  decide

theorem lightReduction_grid (m : Libm) {S : Nat} (obj : GameObject F32 S)
    (h : obj.position = ⟨F32.fin false (10695475 * 2 ^ 128), F32.ofNat 25,
      F32.fin false (11023155 * 2 ^ 132)⟩) (obj_idx : Nat) :
    Parallel.lightReduction (binary32 m) (gridSchedule.reduction obj_idx) gridLights obj =
      F32.fin false (13802533 * 2 ^ 119) := by
  simp only [Parallel.lightReduction, Parallel.Reduction.eval, gridSchedule,
    Parallel.contribution, Parallel.computeLighting, h, gridLights, gridLight, binary32,
    List.getElem?_cons_zero, List.getElem?_cons_succ]
  decide

theorem gridSchedule_valid : gridSchedule.Valid (gridState gridLights) := by
  refine ⟨?_, fun _ => ?_, fun _ => List.Perm.refl _⟩
  · exact List.Perm.refl _
  · exact List.Perm.refl _

theorem gridLights_perm : gridLights.Perm gridLightsReversed := by
  show [gridLight 27 36 5 46, gridLight 29 13 57 24, gridLight 95 82 45 14].Perm
    [gridLight 95 82 45 14, gridLight 29 13 57 24, gridLight 27 36 5 46]
  exact List.reverse_perm [gridLight 95 82 45 14, gridLight 29 13 57 24,
    gridLight 27 36 5 46]

theorem gridState_isBinary32 (lights : List (Light F32))
    (h : ∀ light ∈ lights, light.IsBinary32) : (gridState lights).IsBinary32 := by
  refine ⟨?_, h⟩
  intro obj hobj
  have hobj' : obj = gridObject := by simpa [gridState] using hobj
  subst hobj'
  refine ⟨by decide, by decide, fun _ _ => ?_⟩
  show F32.one.IsBinary32
  decide

theorem gridObject_pixels (ti tj : Fin TEX_SIZE) :
    gridObject.texture.pixels ti tj = F32.one :=
  rfl

theorem f32_one_mul_grid :
    F32.mul F32.one (F32.fin false (13802532 * 2 ^ 119)) =
        F32.fin false (13802532 * 2 ^ 119) ∧
      F32.mul F32.one (F32.fin false (13802533 * 2 ^ 119)) =
        F32.fin false (13802533 * 2 ^ 119) := by
  decide

theorem f32_one_mul_quarter : F32.mul F32.one F32.quarter = F32.quarter := by
  decide

theorem f32_one_mul_one : F32.mul F32.one F32.one = F32.one := by
  decide

theorem cos_pi_div_two_still :
    Real.cos (Real.pi / 2) = 0 ∧ Real.sin (0 : ℝ) = 0 :=
  ⟨Real.cos_pi_div_two, Real.sin_zero⟩

section Independence

variable {F : Type} {S : Nat}

theorem seq_updateGameState_getElem? (A : Arith F) (s : GameState F S) (i : Nat) :
    (Sequential.updateGameState A s).objects[i]? =
      (s.objects[i]?).map (fun obj => (Sequential.updateObject A s.lights obj).1) := by
  unfold Sequential.updateGameState
  rw [List.getElem?_map]

theorem par_updateGameState_getElem? (A : Arith F) (sched : Parallel.Schedule S)
    (s : GameState F S) (hvalid : sched.Valid s) (i : Nat) :
    (Parallel.updateGameState A sched s).objects[i]? =
      (s.objects[i]?).map
        (fun obj =>
          (Parallel.updateObject A (sched.reduction i) (sched.texelOrder i) s.lights obj).1) := by
  rw [par_updateGameState_objects A sched s hvalid, List.getElem?_map, List.getElem?_enum,
    Option.map_map]
  rfl

/-- The object computed by the parallel body does not depend on the order of the texel
loop. -/
theorem par_updateObject_texelOrder (A : Arith F) (r : Parallel.Reduction)
    (order order' : List (Fin S × Fin S)) (horder : order.Perm (Parallel.allTexels S))
    (horder' : order'.Perm (Parallel.allTexels S)) (lights : List (Light F))
    (obj : GameObject F S) :
    (Parallel.updateObject A r order lights obj).1 =
      (Parallel.updateObject A r order' lights obj).1 := by
  have htex : Parallel.texelLoop A order
      (Parallel.lightReduction A r lights (Parallel.updatePosition A obj))
      (Parallel.updatePosition A obj).texture =
      Parallel.texelLoop A order'
        (Parallel.lightReduction A r lights (Parallel.updatePosition A obj))
        (Parallel.updatePosition A obj).texture := by
    apply texture_ext
    intro i j
    rw [par_texelLoop_pixels A order horder, par_texelLoop_pixels A order' horder']
  show ({ Parallel.updatePosition A obj with
    texture := Parallel.texelLoop A order
      (Parallel.lightReduction A r lights (Parallel.updatePosition A obj))
      (Parallel.updatePosition A obj).texture } : GameObject F S) = _
  rw [htex]
  rfl

end Independence

theorem sampleSchedule_valid_other : sampleSchedule.Valid sampleStateOther := by
  refine ⟨?_, fun _ => ?_, fun _ => List.reverse_perm _⟩
  · exact List.Perm.swap 0 1 []
  · exact List.Perm.swap 0 1 []

/-! ## Construction -/

/-- Rounding is monotone against a binary32 bound: a quotient that does not exceed the
binary32 magnitude `c` rounds to at most `c`. -/
theorem roundMag_le_of_le (a b c : Nat) (hb : 0 < b) (hc : F32.roundMag c 1 = c)
    (h : a ≤ c * b) : F32.roundMag a b ≤ c := by
  have hQ : a / b ≤ c := Nat.div_le_of_le_mul (by rwa [Nat.mul_comm] at h)
  unfold F32.roundMag at hc ⊢
  simp only [Nat.div_one, Nat.one_mul] at hc
  simp only
  rw [f32_log2_eq_log] at hc ⊢
  have hk : Nat.log 2 (a / b) - 23 ≤ Nat.log 2 c - 23 :=
    Nat.sub_le_sub_right (Nat.log_mono_right hQ) 23
  obtain ⟨d, hd⟩ := Nat.exists_eq_add_of_le hk
  have hsplit : c = F32.roundHalfEven c (2 ^ (Nat.log 2 c - 23)) * 2 ^ d *
      2 ^ (Nat.log 2 (a / b) - 23) := by
    rw [Nat.mul_assoc, ← Nat.pow_add, Nat.add_comm d, ← hd]
    exact hc.symm
  have hr : F32.roundHalfEven a (b * 2 ^ (Nat.log 2 (a / b) - 23)) ≤
      F32.roundHalfEven c (2 ^ (Nat.log 2 c - 23)) * 2 ^ d := by
    apply roundHalfEven_le_of_le _ _ _ (Nat.mul_pos hb (Nat.two_pow_pos _))
    calc a ≤ c * b := h
      _ = F32.roundHalfEven c (2 ^ (Nat.log 2 c - 23)) * 2 ^ d *
          2 ^ (Nat.log 2 (a / b) - 23) * b := by rw [← hsplit]
      _ = _ := by rw [Nat.mul_assoc, Nat.mul_comm _ b]
  calc F32.roundHalfEven a (b * 2 ^ (Nat.log 2 (a / b) - 23)) * 2 ^ (Nat.log 2 (a / b) - 23)
      ≤ F32.roundHalfEven c (2 ^ (Nat.log 2 c - 23)) * 2 ^ d *
          2 ^ (Nat.log 2 (a / b) - 23) := Nat.mul_le_mul_right _ hr
    _ = c := hsplit.symm

theorem roundHalfEven_mul_self (q d : Nat) (hd : 0 < d) : F32.roundHalfEven (q * d) d = q := by
  unfold F32.roundHalfEven
  simp only [Nat.mul_div_cancel q hd, Nat.mul_mod_left]
  rw [if_pos (by omega)]

/-- Every integer below `2^24` is a binary32 number. -/
theorem roundMag_ofNat (k : Nat) (hk : k < 2 ^ 24) :
    F32.roundMag (k * 2 ^ 149) 1 = k * 2 ^ 149 := by
  unfold F32.roundMag
  simp only [Nat.div_one, Nat.one_mul]
  rw [f32_log2_eq_log]
  by_cases h0 : k = 0
  · subst h0
    simp [F32.roundHalfEven]
  · have hn0 : k * 2 ^ 149 ≠ 0 := Nat.mul_ne_zero h0 (Nat.pos_iff_ne_zero.mp (Nat.two_pow_pos _))
    have hL : Nat.log 2 (k * 2 ^ 149) < 173 := by
      apply Nat.log_lt_of_lt_pow hn0
      rw [show 173 = 24 + 149 from rfl, Nat.pow_add]
      exact Nat.mul_lt_mul_of_pos_right hk (Nat.two_pow_pos _)
    have hle : Nat.log 2 (k * 2 ^ 149) - 23 ≤ 149 := by omega
    obtain ⟨d, hd⟩ := Nat.exists_eq_add_of_le hle
    have hsplit : k * 2 ^ 149 = k * 2 ^ d * 2 ^ (Nat.log 2 (k * 2 ^ 149) - 23) := by
      rw [Nat.mul_assoc, ← Nat.pow_add, Nat.add_comm d, ← hd]
    have hr : F32.roundHalfEven (k * 2 ^ 149) (2 ^ (Nat.log 2 (k * 2 ^ 149) - 23)) =
        k * 2 ^ d := by
      nth_rewrite 1 [hsplit]
      exact roundHalfEven_mul_self _ _ (Nat.two_pow_pos _)
    rw [hr]
    exact hsplit.symm

theorem f32_ofInt_natCast (k : Nat) (hk : k < 2 ^ 24) :
    F32.ofInt (k : Int) = F32.ofNat k := by
  unfold F32.ofInt F32.ofNat F32.round
  have hneg : decide (((k : Nat) : Int) < 0) = false := by
    simp
  have hlt : k * 2 ^ 149 < F32.huge := by
    rw [huge_eq]
    calc k * 2 ^ 149 < 2 ^ 24 * 2 ^ 149 := Nat.mul_lt_mul_of_pos_right hk (Nat.two_pow_pos _)
      _ ≤ 2 ^ 24 * 2 ^ 253 :=
        Nat.mul_le_mul_left _ (Nat.pow_le_pow_right (by decide) (by decide))
  simp only [hneg, Int.natAbs_ofNat, roundMag_ofNat k hk, if_pos hlt]

/-- The binary32 quotient of two integers below `2^24`, the divisor positive, when the
exact quotient does not exceed the binary32 magnitude `c`. -/
theorem f32_div_ofNat_le (k d c : Nat) (hd : 0 < d) (hc : F32.roundMag c 1 = c)
    (hfin : c < F32.huge) (h : k * 2 ^ 149 ≤ c * d) :
    ∃ mag, F32.div (F32.ofNat k) (F32.ofNat d) = F32.fin false mag ∧ mag ≤ c := by
  have hb : 0 < d * 2 ^ 149 := Nat.mul_pos hd (Nat.two_pow_pos _)
  have hle : F32.roundMag (k * 2 ^ 149 * 2 ^ 149) (d * 2 ^ 149) ≤ c := by
    apply roundMag_le_of_le _ _ _ hb hc
    calc k * 2 ^ 149 * 2 ^ 149 ≤ c * d * 2 ^ 149 := Nat.mul_le_mul_right _ h
      _ = c * (d * 2 ^ 149) := Nat.mul_assoc _ _ _
  refine ⟨F32.roundMag (k * 2 ^ 149 * 2 ^ 149) (d * 2 ^ 149), ?_, hle⟩
  unfold F32.ofNat F32.div F32.round
  simp only [if_neg (Nat.pos_iff_ne_zero.mp hb), if_pos (Nat.lt_of_le_of_lt hle hfin)]
  rfl

theorem f32_below_one_isBinary32 :
    F32.roundMag ((2 ^ 24 - 1) * 2 ^ 125) 1 = (2 ^ 24 - 1) * 2 ^ 125 ∧
      (2 ^ 24 - 1) * 2 ^ 125 < F32.huge ∧ (2 ^ 24 - 1) * 2 ^ 125 < 2 ^ 149 := by
  decide

theorem f32_one_isBinary32 :
    F32.roundMag (2 ^ 149) 1 = 2 ^ 149 ∧ 2 ^ 149 < F32.huge := by
  decide


/-- Operator `%` on a non-negative left operand and a positive modulus yields one of
`0, ..., modulus - 1`. -/
theorem tmod_nonneg_cases (r : Int) (m : Nat) (hr : 0 ≤ r) (hm : 0 < m) :
    ∃ k : Nat, k < m ∧ (k : Int) = Int.tmod r m := by
  have h1 : Int.tmod r m = r % m := Int.tmod_eq_emod hr (Int.ofNat_nonneg m)
  have hm0 : ((m : Nat) : Int) ≠ 0 := by
    exact_mod_cast (Nat.pos_iff_ne_zero.mp hm)
  have h2 : 0 ≤ r % (m : Int) := Int.emod_nonneg r hm0
  have h3 : r % (m : Int) < m := Int.emod_lt_of_pos r (by exact_mod_cast hm)
  refine ⟨(r % (m : Int)).toNat, ?_, ?_⟩
  · have : ((r % (m : Int)).toNat : Int) < m := by
      rw [Int.toNat_of_nonneg h2]
      exact h3
    exact_mod_cast this
  · rw [Int.toNat_of_nonneg h2, h1]

theorem seq_light_intensity {F : Type} {S : Nat} (A : CtorArith F) (P : Platform F S)
    (n : Nat) :
    (Sequential.Light.ctor A P n).1.intensity =
      A.div (A.ofInt (Int.tmod (P.rand (n + 3)) 100)) A.hundred :=
  rfl

theorem par_light_eq_seq {F : Type} {S : Nat} (A : CtorArith F) (P : Platform F S)
    (n : Nat) : Parallel.Light.ctor A P n = Sequential.Light.ctor A P n :=
  rfl

/-- The quotient `static_cast<float>(k) / 100.0f` for `k` among `0, ..., 99`. -/
theorem f32_intensity_belowOne (k : Nat) (hk : k < 100) :
    F32.div (F32.ofInt (k : Int)) (F32.ofNat 100) = F32.div (F32.ofNat k) (F32.ofNat 100) ∧
      (F32.div (F32.ofNat k) (F32.ofNat 100)).BelowOne := by
  have hk24 : k < 2 ^ 24 := Nat.lt_of_lt_of_le hk (by decide)
  obtain ⟨hc, hfin, hlt⟩ := f32_below_one_isBinary32
  obtain ⟨mag, hmag, hle⟩ := f32_div_ofNat_le k 100 _ (by decide) hc hfin
    (by
      calc k * 2 ^ 149 ≤ 99 * 2 ^ 149 := Nat.mul_le_mul_right _ (by omega)
        _ ≤ (2 ^ 24 - 1) * 2 ^ 125 * 100 := by decide)
  refine ⟨by rw [f32_ofInt_natCast k hk24], ?_⟩
  rw [hmag]
  exact ⟨rfl, Nat.lt_of_le_of_lt hle hlt⟩

/-- The quotient `static_cast<float>(k) / 255.0f` for `k` among `0, ..., 255`. -/
theorem f32_sample_atMostOne (k : Nat) (hk : k < 256) :
    F32.div (F32.ofInt (k : Int)) (F32.ofNat 255) = F32.div (F32.ofNat k) (F32.ofNat 255) ∧
      (F32.div (F32.ofNat k) (F32.ofNat 255)).AtMostOne := by
  have hk24 : k < 2 ^ 24 := Nat.lt_of_lt_of_le hk (by decide)
  obtain ⟨hc, hfin⟩ := f32_one_isBinary32
  obtain ⟨mag, hmag, hle⟩ := f32_div_ofNat_le k 255 _ (by decide) hc hfin
    (by
      calc k * 2 ^ 149 ≤ 255 * 2 ^ 149 := Nat.mul_le_mul_right _ (by omega)
        _ = 2 ^ 149 * 255 := Nat.mul_comm _ _)
  refine ⟨by rw [f32_ofInt_natCast k hk24], ?_⟩
  rw [hmag]
  exact ⟨rfl, hle⟩

theorem rank_eq_indexOf {α : Type} [DecidableEq α] (a : α) (l : List α) :
    rank a l = l.indexOf a := by
  induction l with
  | nil => rfl
  | cons b rest ih =>
    unfold rank
    by_cases h : b = a
    · rw [if_pos h, List.indexOf_cons_eq _ h]
    · rw [if_neg h, List.indexOf_cons_ne _ h, ih]

theorem rank_finRange {S : Nat} (i : Fin S) : rank i (List.finRange S) = i := by
  rw [rank_eq_indexOf, List.indexOf_finRange]

theorem rank_map_mk {α β : Type} [DecidableEq α] [DecidableEq β] (a : α) (b : β)
    (l : List β) : rank (a, b) (l.map (Prod.mk a)) = rank b l := by
  induction l with
  | nil => rfl
  | cons c rest ih =>
    rw [List.map_cons]
    unfold rank
    by_cases h : c = b
    · rw [if_pos h, if_pos (by rw [h])]
    · have h2 : (a, c) ≠ (a, b) := fun hc => h (Prod.mk.inj hc).2
      rw [if_neg h, if_neg h2, ih]

theorem rank_append_of_mem {α : Type} [DecidableEq α] (a : α) (l₁ l₂ : List α)
    (h : a ∈ l₁) : rank a (l₁ ++ l₂) = rank a l₁ := by
  rw [rank_eq_indexOf, rank_eq_indexOf, List.indexOf_append_of_mem h]

theorem rank_append_of_not_mem {α : Type} [DecidableEq α] (a : α) (l₁ l₂ : List α)
    (h : a ∉ l₁) : rank a (l₁ ++ l₂) = l₁.length + rank a l₂ := by
  rw [rank_eq_indexOf, rank_eq_indexOf, List.indexOf_append_of_not_mem h]

/-- The position of a pair in the row-major enumeration of a product. -/
theorem rank_product {α β : Type} [DecidableEq α] [DecidableEq β] (a : α) (b : β)
    (l₁ : List α) (l₂ : List β) (ha : a ∈ l₁) (hb : b ∈ l₂) :
    rank (a, b) (List.product l₁ l₂) = rank a l₁ * l₂.length + rank b l₂ := by
  induction l₁ with
  | nil => exact absurd ha (List.not_mem_nil _)
  | cons c rest ih =>
    have hprod : List.product (c :: rest) l₂ = l₂.map (Prod.mk c) ++ List.product rest l₂ := by
      simp [List.product]
    rw [hprod]
    by_cases h : c = a
    · subst h
      have hmem : (c, b) ∈ l₂.map (Prod.mk c) := List.mem_map_of_mem _ hb
      have h0 : rank c (c :: rest) = 0 := by
        unfold rank
        rw [if_pos rfl]
      rw [rank_append_of_mem _ _ _ hmem, rank_map_mk, h0]
      omega
    · have hnot : (a, b) ∉ l₂.map (Prod.mk c) := by
        intro hc
        obtain ⟨y, -, hy⟩ := List.mem_map.mp hc
        exact h (Prod.mk.inj hy).1
      have ha2 : a ∈ rest := by
        rcases List.mem_cons.mp ha with h3 | h3
        · exact absurd h3.symm h
        · exact h3
      have h1 : rank a (c :: rest) = rank a rest + 1 := by
        show (if c = a then 0 else rank a rest + 1) = _
        rw [if_neg h]
      rw [rank_append_of_not_mem _ _ _ hnot, ih ha2, h1, List.length_map, Nat.succ_mul]
      omega

theorem rank_allTexels {S : Nat} (i j : Fin S) :
    rank (i, j) (Parallel.allTexels S) = i * S + j := by
  unfold Parallel.allTexels
  rw [rank_product i j _ _ (List.mem_finRange i) (List.mem_finRange j),
    rank_finRange, rank_finRange, List.length_finRange]

theorem rank_lt_length {α : Type} [DecidableEq α] (a : α) (l : List α) (h : a ∈ l) :
    rank a l < l.length := by
  rw [rank_eq_indexOf]
  exact List.indexOf_lt_length.mpr h

theorem product_length {α β : Type} (l₁ : List α) (l₂ : List β) :
    (List.product l₁ l₂).length = l₁.length * l₂.length := by
  induction l₁ with
  | nil => simp [List.product]
  | cons c rest ih =>
    have hprod : List.product (c :: rest) l₂ = l₂.map (Prod.mk c) ++ List.product rest l₂ := by
      simp [List.product]
    rw [hprod, List.length_append, List.length_map, ih, List.length_cons, Nat.succ_mul]
    omega

theorem allTexels_length {S : Nat} : (Parallel.allTexels S).length = S * S := by
  unfold Parallel.allTexels
  rw [product_length, List.length_finRange]

section TextureConstruction

variable {F : Type} {S : Nat}

/-- A loop that writes the listed texels once each, the value written by step number
`c` being `g c`: a listed texel holds the value of the step that wrote it, the others
are untouched, and the step counter has advanced by the number of steps. -/
theorem foldl_write_counter (g : Nat → F) (order : List (Fin S × Fin S))
    (hnd : order.Nodup) (tex : Texture F S) (n : Nat) :
    (order.foldl (fun st p => (st.1.write p.1 p.2 (g st.2), st.2 + 1)) (tex, n)).2 =
        n + order.length ∧
      ∀ i j,
        (order.foldl (fun st p => (st.1.write p.1 p.2 (g st.2), st.2 + 1)) (tex, n)).1.pixels
            i j =
          if (i, j) ∈ order then g (n + rank (i, j) order) else tex.pixels i j := by
  induction order generalizing tex n with
  | nil => simp
  | cons p rest ih =>
    obtain ⟨hp, hrest⟩ := List.nodup_cons.mp hnd
    obtain ⟨h1, h2⟩ := ih hrest (tex.write p.1 p.2 (g n)) (n + 1)
    rw [List.foldl_cons]
    refine ⟨by rw [h1, List.length_cons]; omega, ?_⟩
    intro i j
    rw [h2, texture_write_pixels]
    by_cases hhead : p = (i, j)
    · have hmem : (i, j) ∉ rest := by
        rw [← hhead]
        exact hp
      have hij : i = p.1 ∧ j = p.2 := by
        rw [hhead]
        exact ⟨rfl, rfl⟩
      have hr0 : rank (i, j) (p :: rest) = 0 := by
        show (if p = (i, j) then 0 else rank (i, j) rest + 1) = 0
        rw [if_pos hhead]
      rw [if_neg hmem, if_pos hij, if_pos (by rw [hhead]; exact List.mem_cons_self _ _),
        hr0, Nat.add_zero]
    · have hij : ¬ (i = p.1 ∧ j = p.2) := by
        rintro ⟨h3, h4⟩
        exact hhead (Prod.ext h3.symm h4.symm)
      have hne : (i, j) ≠ p := fun h => hhead h.symm
      by_cases hmem : (i, j) ∈ rest
      · have hr1 : rank (i, j) (p :: rest) = rank (i, j) rest + 1 := by
          show (if p = (i, j) then 0 else rank (i, j) rest + 1) = _
          rw [if_neg hhead]
        rw [if_pos hmem, if_pos (List.mem_cons_of_mem _ hmem), hr1]
        congr 1
        omega
      · rw [if_neg hmem, if_neg hij, if_neg]
        intro hc
        rcases List.mem_cons.mp hc with h | h
        · exact hne h
        · exact hmem h

/-- `Texture::Texture` of `parallel.cpp`: the sample at `(i, j)` comes from the call of
`rand()` made by iteration `(i, j)`, and `S * S` calls are made. -/
theorem par_texture_ctor (A : CtorArith F) (rand : Nat → Int)
    (order : List (Fin S × Fin S)) (horder : order.Perm (Parallel.allTexels S))
    (pixels : Texture F S) (n : Nat) :
    (Parallel.Texture.ctor A rand order pixels n).2 = n + S * S ∧
      ∀ i j,
        (Parallel.Texture.ctor A rand order pixels n).1.pixels i j =
          A.div (A.ofInt (Int.tmod (rand (n + rank (i, j) order)) 256)) A.twoFiftyFive := by
  obtain ⟨h1, h2⟩ := foldl_write_counter
    (fun c => A.div (draw A rand 256 c) A.twoFiftyFive) order
    (horder.nodup_iff.mpr allTexels_nodup) pixels n
  unfold Parallel.Texture.ctor
  refine ⟨by rw [h1, horder.length_eq, allTexels_length], ?_⟩
  intro i j
  rw [h2, if_pos (horder.mem_iff.mpr (mem_allTexels (i, j)))]
  rfl

theorem seq_texture_ctor_eq (A : CtorArith F) (rand : Nat → Int) (pixels : Texture F S)
    (n : Nat) :
    Sequential.Texture.ctor A rand pixels n =
      Parallel.Texture.ctor A rand (Parallel.allTexels S) pixels n := by
  have h := foldl_nested_eq_product
    (fun (st : Texture F S × Nat) i j =>
      (st.1.write i j (A.div (draw A rand 256 st.2) A.twoFiftyFive), st.2 + 1))
    (List.finRange S) (List.finRange S) (pixels, n)
  unfold Sequential.Texture.ctor Parallel.Texture.ctor Parallel.allTexels
  rw [h]

/-- `Texture::Texture` of `sequential.cpp`: the sample at `(i, j)` comes from call number
`n + i * S + j` of `rand()`, and `S * S` calls are made. -/
theorem seq_texture_ctor (A : CtorArith F) (rand : Nat → Int) (pixels : Texture F S)
    (n : Nat) :
    (Sequential.Texture.ctor A rand pixels n).2 = n + S * S ∧
      ∀ i j : Fin S,
        (Sequential.Texture.ctor A rand pixels n).1.pixels i j =
          A.div (A.ofInt (Int.tmod (rand (n + (i * S + j))) 256)) A.twoFiftyFive := by
  rw [seq_texture_ctor_eq]
  obtain ⟨h1, h2⟩ := par_texture_ctor A rand _ (List.Perm.refl _) pixels n
  refine ⟨h1, ?_⟩
  intro i j
  rw [h2, rank_allTexels]

/-- A sample `(r % 256) / 255` in exact arithmetic, `r` non-negative. -/
theorem real_sample_range (r : Int) (hr : 0 ≤ r) :
    ∃ k : Nat, k < 256 ∧ (k : Int) = Int.tmod r 256 ∧
      realCtor.div (realCtor.ofInt (Int.tmod r 256)) realCtor.twoFiftyFive = (k : ℝ) / 255 ∧
      0 ≤ realCtor.div (realCtor.ofInt (Int.tmod r 256)) realCtor.twoFiftyFive ∧
      realCtor.div (realCtor.ofInt (Int.tmod r 256)) realCtor.twoFiftyFive ≤ 1 := by
  obtain ⟨k, hk, hkr⟩ := tmod_nonneg_cases r 256 hr (by decide)
  have h256 : ((256 : Nat) : Int) = 256 := rfl
  rw [h256] at hkr
  have hval : realCtor.div (realCtor.ofInt (Int.tmod r 256)) realCtor.twoFiftyFive =
      (k : ℝ) / 255 := by
    show ((Int.tmod r 256 : Int) : ℝ) / 255 = _
    rw [← hkr]
    simp
  have hk255 : (k : ℝ) ≤ 255 := by
    have : k ≤ 255 := by omega
    exact_mod_cast this
  refine ⟨k, hk, hkr, hval, ?_, ?_⟩
  · rw [hval]
    positivity
  · rw [hval, div_le_one (by norm_num)]
    exact hk255

/-- A sample `(r % 256) / 255` in single precision, `r` non-negative. -/
theorem f32_sample_range (m : Libm) (r : Int) (hr : 0 ≤ r) :
    ∃ k : Nat, k < 256 ∧ (k : Int) = Int.tmod r 256 ∧
      (binary32Ctor m).div ((binary32Ctor m).ofInt (Int.tmod r 256))
          (binary32Ctor m).twoFiftyFive = F32.div (F32.ofNat k) (F32.ofNat 255) ∧
      (F32.div (F32.ofNat k) (F32.ofNat 255)).AtMostOne := by
  obtain ⟨k, hk, hkr⟩ := tmod_nonneg_cases r 256 hr (by decide)
  have h256 : ((256 : Nat) : Int) = 256 := rfl
  rw [h256] at hkr
  obtain ⟨h1, h2⟩ := f32_sample_atMostOne k hk
  refine ⟨k, hk, hkr, ?_, h2⟩
  show F32.div (F32.ofInt (Int.tmod r 256)) (F32.ofNat 255) = _
  rw [← hkr, h1]

end TextureConstruction

/-! ## Successive frames -/

section Frames

variable {F : Type} {S : Nat}

theorem seq_iterate_lights (A : Arith F) (k : Nat) (s : GameState F S) :
    ((Sequential.updateGameState A)^[k] s).lights = s.lights := by
  induction k with
  | zero => rfl
  | succ k ih =>
    rw [Function.iterate_succ_apply']
    exact ih

theorem seq_updatePosition_position (A : Arith F) (obj : GameObject F S) :
    (Sequential.updatePosition A obj).position = advance A obj.rotation obj.position :=
  rfl

/-- The value of `total_light` in call number `f`, from the object before that call. -/
theorem frameTotalLight_eq (A : Arith F) (s : GameState F S) (f i : Nat)
    (obj : GameObject F S) (h : ((Sequential.updateGameState A)^[f] s).objects[i]? = some obj) :
    frameTotalLight A s f i =
      Sequential.lightLoop A s.lights (Sequential.updatePosition A obj) := by
  unfold frameTotalLight
  rw [seq_totalLights_getElem?, h, seq_iterate_lights]
  rfl

/-- Object `i` after `k` calls of `updateGameState`, in every arithmetic: the rotation
is unchanged, the position has been advanced `k` times, and every texel has been
multiplied by the `k` values of `total_light`, one after the other. -/
theorem seq_iterate_object (A : Arith F) (s : GameState F S) (i : Nat)
    (obj : GameObject F S) (h : s.objects[i]? = some obj) (k : Nat) :
    ∃ obj' : GameObject F S,
      ((Sequential.updateGameState A)^[k] s).objects[i]? = some obj' ∧
        obj'.rotation = obj.rotation ∧
        obj'.position = (advance A obj.rotation)^[k] obj.position ∧
        ∀ ti tj, obj'.texture.pixels ti tj =
          (List.range k).foldl (fun t f => A.mul t (frameTotalLight A s f i))
            (obj.texture.pixels ti tj) := by
  induction k with
  | zero => exact ⟨obj, h, rfl, rfl, fun _ _ => rfl⟩
  | succ k ih =>
    obtain ⟨obj', h1, h2, h3, h4⟩ := ih
    refine ⟨(Sequential.updateObject A s.lights obj').1, ?_, ?_, ?_, ?_⟩
    · rw [Function.iterate_succ_apply', seq_updateGameState_getElem?, h1, seq_iterate_lights]
      rfl
    · rw [seq_updateObject_fst_rotation, h2]
    · show (Sequential.updatePosition A obj').position = _
      rw [seq_updatePosition_position, h2, h3, Function.iterate_succ_apply']
    · intro ti tj
      rw [seq_updateObject_fst_pixels, h4, List.range_succ, List.foldl_append]
      show _ = A.mul _ (frameTotalLight A s k i)
      rw [frameTotalLight_eq A s k i obj' h1]
      rfl

end Frames

theorem advance_iterate_real (r p : Vector3 ℝ) (k : Nat) :
    (advance realArith r)^[k] p = positionAfter r p k := by
  induction k with
  | zero =>
    unfold positionAfter
    simp
  | succ k ih =>
    rw [Function.iterate_succ_apply', ih]
    unfold positionAfter advance
    show (⟨_ + Real.cos r.x * (1 / 10), _ + Real.sin r.y * (1 / 10),
      _ + Real.cos r.z * (1 / 10)⟩ : Vector3 ℝ) = _
    congr 1 <;> · push_cast; ring

theorem foldl_mul_eq_prod (c : Nat → ℝ) (t : ℝ) (k : Nat) :
    (List.range k).foldl (fun t f => realArith.mul t (c f)) t =
      t * Finset.prod (Finset.range k) c := by
  induction k with
  | zero => simp
  | succ k ih =>
    rw [List.range_succ, List.foldl_append, ih, Finset.prod_range_succ]
    show t * Finset.prod (Finset.range k) c * c k = _
    ring

/-! ## Bounds on the illumination -/

theorem euclideanDistance_nonneg (p q : Vector3 ℝ) : 0 ≤ euclideanDistance p q :=
  Real.sqrt_nonneg _

/-- One light contributes between zero and its intensity. -/
theorem contribution_bounds (light : Light ℝ) (p : Vector3 ℝ) (h : 0 ≤ light.intensity) :
    0 ≤ light.intensity / (euclideanDistance light.position p + 1) ∧
      light.intensity / (euclideanDistance light.position p + 1) ≤ light.intensity := by
  have hd := euclideanDistance_nonneg light.position p
  have hpos : 0 < euclideanDistance light.position p + 1 := by linarith
  constructor
  · exact div_nonneg h (le_of_lt hpos)
  · rw [div_le_iff₀ hpos]
    nlinarith

theorem illumination_bounds (lights : List (Light ℝ)) (p : Vector3 ℝ)
    (h : ∀ light ∈ lights, 0 ≤ light.intensity) :
    0 ≤ illumination lights p ∧
      illumination lights p ≤ (lights.map (fun light => light.intensity)).sum := by
  induction lights with
  | nil => simp [illumination]
  | cons light rest ih =>
    obtain ⟨h1, h2⟩ := ih (fun l hl => h l (List.mem_cons_of_mem _ hl))
    obtain ⟨h3, h4⟩ := contribution_bounds light p (h light (List.mem_cons_self _ _))
    unfold illumination at h1 h2 ⊢
    rw [List.map_cons, List.sum_cons, List.map_cons, List.sum_cons]
    constructor
    · linarith
    · linarith

/-- Intensities below one sum to at most their number, and to less when there is one. -/
theorem intensities_sum_lt (lights : List (Light ℝ))
    (h : ∀ light ∈ lights, light.intensity < 1) :
    (lights.map (fun light => light.intensity)).sum ≤ (lights.length : ℝ) ∧
      (lights ≠ [] → (lights.map (fun light => light.intensity)).sum < (lights.length : ℝ)) := by
  induction lights with
  | nil => simp
  | cons light rest ih =>
    obtain ⟨h1, -⟩ := ih (fun l hl => h l (List.mem_cons_of_mem _ hl))
    have h2 := h light (List.mem_cons_self _ _)
    rw [List.map_cons, List.sum_cons, List.length_cons]
    push_cast
    constructor
    · linarith
    · intro _
      linarith

theorem seq_totalLights_mem_real {S : Nat} (s : GameState ℝ S) (t : ℝ)
    (h : t ∈ Sequential.totalLights realArith s) :
    ∃ p : Vector3 ℝ, t = illumination s.lights p := by
  rw [seq_totalLights_real] at h
  obtain ⟨obj, -, hobj⟩ := List.mem_map.mp h
  exact ⟨_, hobj.symm⟩

/-- One call of `updateGameState` keeps the texels non-negative when the intensities
are. -/
theorem seq_updateGameState_texels_nonneg {S : Nat} (s : GameState ℝ S)
    (hl : ∀ light ∈ s.lights, 0 ≤ light.intensity)
    (ht : ∀ obj ∈ s.objects, ∀ ti tj, 0 ≤ obj.texture.pixels ti tj) :
    ∀ obj ∈ (Sequential.updateGameState realArith s).objects, ∀ ti tj,
      0 ≤ obj.texture.pixels ti tj := by
  intro obj' hobj' ti tj
  obtain ⟨obj, hobj, heq⟩ := List.mem_map.mp hobj'
  rw [← heq, seq_updateObject_fst_pixels]
  show 0 ≤ obj.texture.pixels ti tj *
    Sequential.lightLoop realArith s.lights (Sequential.updatePosition realArith obj)
  rw [seq_lightLoop_real]
  exact mul_nonneg (ht obj hobj ti tj) (illumination_bounds s.lights _ hl).1

theorem seq_iterate_texels_nonneg {S : Nat} (s : GameState ℝ S)
    (hl : ∀ light ∈ s.lights, 0 ≤ light.intensity)
    (ht : ∀ obj ∈ s.objects, ∀ ti tj, 0 ≤ obj.texture.pixels ti tj) (k : Nat) :
    ∀ obj ∈ ((Sequential.updateGameState realArith)^[k] s).objects, ∀ ti tj,
      0 ≤ obj.texture.pixels ti tj := by
  induction k with
  | zero => exact ht
  | succ k ih =>
    rw [Function.iterate_succ_apply']
    apply seq_updateGameState_texels_nonneg _ _ ih
    rw [seq_iterate_lights]
    exact hl

theorem lightLoop_roundUp (m : Libm) {S : Nat} (obj : GameObject F32 S)
    (h : obj.position = spot) :
    Sequential.lightLoop (binary32 m) lightsRoundUp obj =
      F32.fin false (2 ^ 149 + 2 ^ 126) := by
  simp only [Sequential.lightLoop, Sequential.computeLighting, Sequential.distance, h,
    lightsRoundUp, spotLight, binary32, List.foldl]
  decide

/-! ## Monotonicity of rounding -/

theorem roundHalfEven_mono (a a' d : Nat) (h : a ≤ a') :
    F32.roundHalfEven a d ≤ F32.roundHalfEven a' d := by
  by_cases hq : a / d < a' / d
  · exact Nat.le_trans (roundHalfEven_le_succ a d)
      (Nat.le_trans hq (roundHalfEven_ge a' d))
  · have hle : a / d ≤ a' / d := Nat.div_le_div_right h
    have heq : a' / d = a / d := by omega
    have h1 := Nat.mod_add_div a d
    have h2 := Nat.mod_add_div a' d
    rw [heq] at h2
    have hr : a % d ≤ a' % d := by omega
    unfold F32.roundHalfEven
    simp only [heq]
    split_ifs <;> omega

/-- Every power of two is left unchanged by rounding. -/
theorem roundMag_pow (e : Nat) : F32.roundMag (2 ^ e) 1 = 2 ^ e := by
  unfold F32.roundMag
  simp only [Nat.div_one, Nat.one_mul]
  rw [f32_log2_eq_log, Nat.log_pow (by decide : 1 < 2)]
  have hsplit : 2 ^ e = 2 ^ (e - (e - 23)) * 2 ^ (e - 23) := by
    rw [← Nat.pow_add]
    congr 1
    omega
  nth_rewrite 1 [hsplit]
  rw [roundHalfEven_mul_self _ _ (Nat.two_pow_pos _)]
  exact hsplit.symm

theorem roundMag_le_pow_succ (a : Nat) : F32.roundMag a 1 ≤ 2 ^ (Nat.log 2 a + 1) := by
  apply roundMag_le_of_le _ _ _ Nat.one_pos (roundMag_pow _)
  rw [Nat.mul_one]
  exact Nat.le_of_lt (Nat.lt_pow_succ_log_self (by decide) a)

/-- Rounding to nearest is monotone. -/
theorem roundMag_mono (a a' : Nat) (h : a ≤ a') : F32.roundMag a 1 ≤ F32.roundMag a' 1 := by
  have hL : Nat.log 2 a ≤ Nat.log 2 a' := Nat.log_mono_right h
  by_cases hk : Nat.log 2 a - 23 = Nat.log 2 a' - 23
  · unfold F32.roundMag
    simp only [Nat.div_one, Nat.one_mul]
    rw [f32_log2_eq_log, f32_log2_eq_log, hk]
    exact Nat.mul_le_mul_right _ (roundHalfEven_mono _ _ _ h)
  · have hlt : Nat.log 2 a + 1 ≤ Nat.log 2 a' := by omega
    have h23 : 23 ≤ Nat.log 2 a' := by omega
    have ha' : a' ≠ 0 := by
      intro h0
      rw [h0, Nat.log_zero_right] at h23
      omega
    calc F32.roundMag a 1 ≤ 2 ^ (Nat.log 2 a + 1) := roundMag_le_pow_succ a
      _ ≤ 2 ^ Nat.log 2 a' := Nat.pow_le_pow_right (by decide) hlt
      _ ≤ F32.roundMag a' 1 :=
        roundMag_ge_pow a' _ h23 (Nat.pow_log_le_self 2 ha')

theorem roundMag_zero (b : Nat) : F32.roundMag 0 b = 0 := by
  unfold F32.roundMag F32.roundHalfEven
  simp

/-- The result of rounding is a multiple of the spacing of its own binade. -/
theorem roundMag_dvd (y : Nat) :
    2 ^ (Nat.log 2 (F32.roundMag y 1) - 23) ∣ F32.roundMag y 1 := by
  have hdef : F32.roundMag y 1 =
      F32.roundHalfEven y (2 ^ (Nat.log 2 y - 23)) * 2 ^ (Nat.log 2 y - 23) := by
    unfold F32.roundMag
    simp only [Nat.div_one, Nat.one_mul]
    rw [f32_log2_eq_log]
  have hq : y / 2 ^ (Nat.log 2 y - 23) < 2 ^ 24 := by
    rw [Nat.div_lt_iff_lt_mul (Nat.two_pow_pos _), ← Nat.pow_add]
    apply Nat.lt_of_lt_of_le (Nat.lt_pow_succ_log_self (by decide : 1 < 2) y)
    apply Nat.pow_le_pow_right (by decide)
    omega
  have hr : F32.roundHalfEven y (2 ^ (Nat.log 2 y - 23)) ≤ 2 ^ 24 := by
    have := roundHalfEven_le_succ y (2 ^ (Nat.log 2 y - 23))
    omega
  by_cases h0 : F32.roundMag y 1 = 0
  · rw [h0]
    exact Nat.dvd_zero _
  by_cases htop : F32.roundHalfEven y (2 ^ (Nat.log 2 y - 23)) = 2 ^ 24
  · have hval : F32.roundMag y 1 = 2 ^ (24 + (Nat.log 2 y - 23)) := by
      rw [hdef, htop, ← Nat.pow_add]
    rw [hval, Nat.log_pow (by decide : 1 < 2)]
    exact Nat.pow_dvd_pow 2 (by omega)
  · have hlt : F32.roundMag y 1 < 2 ^ (24 + (Nat.log 2 y - 23)) := by
      rw [hdef, Nat.pow_add]
      exact Nat.mul_lt_mul_of_pos_right (by omega) (Nat.two_pow_pos _)
    have hlog : Nat.log 2 (F32.roundMag y 1) < 24 + (Nat.log 2 y - 23) :=
      Nat.log_lt_of_lt_pow h0 hlt
    have hdvd : 2 ^ (Nat.log 2 (F32.roundMag y 1) - 23) ∣ 2 ^ (Nat.log 2 y - 23) :=
      Nat.pow_dvd_pow 2 (by omega)
    exact Dvd.dvd.trans hdvd (by rw [hdef]; exact Nat.dvd_mul_left _ _)

/-- A quotient that lies more than half a spacing below a number `T` of the grid rounds
to less than `T`. -/
theorem roundMag_lt_of_lt (y T : Nat) (hdvd : 2 ^ (Nat.log 2 y - 23) ∣ T)
    (h : 2 * y + 2 ^ (Nat.log 2 y - 23) < 2 * T) : F32.roundMag y 1 < T := by
  unfold F32.roundMag
  simp only [Nat.div_one, Nat.one_mul]
  rw [f32_log2_eq_log]
  generalize Nat.log 2 y - 23 = k at hdvd h
  obtain ⟨M, hM⟩ := hdvd
  have hd : 0 < 2 ^ k := Nat.two_pow_pos k
  have h1 := Nat.mod_add_div y (2 ^ k)
  have hmod := Nat.mod_lt y hd
  have hr : F32.roundHalfEven y (2 ^ k) < M := by
    by_cases hq : y / 2 ^ k + 1 < M
    · exact Nat.lt_of_le_of_lt (roundHalfEven_le_succ _ _) hq
    · have hqM : y / 2 ^ k < M := by
        by_contra hge
        have hge' : M ≤ y / 2 ^ k := Nat.le_of_not_lt hge
        have : 2 ^ k * M ≤ 2 ^ k * (y / 2 ^ k) := Nat.mul_le_mul_left _ hge'
        omega
      have hqeq : y / 2 ^ k + 1 = M := by omega
      have hsmall : 2 * (y % 2 ^ k) < 2 ^ k := by
        have : 2 ^ k * M = 2 ^ k * (y / 2 ^ k) + 2 ^ k := by
          rw [← hqeq, Nat.mul_add, Nat.mul_one]
        omega
      unfold F32.roundHalfEven
      simp only
      rw [if_pos hsmall]
      omega
  calc F32.roundHalfEven y (2 ^ k) * 2 ^ k < M * 2 ^ k :=
        Nat.mul_lt_mul_of_pos_right hr hd
    _ = T := by rw [hM, Nat.mul_comm]

/-! ## Sums of non-negative single-precision numbers -/

theorem f32_zero_le_fin (s : Bool) (a : Nat) :
    F32.le F32.zero (F32.fin s a) ↔ (s = false ∨ a = 0) := by
  unfold F32.le F32.zero
  simp only [F32.units]
  cases s <;> simp

theorem f32_zero_le_of_nonNeg (x : F32) (h : x.NonNeg) : F32.le F32.zero x := by
  cases x with
  | nan => exact h.elim
  | inf s => exact h
  | fin s a => exact (f32_zero_le_fin s a).mpr (Or.inl h)

theorem f32_le_inf_of_nonNeg (x : F32) (h : x.NonNeg) : F32.le x (F32.inf false) := by
  cases x with
  | nan => exact h.elim
  | inf s => exact Or.inr rfl
  | fin s a => rfl

/-- Adding a finite datum that is `>= 0` (possibly `-0`) to a non-negative finite
accumulator. -/
theorem f32_add_fin_ge_zero (a : Nat) (s : Bool) (c : Nat) (h0 : s = false ∨ c = 0) :
    F32.add (F32.fin false a) (F32.fin s c) =
      if a + c = 0 then F32.fin false 0 else F32.round false (a + c) 1 := by
  have hu : F32.units false a + F32.units s c = ((a + c : Nat) : Int) := by
    rcases h0 with h | h
    · subst h
      simp [F32.units]
    · subst h
      cases s <;> simp [F32.units]
  unfold F32.add
  simp only [hu, Bool.false_and]
  have hneg : decide ((((a + c : Nat) : Int)) < 0) = false := by
    rw [decide_eq_false_iff_not]
    omega
  by_cases hz : a + c = 0
  · rw [if_pos hz, if_pos (by exact_mod_cast hz)]
  · rw [if_neg hz, if_neg (by exact_mod_cast hz), hneg, Int.natAbs_ofNat]

theorem f32_round_false_nonNeg (y : Nat) : (F32.round false y 1).NonNeg := by
  rcases round_cases false y 1 with ⟨h, -⟩ | h <;>
    · rw [h]
      rfl

theorem f32_add_acc_nonNeg (x : F32) (hx : x.NonNeg) (s : Bool) (c : Nat)
    (h0 : s = false ∨ c = 0) : (F32.add x (F32.fin s c)).NonNeg := by
  cases x with
  | nan => exact hx.elim
  | inf t =>
    have ht : t = false := hx
    subst ht
    simp [F32.add, F32.NonNeg]
  | fin t a =>
    have ht : t = false := hx
    subst ht
    rw [f32_add_fin_ge_zero a s c h0]
    split_ifs
    · rfl
    · exact f32_round_false_nonNeg _

/-- Rounding is monotone, overflow included. -/
theorem f32_round_mono (y y' : Nat) (h : y ≤ y') :
    F32.le (F32.round false y 1) (F32.round false y' 1) := by
  have hm := roundMag_mono y y' h
  unfold F32.round
  simp only
  by_cases h' : F32.roundMag y' 1 < F32.huge
  · rw [if_pos h', if_pos (Nat.lt_of_le_of_lt hm h')]
    show F32.units false _ ≤ F32.units false _
    simp only [F32.units, Bool.false_eq_true, if_false]
    exact_mod_cast hm
  · rw [if_neg h']
    split_ifs
    · rfl
    · exact Or.inr rfl

/-- Operator `+` is monotone on non-negative accumulators and finite terms `>= 0`. -/
theorem f32_add_mono (x x' : F32) (hx : x.NonNeg) (hx' : x'.NonNeg) (hxx : F32.le x x')
    (s s' : Bool) (c c' : Nat) (h0 : s = false ∨ c = 0) (h0' : s' = false ∨ c' = 0)
    (hc : c ≤ c') :
    F32.le (F32.add x (F32.fin s c)) (F32.add x' (F32.fin s' c')) := by
  cases x' with
  | nan => exact hx'.elim
  | inf t' =>
    have ht' : t' = false := hx'
    subst ht'
    have h1 : F32.add (F32.inf false) (F32.fin s' c') = F32.inf false := rfl
    rw [h1]
    exact f32_le_inf_of_nonNeg _ (f32_add_acc_nonNeg x hx s c h0)
  | fin t' a' =>
    have ht' : t' = false := hx'
    subst ht'
    cases x with
    | nan => exact hx.elim
    | inf t =>
      have ht : t = false := hx
      subst ht
      have : false = true := hxx
      exact absurd this (by decide)
    | fin t a =>
      have ht : t = false := hx
      subst ht
      have haa : a ≤ a' := by
        have h2 : F32.units false a ≤ F32.units false a' := hxx
        simp only [F32.units, Bool.false_eq_true, if_false] at h2
        exact_mod_cast h2
      rw [f32_add_fin_ge_zero a s c h0, f32_add_fin_ge_zero a' s' c' h0']
      by_cases hz' : a' + c' = 0
      · have hz : a + c = 0 := by omega
        rw [if_pos hz, if_pos hz']
        show F32.units false 0 ≤ F32.units false 0
        exact Int.le_refl _
      · rw [if_neg hz']
        by_cases hz : a + c = 0
        · rw [if_pos hz]
          exact f32_zero_le_of_nonNeg _ (f32_round_false_nonNeg _)
        · rw [if_neg hz]
          exact f32_round_mono _ _ (by omega)

/-- A finite datum `>= 0`: a finite number with sign bit clear, or `-0`. -/
theorem f32_ge_zero_cases (x : F32) (hfin : x.IsFinite) (h0 : F32.le F32.zero x) :
    ∃ s a, x = F32.fin s a ∧ (s = false ∨ a = 0) := by
  cases x with
  | nan => exact hfin.elim
  | inf s => exact hfin.elim
  | fin s a => exact ⟨s, a, rfl, (f32_zero_le_fin s a).mp h0⟩

/-- Dividing a finite binary32 number by a divisor that is at least `1.0f` does not
increase its magnitude and keeps its sign. -/
theorem f32_div_atLeastOne (s : Bool) (a : Nat) (d : F32) (ha : (F32.fin s a).IsBinary32)
    (hd : d.AtLeastOne) : ∃ c, F32.div (F32.fin s a) d = F32.fin s c ∧ c ≤ a := by
  cases d with
  | nan => exact hd.elim
  | inf t =>
    have ht : t = false := hd
    subst ht
    exact ⟨0, by simp [F32.div], Nat.zero_le _⟩
  | fin t r =>
    obtain ⟨ht, hr⟩ := hd
    subst ht
    have hr0 : r ≠ 0 := by
      have := Nat.two_pow_pos 149
      omega
    have hle : F32.roundMag (a * 2 ^ 149) r ≤ a := by
      apply roundMag_le_of_le _ _ _ (Nat.pos_of_ne_zero hr0) ha.1
      exact Nat.mul_le_mul_left _ hr
    refine ⟨F32.roundMag (a * 2 ^ 149) r, ?_, hle⟩
    unfold F32.div F32.round
    simp only [if_neg hr0, if_pos (Nat.lt_of_le_of_lt hle ha.2), Bool.xor_false]

/-- The contribution of a light of finite intensity `>= 0` to an object at a finite
position, in single precision: finite, `>= 0`, and of magnitude at most that of the
intensity. -/
theorem seq_computeLighting_f32_bounds (m : Libm) {S : Nat} (obj : GameObject F32 S)
    (light : Light F32) (ho : obj.position.IsFinite) (hl : light.position.IsFinite)
    (s : Bool) (a : Nat) (hi : light.intensity = F32.fin s a)
    (hbin : (F32.fin s a).IsBinary32) :
    ∃ c, Sequential.computeLighting (binary32 m) obj light = F32.fin s c ∧ c ≤ a := by
  have hone := f32_add_one_atLeastOne _ (seq_distance_nonNeg m obj light ho hl)
  show ∃ c, F32.div light.intensity
    (F32.add (Sequential.distance (binary32 m) obj light) F32.one) = F32.fin s c ∧ c ≤ a
  rw [hi]
  exact f32_div_atLeastOne s a _ hbin hone

/-- An accumulator below `n`, on the binary32 grid, stays below `n + 1` when a term of at
most `1 - 2^-24` is added and the sum is rounded (magnitudes in units of `2^-149`, at
most `2^24` terms). -/
theorem sum_step_lt (n a c : Nat) (hn : n + 1 ≤ 2 ^ 24)
    (hdvd : 2 ^ (Nat.log 2 a - 23) ∣ a)
    (hinv : (n = 0 ∧ a = 0) ∨ a < n * 2 ^ 149)
    (hc : c ≤ (2 ^ 24 - 1) * 2 ^ 125) :
    F32.roundMag (a + c) 1 < (n + 1) * 2 ^ 149 := by
  have hc' : c + 2 ^ 125 ≤ 2 ^ 149 := by
    have : (2 ^ 24 - 1) * 2 ^ 125 + 2 ^ 125 = 2 ^ 149 := by decide
    omega
  have han : a ≤ n * 2 ^ 149 := by
    rcases hinv with ⟨-, h⟩ | h
    · rw [h]
      exact Nat.zero_le _
    · exact Nat.le_of_lt h
  have hT : (n + 1) * 2 ^ 149 = n * 2 ^ 149 + 2 ^ 149 := by ring
  have hyT : a + c < (n + 1) * 2 ^ 149 := by
    rw [hT]
    have := Nat.two_pow_pos 125
    omega
  have hTle : (n + 1) * 2 ^ 149 ≤ 2 ^ 173 := by
    calc (n + 1) * 2 ^ 149 ≤ 2 ^ 24 * 2 ^ 149 := Nat.mul_le_mul_right _ hn
      _ = 2 ^ 173 := by rw [← Nat.pow_add]
  have hlogy : ∀ z e, z < 2 ^ (e + 1) → Nat.log 2 z ≤ e := by
    intro z e hz
    by_cases h0 : z = 0
    · rw [h0, Nat.log_zero_right]
      exact Nat.zero_le _
    · exact Nat.le_of_lt_succ (Nat.log_lt_of_lt_pow h0 hz)
  have hk149 : Nat.log 2 (a + c) - 23 ≤ 149 := by
    have := hlogy (a + c) 172 (Nat.lt_of_lt_of_le hyT hTle)
    omega
  apply roundMag_lt_of_lt
  · exact Dvd.dvd.trans (Nat.pow_dvd_pow 2 hk149) (Nat.dvd_mul_left _ _)
  · rw [hT]
    by_cases ha : a < 2 ^ 149
    · by_cases hy : a + c < 2 ^ 149
      · have hk : Nat.log 2 (a + c) - 23 ≤ 125 := by
          have := hlogy (a + c) 148 hy
          omega
        have hpow : 2 ^ (Nat.log 2 (a + c) - 23) ≤ 2 ^ 125 :=
          Nat.pow_le_pow_right (by decide) hk
        omega
      · have hk : Nat.log 2 (a + c) - 23 ≤ 126 := by
          have := hlogy (a + c) 149 (by omega)
          omega
        have hpow : 2 ^ (Nat.log 2 (a + c) - 23) ≤ 2 ^ 126 :=
          Nat.pow_le_pow_right (by decide) hk
        have hlt : a < n * 2 ^ 149 := by
          rcases hinv with ⟨-, h⟩ | h
          · omega
          · exact h
        omega
    · have ha0 : a ≠ 0 := by
        have := Nat.two_pow_pos 149
        omega
      have hlt : a < n * 2 ^ 149 := by
        rcases hinv with ⟨-, h⟩ | h
        · exact absurd h ha0
        · exact h
      have hkS : Nat.log 2 a - 23 ≤ 149 := by
        have := hlogy a 172 (by omega)
        omega
      have hdvdn : 2 ^ (Nat.log 2 a - 23) ∣ n * 2 ^ 149 :=
        Dvd.dvd.trans (Nat.pow_dvd_pow 2 hkS) (Nat.dvd_mul_left _ _)
      have hgap : a + 2 ^ (Nat.log 2 a - 23) ≤ n * 2 ^ 149 := by
        have hsub : 2 ^ (Nat.log 2 a - 23) ∣ n * 2 ^ 149 - a := Nat.dvd_sub' hdvdn hdvd
        have hpos : 0 < n * 2 ^ 149 - a := by omega
        have := Nat.le_of_dvd hpos hsub
        omega
      have hlog : Nat.log 2 (a + c) ≤ Nat.log 2 a + 1 := by
        apply hlogy
        have h1 : a < 2 ^ (Nat.log 2 a + 1) := Nat.lt_pow_succ_log_self (by decide : 1 < 2) a
        have h2 : 2 ^ (Nat.log 2 a + 1 + 1) = 2 * 2 ^ (Nat.log 2 a + 1) := by
          rw [Nat.pow_succ, Nat.mul_comm]
        omega
      have hpow : 2 ^ (Nat.log 2 (a + c) - 23) ≤ 2 * 2 ^ (Nat.log 2 a - 23) := by
        calc 2 ^ (Nat.log 2 (a + c) - 23) ≤ 2 ^ (Nat.log 2 a - 23 + 1) :=
              Nat.pow_le_pow_right (by decide) (by omega)
          _ = 2 * 2 ^ (Nat.log 2 a - 23) := by rw [Nat.pow_succ, Nat.mul_comm]
      omega

/-- A binary32 magnitude below `1.0` is at most `1 - 2^-24`. -/
theorem isBinary32_lt_one (a : Nat) (hrep : F32.roundMag a 1 = a) (h : a < 2 ^ 149) :
    a ≤ (2 ^ 24 - 1) * 2 ^ 125 := by
  by_cases hsmall : a < 2 ^ 148
  · have : 2 ^ 148 ≤ (2 ^ 24 - 1) * 2 ^ 125 := by decide
    omega
  · have ha0 : a ≠ 0 := by
      have := Nat.two_pow_pos 148
      omega
    have hlog : Nat.log 2 a = 148 := by
      apply Nat.le_antisymm
      · exact Nat.le_of_lt_succ (Nat.log_lt_of_lt_pow ha0 h)
      · exact Nat.le_log_of_pow_le (by decide) (Nat.le_of_not_lt hsmall)
    unfold F32.roundMag at hrep
    simp only [Nat.div_one, Nat.one_mul] at hrep
    rw [f32_log2_eq_log, hlog] at hrep
    have hm : F32.roundHalfEven a (2 ^ (148 - 23)) < 2 ^ 24 := by
      apply Nat.lt_of_mul_lt_mul_right (a := 2 ^ (148 - 23))
      rw [hrep, ← Nat.pow_add]
      exact h
    rw [← hrep]
    exact Nat.mul_le_mul_right _ (by omega)

/-- At `2^24` the accumulation of terms below `1.0f` stalls. -/
theorem roundMag_stall :
    F32.roundMag (2 ^ 173 + (2 ^ 24 - 1) * 2 ^ 125) 1 = 2 ^ 173 := by
  decide

section Accumulation

variable {α : Type}

/-- The accumulation `total += g x` over a list, from a non-negative accumulator, of
finite terms `>= 0`, is non-negative. -/
theorem foldl_add_nonNeg (g : α → F32) (l : List α)
    (hg : ∀ x ∈ l, ∃ s c, g x = F32.fin s c ∧ (s = false ∨ c = 0))
    (acc : F32) (hacc : acc.NonNeg) :
    (l.foldl (fun total x => F32.add total (g x)) acc).NonNeg := by
  induction l generalizing acc with
  | nil => exact hacc
  | cons x rest ih =>
    obtain ⟨s, c, hx, h0⟩ := hg x (List.mem_cons_self _ _)
    rw [List.foldl_cons]
    apply ih (fun y hy => hg y (List.mem_cons_of_mem _ hy))
    rw [hx]
    exact f32_add_acc_nonNeg acc hacc s c h0

/-- The accumulation is monotone in its terms. -/
theorem foldl_add_mono (g g' : α → F32) (l : List α)
    (hg : ∀ x ∈ l, ∃ s c s' c', g x = F32.fin s c ∧ g' x = F32.fin s' c' ∧
      (s = false ∨ c = 0) ∧ (s' = false ∨ c' = 0) ∧ c ≤ c')
    (acc acc' : F32) (hacc : acc.NonNeg) (hacc' : acc'.NonNeg) (hle : F32.le acc acc') :
    F32.le (l.foldl (fun total x => F32.add total (g x)) acc)
      (l.foldl (fun total x => F32.add total (g' x)) acc') := by
  induction l generalizing acc acc' with
  | nil => exact hle
  | cons x rest ih =>
    obtain ⟨s, c, s', c', hx, hx', h0, h0', hc⟩ := hg x (List.mem_cons_self _ _)
    rw [List.foldl_cons, List.foldl_cons]
    apply ih (fun y hy => hg y (List.mem_cons_of_mem _ hy))
    · rw [hx]
      exact f32_add_acc_nonNeg acc hacc s c h0
    · rw [hx']
      exact f32_add_acc_nonNeg acc' hacc' s' c' h0'
    · rw [hx, hx']
      exact f32_add_mono acc acc' hacc hacc' hle s s' c c' h0 h0' hc

/-- The accumulation of terms of at most `1 - 2^-24`, started below `n`, ends below `n`
plus the number of terms (it stalls at `2^24`). -/
theorem foldl_add_lt (g : α → F32) (l : List α)
    (hg : ∀ x ∈ l, ∃ s c, g x = F32.fin s c ∧ (s = false ∨ c = 0) ∧
      c ≤ (2 ^ 24 - 1) * 2 ^ 125)
    (n a : Nat) (hdvd : 2 ^ (Nat.log 2 a - 23) ∣ a)
    (hinv : (n = 0 ∧ a = 0) ∨ a < n * 2 ^ 149) (hmax : a ≤ 2 ^ 173) :
    ∃ a', l.foldl (fun total x => F32.add total (g x)) (F32.fin false a) = F32.fin false a' ∧
      ((n + l.length = 0 ∧ a' = 0) ∨ a' < (n + l.length) * 2 ^ 149) := by
  induction l generalizing n a with
  | nil => exact ⟨a, rfl, by simpa using hinv⟩
  | cons x rest ih =>
    obtain ⟨s, c, hx, h0, hc⟩ := hg x (List.mem_cons_self _ _)
    rw [List.length_cons]
    rw [List.foldl_cons, hx, f32_add_fin_ge_zero a s c h0]
    have hlen : n + (rest.length + 1) = n + 1 + rest.length := by omega
    rw [hlen]
    by_cases hz : a + c = 0
    · rw [if_pos hz]
      apply ih (fun y hy => hg y (List.mem_cons_of_mem _ hy)) (n + 1) 0
      · exact Nat.dvd_zero _
      · right
        exact Nat.mul_pos (Nat.succ_pos n) (Nat.two_pow_pos 149)
      · exact Nat.zero_le _
    · rw [if_neg hz]
      have hstep : F32.roundMag (a + c) 1 < (n + 1) * 2 ^ 149 ∧
          F32.roundMag (a + c) 1 ≤ 2 ^ 173 := by
        by_cases hn : n + 1 ≤ 2 ^ 24
        · have h1 := sum_step_lt n a c hn hdvd hinv hc
          refine ⟨h1, Nat.le_of_lt (Nat.lt_of_lt_of_le h1 ?_)⟩
          calc (n + 1) * 2 ^ 149 ≤ 2 ^ 24 * 2 ^ 149 := Nat.mul_le_mul_right _ hn
            _ = 2 ^ 173 := by rw [← Nat.pow_add]
        · have h1 : F32.roundMag (a + c) 1 ≤ 2 ^ 173 := by
            calc F32.roundMag (a + c) 1
                ≤ F32.roundMag (2 ^ 173 + (2 ^ 24 - 1) * 2 ^ 125) 1 :=
                  roundMag_mono _ _ (Nat.add_le_add hmax hc)
              _ = 2 ^ 173 := roundMag_stall
          refine ⟨Nat.lt_of_le_of_lt h1 ?_, h1⟩
          calc 2 ^ 173 = 2 ^ 24 * 2 ^ 149 := by rw [← Nat.pow_add]
            _ < (n + 1) * 2 ^ 149 :=
              Nat.mul_lt_mul_of_pos_right (by omega) (Nat.two_pow_pos 149)
      have hfin : F32.roundMag (a + c) 1 < F32.huge := by
        apply Nat.lt_of_le_of_lt hstep.2
        rw [huge_eq, ← Nat.pow_add]
        exact Nat.pow_lt_pow_right (by decide) (by decide)
      have hround : F32.round false (a + c) 1 = F32.fin false (F32.roundMag (a + c) 1) := by
        unfold F32.round
        simp only [if_pos hfin]
      rw [hround]
      exact ih (fun y hy => hg y (List.mem_cons_of_mem _ hy)) (n + 1) _
        (roundMag_dvd _) (Or.inr hstep.1) hstep.2

end Accumulation

/-! ## Bounds on the illumination in single precision -/

theorem seq_totalLights_mem {F : Type} {S : Nat} (A : Arith F) (s : GameState F S) (t : F)
    (h : t ∈ Sequential.totalLights A s) :
    ∃ obj ∈ s.objects, t = Sequential.lightLoop A s.lights (Sequential.updatePosition A obj) := by
  obtain ⟨obj, hobj, heq⟩ := List.mem_map.mp h
  exact ⟨obj, hobj, heq.symm⟩

/-- In single precision, for lights of finite binary32 intensity `>= 0` at finite
positions and an object at a finite position, the light loop yields a total `>= 0` that
does not exceed the sum of the intensities accumulated in the same way. -/
theorem seq_lightLoop_f32_bounds (m : Libm) {S : Nat} (lights : List (Light F32))
    (obj : GameObject F32 S) (ho : obj.position.IsFinite)
    (hl : ∀ light ∈ lights, light.position.IsFinite ∧ light.intensity.IsFinite ∧
      light.intensity.IsBinary32 ∧ F32.le F32.zero light.intensity) :
    (Sequential.lightLoop (binary32 m) lights obj).NonNeg ∧
      F32.le (Sequential.lightLoop (binary32 m) lights obj)
        (intensitySum (binary32 m) lights) := by
  have hterm : ∀ light ∈ lights, ∃ s c s' c',
      Sequential.computeLighting (binary32 m) obj light = F32.fin s c ∧
      light.intensity = F32.fin s' c' ∧
      (s = false ∨ c = 0) ∧ (s' = false ∨ c' = 0) ∧ c ≤ c' := by
    intro light hlight
    obtain ⟨hpos, hfin, hbin, h0⟩ := hl light hlight
    obtain ⟨s, a, hi, hs⟩ := f32_ge_zero_cases _ hfin h0
    rw [hi] at hbin
    obtain ⟨c, hc, hca⟩ := seq_computeLighting_f32_bounds m obj light ho hpos s a hi hbin
    refine ⟨s, c, s, a, hc, hi, ?_, hs, hca⟩
    rcases hs with h | h
    · exact Or.inl h
    · exact Or.inr (by omega)
  constructor
  · exact foldl_add_nonNeg _ lights
      (fun light hlight => by
        obtain ⟨s, c, -, -, hc, -, h0, -, -⟩ := hterm light hlight
        exact ⟨s, c, hc, h0⟩)
      F32.zero rfl
  · exact foldl_add_mono _ (fun light => light.intensity) lights hterm F32.zero F32.zero
      rfl rfl (Int.le_refl _)

/-- With at least one light, all of intensity below `1.0f`, the total is finite and below
the number of lights. -/
theorem seq_lightLoop_f32_lt (m : Libm) {S : Nat} (lights : List (Light F32))
    (obj : GameObject F32 S) (ho : obj.position.IsFinite)
    (hl : ∀ light ∈ lights, light.position.IsFinite ∧ light.intensity.IsFinite ∧
      light.intensity.IsBinary32 ∧ F32.le F32.zero light.intensity)
    (hlt : ∀ light ∈ lights, F32.lt light.intensity F32.one) (hne : lights ≠ []) :
    ∃ a, Sequential.lightLoop (binary32 m) lights obj = F32.fin false a ∧
      a < lights.length * 2 ^ 149 := by
  have hterm : ∀ light ∈ lights, ∃ s c,
      Sequential.computeLighting (binary32 m) obj light = F32.fin s c ∧
      (s = false ∨ c = 0) ∧ c ≤ (2 ^ 24 - 1) * 2 ^ 125 := by
    intro light hlight
    obtain ⟨hpos, hfin, hbin, h0⟩ := hl light hlight
    obtain ⟨s, a, hi, hs⟩ := f32_ge_zero_cases _ hfin h0
    have hone := hlt light hlight
    rw [hi] at hbin hone
    obtain ⟨c, hc, hca⟩ := seq_computeLighting_f32_bounds m obj light ho hpos s a hi hbin
    have ha : a < 2 ^ 149 := by
      have h1 : F32.units s a < F32.units false (2 ^ 149) := hone
      rcases hs with h | h
      · subst h
        simp only [F32.units, Bool.false_eq_true, if_false] at h1
        exact_mod_cast h1
      · rw [h]
        exact Nat.two_pow_pos 149
    refine ⟨s, c, hc, ?_, Nat.le_trans hca (isBinary32_lt_one a hbin.1 ha)⟩
    rcases hs with h | h
    · exact Or.inl h
    · exact Or.inr (by omega)
  obtain ⟨a', ha', hinv⟩ := foldl_add_lt _ lights hterm 0 0 (Nat.dvd_zero _)
    (Or.inl ⟨rfl, rfl⟩) (Nat.zero_le _)
  have hpos : 0 < lights.length := List.length_pos.mpr hne
  refine ⟨a', ha', ?_⟩
  rcases hinv with ⟨h, -⟩ | h
  · omega
  · rw [Nat.zero_add] at h
    exact h

/-- The product of a texel `>= 0` and a non-negative total is `>= 0`, unless it is a
product of a zero and an infinity. -/
theorem f32_mul_ge_zero (x t : F32) (hx0 : F32.le F32.zero x) (ht0 : t.NonNeg)
    (hv : ¬ F32.InvalidProduct x t) : F32.le F32.zero (F32.mul x t) := by
  cases x with
  | nan => exact hx0.elim
  | inf s =>
    have hs : s = false := hx0
    subst hs
    cases t with
    | nan => exact ht0.elim
    | inf u =>
      have hu : u = false := ht0
      subst hu
      exact (rfl : false = false)
    | fin u b =>
      have hu : u = false := ht0
      subst hu
      have hb : b ≠ 0 := hv
      show F32.le F32.zero (if b = 0 then F32.nan else F32.inf (xor false false))
      rw [if_neg hb]
      exact (rfl : false = false)
  | fin s a =>
    have hs := (f32_zero_le_fin s a).mp hx0
    cases t with
    | nan => exact ht0.elim
    | inf u =>
      have hu : u = false := ht0
      subst hu
      have ha : a ≠ 0 := hv
      have hs' : s = false := by
        rcases hs with h | h
        · exact h
        · exact absurd h ha
      subst hs'
      show F32.le F32.zero (if a = 0 then F32.nan else F32.inf (xor false false))
      rw [if_neg ha]
      rfl
    | fin u b =>
      have hu : u = false := ht0
      subst hu
      show F32.le F32.zero (F32.round (xor s false) (a * b) (2 ^ 149))
      rw [Bool.xor_false]
      rcases hs with h | h
      · subst h
        rcases round_cases false (a * b) (2 ^ 149) with ⟨h1, -⟩ | h1 <;>
          · rw [h1]
            exact f32_zero_le_of_nonNeg _ rfl
      · subst h
        have hr : F32.round s (0 * b) (2 ^ 149) = F32.fin s 0 := by
          unfold F32.round
          simp only [Nat.zero_mul, roundMag_zero]
          rw [if_pos (by decide)]
        rw [hr]
        exact (f32_zero_le_fin s 0).mpr (Or.inr rfl)

/-- In single precision, as long as the new positions are finite and no texel is
multiplied as a zero by an infinity or as an infinity by a zero, the texels of a
participant with lights of intensity `>= 0` stay `>= 0`. -/
theorem seq_iterate_texels_f32 (m : Libm) {S : Nat} (s : GameState F32 S)
    (hl : ∀ light ∈ s.lights, light.position.IsFinite ∧ light.intensity.IsFinite ∧
      light.intensity.IsBinary32 ∧ F32.le F32.zero light.intensity)
    (ht : ∀ obj ∈ s.objects, ∀ ti tj, F32.le F32.zero (obj.texture.pixels ti tj)) (k : Nat)
    (hfin : ∀ f, f < k → ∀ obj ∈ ((Sequential.updateGameState (binary32 m))^[f] s).objects,
      (Sequential.updatePosition (binary32 m) obj).position.IsFinite ∧
      ∀ ti tj, ¬ F32.InvalidProduct (obj.texture.pixels ti tj)
        (Sequential.updateObject (binary32 m) s.lights obj).2) :
    ∀ obj ∈ ((Sequential.updateGameState (binary32 m))^[k] s).objects, ∀ ti tj,
      F32.le F32.zero (obj.texture.pixels ti tj) := by
  induction k with
  | zero => exact ht
  | succ k ih =>
    have ih' := ih (fun f hf => hfin f (Nat.lt_succ_of_lt hf))
    intro obj' hobj' ti tj
    rw [Function.iterate_succ_apply'] at hobj'
    obtain ⟨obj, hobj, heq⟩ := List.mem_map.mp hobj'
    rw [seq_iterate_lights] at heq
    obtain ⟨hpos, hprod⟩ := hfin k (Nat.lt_succ_self k) obj hobj
    rw [← heq, seq_updateObject_fst_pixels]
    exact f32_mul_ge_zero _ _ (ih' obj hobj ti tj)
      (seq_lightLoop_f32_bounds m s.lights _ hpos hl).1 (hprod ti tj)

/-! ## Positions stay finite -/

theorem f32_inRange_of_isBinary32 (x : F32) (hfin : x.IsFinite) (hbin : x.IsBinary32) :
    x.InRange := by
  cases x with
  | nan => exact hfin.elim
  | inf s => exact hfin.elim
  | fin s a => exact isBinary32_le_maxFinite a hbin.1 hbin.2

theorem f32_isFinite_of_inRange (x : F32) (h : x.InRange) : x.IsFinite := by
  cases x with
  | nan => exact h.elim
  | inf s => exact h.elim
  | fin s a => trivial

theorem roundMag_near_max :
    F32.roundMag (F32.maxFinite + 13421773 * 2 ^ 122) 1 = F32.maxFinite ∧
      F32.roundMag (13421773 * 2 ^ 122) 1 = 13421773 * 2 ^ 122 := by
  decide

/-- The increment `c * 0.1f` for a finite `c` of magnitude at most `1` is finite and of
magnitude at most `0.1f`. -/
theorem f32_increment_bounded (t : Bool) (b : Nat) (hb : b ≤ 2 ^ 149) :
    ∃ u e, F32.mul (F32.fin t b) F32.tenth = F32.fin u e ∧ e ≤ 13421773 * 2 ^ 122 := by
  have hle : F32.roundMag (b * (13421773 * 2 ^ 122)) (2 ^ 149) ≤ 13421773 * 2 ^ 122 := by
    apply roundMag_le_of_le _ _ _ (Nat.two_pow_pos _) roundMag_near_max.2
    rw [Nat.mul_comm]
    exact Nat.mul_le_mul_left _ hb
  have hlt : F32.roundMag (b * (13421773 * 2 ^ 122)) (2 ^ 149) < F32.huge :=
    Nat.lt_of_le_of_lt hle (by decide)
  refine ⟨xor t false, _, ?_, hle⟩
  rw [tenth_eq]
  show F32.round (xor t false) (b * (13421773 * 2 ^ 122)) (2 ^ 149) = _
  unfold F32.round
  simp only [if_pos hlt]

/-- Adding an increment of magnitude at most `0.1f` to a coordinate in range leaves it in
range: the sum does not overflow. -/
theorem f32_add_inRange (x : F32) (hx : x.InRange) (u : Bool) (e : Nat)
    (he : e ≤ 13421773 * 2 ^ 122) : (F32.add x (F32.fin u e)).InRange := by
  cases x with
  | nan => exact hx.elim
  | inf s => exact hx.elim
  | fin s a =>
    have ha : a ≤ F32.maxFinite := hx
    unfold F32.add
    simp only
    split_ifs with h0
    · exact Nat.zero_le _
    · have habs : (F32.units s a + F32.units u e).natAbs ≤
          F32.maxFinite + 13421773 * 2 ^ 122 := by
        have h1 : (F32.units s a + F32.units u e).natAbs ≤ a + e := by
          cases s <;> cases u <;> simp only [F32.units, Bool.false_eq_true, if_false, if_true] <;>
            omega
        omega
      have hle : F32.roundMag (F32.units s a + F32.units u e).natAbs 1 ≤ F32.maxFinite := by
        calc F32.roundMag (F32.units s a + F32.units u e).natAbs 1
            ≤ F32.roundMag (F32.maxFinite + 13421773 * 2 ^ 122) 1 := roundMag_mono _ _ habs
          _ = F32.maxFinite := roundMag_near_max.1
      unfold F32.round
      simp only [if_pos (Nat.lt_of_le_of_lt hle maxFinite_lt_huge)]
      exact hle

/-- Under a bounded libm `updatePosition` keeps a position in range when the rotation is
finite. -/
theorem seq_updatePosition_inRange (m : Libm) (hm : m.Bounded) {S : Nat}
    (obj : GameObject F32 S)
    (hp : obj.position.x.InRange ∧ obj.position.y.InRange ∧ obj.position.z.InRange)
    (hr : obj.rotation.IsFinite) :
    (Sequential.updatePosition (binary32 m) obj).position.x.InRange ∧
      (Sequential.updatePosition (binary32 m) obj).position.y.InRange ∧
      (Sequential.updatePosition (binary32 m) obj).position.z.InRange := by
  obtain ⟨hx, hy, hz⟩ := hp
  obtain ⟨hrx, hry, hrz⟩ := hr
  obtain ⟨⟨sx, ax, hcx, hax⟩, -⟩ := hm _ hrx
  obtain ⟨-, ⟨sy, ay, hcy, hay⟩⟩ := hm _ hry
  obtain ⟨⟨sz, az, hcz, haz⟩, -⟩ := hm _ hrz
  obtain ⟨ux, ex, hmx, hex⟩ := f32_increment_bounded sx ax hax
  obtain ⟨uy, ey, hmy, hey⟩ := f32_increment_bounded sy ay hay
  obtain ⟨uz, ez, hmz, hez⟩ := f32_increment_bounded sz az haz
  refine ⟨?_, ?_, ?_⟩
  · show (F32.add obj.position.x (F32.mul (m.cosf obj.rotation.x) F32.tenth)).InRange
    rw [hcx, hmx]
    exact f32_add_inRange _ hx ux ex hex
  · show (F32.add obj.position.y (F32.mul (m.sinf obj.rotation.y) F32.tenth)).InRange
    rw [hcy, hmy]
    exact f32_add_inRange _ hy uy ey hey
  · show (F32.add obj.position.z (F32.mul (m.cosf obj.rotation.z) F32.tenth)).InRange
    rw [hcz, hmz]
    exact f32_add_inRange _ hz uz ez hez

/-- Under a bounded libm the objects of a participant made of finite binary32 positions
and finite rotations keep positions in range, and their rotations, through any number of
calls of `updateGameState`. -/
theorem seq_iterate_positions_inRange (m : Libm) (hm : m.Bounded) {S : Nat}
    (s : GameState F32 S)
    (ho : ∀ obj ∈ s.objects, obj.position.IsFinite ∧ obj.position.IsBinary32 ∧
      obj.rotation.IsFinite) (k : Nat) :
    ∀ obj ∈ ((Sequential.updateGameState (binary32 m))^[k] s).objects,
      (obj.position.x.InRange ∧ obj.position.y.InRange ∧ obj.position.z.InRange) ∧
        obj.rotation.IsFinite := by
  induction k with
  | zero =>
    intro obj hobj
    obtain ⟨⟨hfx, hfy, hfz⟩, ⟨hbx, hby, hbz⟩, hr⟩ := ho obj hobj
    exact ⟨⟨f32_inRange_of_isBinary32 _ hfx hbx, f32_inRange_of_isBinary32 _ hfy hby,
      f32_inRange_of_isBinary32 _ hfz hbz⟩, hr⟩
  | succ k ih =>
    intro obj' hobj'
    rw [Function.iterate_succ_apply'] at hobj'
    obtain ⟨obj, hobj, heq⟩ := List.mem_map.mp hobj'
    obtain ⟨hp, hr⟩ := ih obj hobj
    rw [← heq]
    exact ⟨seq_updatePosition_inRange m hm obj hp hr, hr⟩

theorem flat_bounded : Libm.flat.Bounded := by
  intro x hx
  refine ⟨⟨false, 2 ^ 149, rfl, Nat.le_refl _⟩, ?_⟩
  cases x with
  | nan => exact hx.elim
  | inf s => exact hx.elim
  | fin s a => exact ⟨s, 0, rfl, Nat.zero_le _⟩

theorem far_advanced_position (m : Libm) :
    (Sequential.updatePosition (binary32 m) farObject).position =
      ⟨F32.tenth, F32.zero, F32.fin false (13234890 * 2 ^ 225)⟩ := by
  simp only [Sequential.updatePosition, farObject, objectAt, binary32, F32.zero,
    m.cosf_zero, m.sinf_zero]
  decide

theorem lightLoop_dazzle (m : Libm) {S : Nat} (obj : GameObject F32 S)
    (h : obj.position = ⟨F32.tenth, F32.zero, F32.fin false (13234890 * 2 ^ 225)⟩) :
    Sequential.lightLoop (binary32 m) [⟨⟨F32.zero, F32.zero, F32.zero⟩, F32.inf false⟩] obj =
      F32.nan := by
  simp only [Sequential.lightLoop, Sequential.computeLighting, Sequential.distance, h,
    binary32, List.foldl]
  decide

theorem objectAt_origin_advanced (m : Libm) (v : F32) :
    (Sequential.updatePosition (binary32 m)
      (objectAt ⟨F32.zero, F32.zero, F32.zero⟩ ⟨F32.zero, F32.zero, F32.zero⟩ v)).position =
      spot := by
  simp only [Sequential.updatePosition, objectAt, binary32, F32.zero, m.cosf_zero,
    m.sinf_zero, spot]
  decide

theorem lightLoop_dark (m : Libm) {S : Nat} (obj : GameObject F32 S)
    (h : obj.position = spot) :
    Sequential.lightLoop (binary32 m) [spotLight F32.zero] obj = F32.zero := by
  simp only [Sequential.lightLoop, Sequential.computeLighting, Sequential.distance, h,
    spotLight, binary32, List.foldl]
  decide

theorem lightLoop_blinding (m : Libm) {S : Nat} (obj : GameObject F32 S)
    (h : obj.position = spot) :
    Sequential.lightLoop (binary32 m)
      [spotLight (F32.fin false F32.maxFinite), spotLight (F32.fin false F32.maxFinite)] obj =
      F32.inf false := by
  simp only [Sequential.lightLoop, Sequential.computeLighting, Sequential.distance, h,
    spotLight, binary32, List.foldl]
  decide

theorem lightLoop_dim (m : Libm) {S : Nat} (obj : GameObject F32 S)
    (h : obj.position = spot) :
    Sequential.lightLoop (binary32 m) lightsDim obj = F32.fin false (2 ^ 148 + 2 ^ 147) := by
  simp only [Sequential.lightLoop, Sequential.computeLighting, Sequential.distance, h,
    lightsDim, spotLight, binary32, List.foldl]
  decide

theorem lightsDim_wellFormed :
    ∀ light ∈ (originState lightsDim).lights,
      (light.position.IsFinite ∧ light.intensity.IsFinite ∧ light.intensity.IsBinary32 ∧
        F32.le F32.zero light.intensity) ∧ F32.lt light.intensity F32.one := by
  intro light hlight
  have hcases : light = spotLight F32.half ∨ light = spotLight F32.quarter := by
    simpa [originState, lightsDim] using hlight
  rcases hcases with h | h <;> subst h
  · refine ⟨⟨⟨trivial, trivial, trivial⟩, trivial, by decide, ?_⟩, ?_⟩
    · exact (f32_zero_le_fin _ _).mpr (Or.inl rfl)
    · show F32.units false (2 ^ 148) < F32.units false (2 ^ 149)
      decide
  · refine ⟨⟨⟨trivial, trivial, trivial⟩, trivial, by decide, ?_⟩, ?_⟩
    · exact (f32_zero_le_fin _ _).mpr (Or.inl rfl)
    · show F32.units false (2 ^ 147) < F32.units false (2 ^ 149)
      decide

/-! ## The totals of the parallel update, and single-precision steps -/

theorem enum_map_enum {α β : Type} (l : List α) (g : Nat × α → β) :
    (l.enum.map g).enum = l.enum.map (fun p => (p.1, g p)) := by
  apply List.ext_getElem?
  intro i
  rw [List.getElem?_enum, List.getElem?_map, List.getElem?_map, List.getElem?_enum]
  cases l[i]? <;> rfl

/-- Under a valid schedule the totals of `parallel.cpp` are, in every arithmetic, the
values of the reductions of `computeLighting` at the objects as they are after the
call. -/
theorem par_totalLights_eq_map {F : Type} {S : Nat} (A : Arith F)
    (sched : Parallel.Schedule S) (s : GameState F S) (hvalid : sched.Valid s) :
    Parallel.totalLights A sched s =
      (Parallel.updateGameState A sched s).objects.enum.map
        (fun p => Parallel.lightReduction A (sched.reduction p.1) s.lights p.2) := by
  rw [par_updateGameState_objects A sched s hvalid, enum_map_enum, List.map_map]
  rfl

theorem contributions_bigFirst (m : Libm) {S : Nat} (obj : GameObject F32 S)
    (h : obj.position = spot) :
    lightsBigFirst.map (Sequential.computeLighting (binary32 m) obj) =
      [F32.one, F32.fin false (2 ^ 125), F32.fin false (2 ^ 125)] := by
  simp only [Sequential.computeLighting, Sequential.distance, h, lightsBigFirst, spotLight,
    binary32, List.map]
  decide

theorem grid_step (m : Libm) :
    (binary32 m).mul ((binary32 m).cosf gridObject.rotation.x) (binary32 m).tenth =
      F32.tenth := by
  simp only [gridObject, objectAt, binary32, F32.zero, m.cosf_zero]
  decide

theorem far_step (m : Libm) :
    (binary32 m).mul ((binary32 m).cosf farObject.rotation.z) (binary32 m).tenth =
      F32.tenth := by
  simp only [farObject, objectAt, binary32, F32.zero, m.cosf_zero]
  decide

theorem far_advanced (m : Libm) :
    (Sequential.updatePosition (binary32 m) farObject).position.z = farObject.position.z := by
  simp only [Sequential.updatePosition, farObject, objectAt, binary32, F32.zero,
    m.cosf_zero]
  decide

/-! ## The claims -/

/-- C1, as stated, fails in single precision: the participant `originState
lightsBigFirst` owns one object, which `updatePosition` moves to `(0.1f, 0, 0.1f)`, and
three lights at that point of intensities `1`, `2^-24`, `2^-24`.  The three values of
`intensity / (d + 1)` at the advanced position are `1`, `2^-24`, `2^-24`, each computed
without rounding error; their sum `1 + 2^-23` is a binary32 number, but the
`total_light` computed by `sequential.cpp`, and by `parallel.cpp` run by one thread, is
`1.0f`: each addition of `2^-24` to `1` is a tie that rounds back to `1`. -/
theorem C1_total_is_not_the_sum_in_binary32 :
    (originState lightsBigFirst).IsBinary32 ∧
    (F32.fin false (2 ^ 149 + 2 ^ 125 + 2 ^ 125)).IsBinary32 ∧
    F32.fin false (2 ^ 149 + 2 ^ 125 + 2 ^ 125) ≠ F32.one ∧
    ∀ m : Libm,
      (originState lightsBigFirst).lights.map
          (Sequential.computeLighting (binary32 m)
            (Sequential.updatePosition (binary32 m) originObject)) =
        [F32.fin false (2 ^ 149), F32.fin false (2 ^ 125), F32.fin false (2 ^ 125)] ∧
      Sequential.totalLights (binary32 m) (originState lightsBigFirst) = [F32.one] ∧
      Parallel.totalLights (binary32 m)
          (Parallel.Schedule.oneThread (originState lightsBigFirst))
          (originState lightsBigFirst) = [F32.one] := by
  refine ⟨originState_isBinary32 _ (by decide), by decide, by decide, ?_⟩
  intro m
  have hseq : Sequential.totalLights (binary32 m) (originState lightsBigFirst) = [F32.one] := by
    rw [seq_totalLights_origin, lightLoop_bigFirst m _ (origin_advanced m)]
  refine ⟨contributions_bigFirst m _ (origin_advanced m), hseq, ?_⟩
  have hpar : Parallel.totalLights (binary32 m)
      (Parallel.Schedule.oneThread (originState lightsBigFirst))
      (originState lightsBigFirst) =
      [Parallel.lightReduction (binary32 m) (Parallel.Reduction.chain lightsBigFirst.length)
        lightsBigFirst (Sequential.updatePosition (binary32 m) originObject)] := rfl
  rw [hpar, par_lightReduction_chain, lightLoop_bigFirst m _ (origin_advanced m)]

/-- C1, amended: the `total_light` that one call of `updateGameState` computes for an
object is obtained from the values `intensity / (d + 1)`, with `d` the distance between
the light and the position the object has after that call.  First conjunct: in every
arithmetic the totals of `sequential.cpp` are the in-order accumulation, from `0.0f`, of
`computeLighting` at the updated objects.  Second conjunct: in exact arithmetic this is
the sum of `intensity / (d + 1)` with `d` the Euclidean distance to the updated
position.  Third conjunct: the same for `parallel.cpp`, in exact arithmetic, under every
valid schedule.  Fourth conjunct: in every arithmetic the totals of `parallel.cpp` under
a valid schedule are the reductions, combined as the schedule says, of `computeLighting`
at the updated objects. -/
theorem C1_total_light_is_sum_at_advanced_position :
    (∀ (F : Type) (S : Nat) (A : Arith F) (s : GameState F S),
      Sequential.totalLights A s =
        (Sequential.updateGameState A s).objects.map
          (fun obj => Sequential.lightLoop A s.lights obj)) ∧
    (∀ (S : Nat) (s : GameState ℝ S),
      Sequential.totalLights realArith s =
        (Sequential.updateGameState realArith s).objects.map
          (fun obj => illumination s.lights obj.position)) ∧
    (∀ (S : Nat) (sched : Parallel.Schedule S) (s : GameState ℝ S),
      sched.Valid s →
        Parallel.totalLights realArith sched s =
          (Parallel.updateGameState realArith sched s).objects.map
            (fun obj => illumination s.lights obj.position)) ∧
    (∀ (F : Type) (S : Nat) (A : Arith F) (sched : Parallel.Schedule S) (s : GameState F S),
      sched.Valid s →
        Parallel.totalLights A sched s =
          (Parallel.updateGameState A sched s).objects.enum.map
            (fun p => Parallel.lightReduction A (sched.reduction p.1) s.lights p.2)) := by
  refine ⟨fun F S A s => seq_totalLights_eq_map A s,
    fun S s => seq_totalLights_real_updated s, ?_,
    fun F S A sched s hvalid => par_totalLights_eq_map A sched s hvalid⟩
  intro S sched s hvalid
  rw [par_totalLights_real sched s hvalid, par_updateGameState_real sched s hvalid]
  exact seq_totalLights_real_updated s

/-- Witness for C1 (amended): the schedule `sampleSchedule`, which reverses every loop,
on `sampleState`. -/
theorem C1_total_light_is_sum_at_advanced_position_witness :
    sampleSchedule.Valid sampleState ∧
    Parallel.totalLights realArith sampleSchedule sampleState =
      (Parallel.updateGameState realArith sampleSchedule sampleState).objects.map
        (fun obj => illumination sampleState.lights obj.position) ∧
    Parallel.totalLights realArith sampleSchedule sampleState =
      (Parallel.updateGameState realArith sampleSchedule sampleState).objects.enum.map
        (fun p =>
          Parallel.lightReduction realArith (sampleSchedule.reduction p.1)
            sampleState.lights p.2) :=
  ⟨sampleSchedule_valid,
    C1_total_light_is_sum_at_advanced_position.2.2.1 2 sampleSchedule sampleState
      sampleSchedule_valid,
    C1_total_light_is_sum_at_advanced_position.2.2.2 ℝ 2 realArith sampleSchedule sampleState
      sampleSchedule_valid⟩

/-- C2: after one call of `updateGameState`, every texel `(ti, tj)` of every object is
its value before the call multiplied by the `total_light` computed for that same object
in that same call: position by position, the list of new texel values is the list of old
texel values times the list of the per-object totals.  First conjunct: `sequential.cpp`,
in every arithmetic and for every texture dimension.  Second conjunct: `parallel.cpp`
under every valid schedule. -/
theorem C2_texel_is_old_times_total_light :
    (∀ (F : Type) (S : Nat) (A : Arith F) (s : GameState F S) (ti tj : Fin S),
      (Sequential.updateGameState A s).objects.map (fun obj => obj.texture.pixels ti tj) =
        List.zipWith (fun obj total_light => A.mul (obj.texture.pixels ti tj) total_light)
          s.objects (Sequential.totalLights A s)) ∧
    (∀ (F : Type) (S : Nat) (A : Arith F) (sched : Parallel.Schedule S) (s : GameState F S),
      sched.Valid s → ∀ ti tj : Fin S,
        (Parallel.updateGameState A sched s).objects.map
            (fun obj => obj.texture.pixels ti tj) =
          List.zipWith (fun obj total_light => A.mul (obj.texture.pixels ti tj) total_light)
            s.objects (Parallel.totalLights A sched s)) :=
  ⟨fun _ _ A s ti tj => seq_texels_eq_zipWith A s ti tj,
    fun _ _ A sched s hvalid ti tj => par_texels_eq_zipWith A sched s hvalid ti tj⟩

/-- Witness for C2: the schedule `sampleSchedule` on `sampleState`, texel `(0, 0)`. -/
theorem C2_texel_is_old_times_total_light_witness :
    sampleSchedule.Valid sampleState ∧
    (Parallel.updateGameState realArith sampleSchedule sampleState).objects.map
        (fun obj => obj.texture.pixels 0 0) =
      List.zipWith (fun obj total_light => realArith.mul (obj.texture.pixels 0 0) total_light)
        sampleState.objects (Parallel.totalLights realArith sampleSchedule sampleState) :=
  ⟨sampleSchedule_valid,
    C2_texel_is_old_times_total_light.2 ℝ 2 realArith sampleSchedule sampleState
      sampleSchedule_valid 0 0⟩

/-- C3, as stated, fails in single precision.  First conjunct: the object `gridObject`,
at the grid point `(5, 25, 84)` with rotation `(0, 0, 0)`, has the increment
`0.1f * cosf(0) = 0.1f` on the `x` axis, that is `13421773 * 2^-27`, but one call of
`updatePosition` changes `x` from `5` to `10695475 * 2^-21`, that is by
`209715 * 2^-21 = 13421760 * 2^-27`: the sum is rounded.  Second conjunct: the object
`farObject`, at `z = 1e30f` with rotation `(0, 0, 0)`, has the increment `0.1f` on the `z`
axis, but `updatePosition` leaves `z` unchanged. -/
theorem C3_step_is_not_exact_in_binary32 :
    (gridObject.position.IsBinary32 ∧ gridObject.rotation.IsBinary32 ∧
      gridObject.position.x = F32.fin false (5 * 2 ^ 149) ∧
      10695475 * 2 ^ 128 - 5 * 2 ^ 149 = 209715 * 2 ^ 128 ∧
      F32.tenth = F32.fin false (13421773 * 2 ^ 122) ∧
      209715 * 2 ^ 128 ≠ 13421773 * 2 ^ 122 ∧
      ∀ m : Libm,
        (binary32 m).mul ((binary32 m).cosf gridObject.rotation.x) (binary32 m).tenth =
          F32.tenth ∧
        (Sequential.updatePosition (binary32 m) gridObject).position.x =
          F32.fin false (10695475 * 2 ^ 128) ∧
        F32.sub (Sequential.updatePosition (binary32 m) gridObject).position.x
          gridObject.position.x = F32.fin false (209715 * 2 ^ 128) ∧
        F32.sub (Sequential.updatePosition (binary32 m) gridObject).position.x
          gridObject.position.x ≠
            (binary32 m).mul ((binary32 m).cosf gridObject.rotation.x) (binary32 m).tenth) ∧
    (farObject.position.IsBinary32 ∧ farObject.rotation.IsBinary32 ∧
      F32.tenth ≠ F32.zero ∧
      ∀ m : Libm,
        (binary32 m).mul ((binary32 m).cosf farObject.rotation.z) (binary32 m).tenth =
          F32.tenth ∧
        (Sequential.updatePosition (binary32 m) farObject).position.z =
          farObject.position.z ∧
        (Parallel.updatePosition (binary32 m) farObject).position.z =
          farObject.position.z) := by
  constructor
  · refine ⟨by decide, by decide, rfl, by decide, by decide, by decide, ?_⟩
    intro m
    have hx : (Sequential.updatePosition (binary32 m) gridObject).position.x =
        F32.fin false (10695475 * 2 ^ 128) := by
      rw [grid_advanced m]
    have hsub : F32.sub (Sequential.updatePosition (binary32 m) gridObject).position.x
        gridObject.position.x = F32.fin false (209715 * 2 ^ 128) := by
      rw [hx]
      decide
    refine ⟨grid_step m, hx, hsub, ?_⟩
    rw [hsub, grid_step m]
    decide
  · refine ⟨by decide, by decide, by decide, ?_⟩
    intro m
    exact ⟨far_step m, far_advanced m, far_advanced m⟩

/-- C3, amended.  First conjunct, exact arithmetic: one call of `updatePosition` adds
`0.1 * cos(rotation.x)`, `0.1 * sin(rotation.y)`, `0.1 * cos(rotation.z)` to the three
coordinates and changes nothing else.  Second conjunct, single precision: each
coordinate becomes the rounded sum of its old value and the increment, which is the
rounded product of the literal `0.1f` with `cosf` or `sinf` of the rotation, and nothing
else changes.  Third conjunct: the `updatePosition` of `parallel.cpp` is the same
function as that of `sequential.cpp`. -/
theorem C3_updatePosition_step :
    (∀ (S : Nat) (obj : GameObject ℝ S),
      (Sequential.updatePosition realArith obj).position.x - obj.position.x =
          0.1 * Real.cos obj.rotation.x ∧
        (Sequential.updatePosition realArith obj).position.y - obj.position.y =
          0.1 * Real.sin obj.rotation.y ∧
        (Sequential.updatePosition realArith obj).position.z - obj.position.z =
          0.1 * Real.cos obj.rotation.z ∧
        (Sequential.updatePosition realArith obj).rotation = obj.rotation ∧
        (Sequential.updatePosition realArith obj).texture = obj.texture) ∧
    (∀ (m : Libm) (S : Nat) (obj : GameObject F32 S),
      (Sequential.updatePosition (binary32 m) obj).position.x =
          F32.add obj.position.x (F32.mul (binary32 m).tenth (m.cosf obj.rotation.x)) ∧
        (Sequential.updatePosition (binary32 m) obj).position.y =
          F32.add obj.position.y (F32.mul (binary32 m).tenth (m.sinf obj.rotation.y)) ∧
        (Sequential.updatePosition (binary32 m) obj).position.z =
          F32.add obj.position.z (F32.mul (binary32 m).tenth (m.cosf obj.rotation.z)) ∧
        (Sequential.updatePosition (binary32 m) obj).rotation = obj.rotation ∧
        (Sequential.updatePosition (binary32 m) obj).texture = obj.texture) ∧
    (∀ (F : Type) (S : Nat) (A : Arith F) (obj : GameObject F S),
      Parallel.updatePosition A obj = Sequential.updatePosition A obj) := by
  refine ⟨?_, ?_, fun _ _ _ _ => rfl⟩
  · intro S obj
    refine ⟨?_, ?_, ?_, rfl, rfl⟩ <;>
      · simp only [Sequential.updatePosition, realArith]
        ring
  · intro m S obj
    refine ⟨?_, ?_, ?_, rfl, rfl⟩ <;>
      · simp only [Sequential.updatePosition, binary32]
        rw [f32_mul_comm]

/-- C4, as stated, fails in single precision.  First state: the participant owns one
object, at the origin with rotation `(0, 0, 0)` and texels `1.0f`, and four lights at the
point the object is moved to, of intensities `1, 1, 2^-23, 2^-23`.  The sequential loop
computes `((1 + 1) + 2^-23) + 2^-23 = 2` (two ties that round back to `2`), so every
texel becomes `2`; two threads compute `(1 + 1) + (2^-23 + 2^-23) = 2 + 2^-22`, so every
texel becomes `2 + 2^-22`.  Second state: values of the kind the constructors produce
(`gridState gridLights`): sequentially every texel becomes `13802532 * 2^-30`, with the
lights split between two threads as `{0}`, `{1, 2}` it becomes `13802533 * 2^-30`. -/
theorem C4_parallel_differs_in_binary32 :
    (twoThreadSchedule.Valid (originState fourLights) ∧
      (originState fourLights).IsBinary32 ∧
      ∀ (m : Libm) (ti tj : Fin TEX_SIZE),
        (Sequential.updateGameState (binary32 m) (originState fourLights)).objects.map
            (fun obj => obj.texture.pixels ti tj) = [F32.fin false (2 ^ 150)] ∧
        (Parallel.updateGameState (binary32 m) twoThreadSchedule
            (originState fourLights)).objects.map
            (fun obj => obj.texture.pixels ti tj) = [F32.fin false (2 ^ 150 + 2 ^ 127)] ∧
        Parallel.updateGameState (binary32 m) twoThreadSchedule (originState fourLights) ≠
          Sequential.updateGameState (binary32 m) (originState fourLights)) ∧
    (gridSchedule.Valid (gridState gridLights) ∧
      (gridState gridLights).IsBinary32 ∧
      ∀ (m : Libm) (ti tj : Fin TEX_SIZE),
        (Sequential.updateGameState (binary32 m) (gridState gridLights)).objects.map
            (fun obj => obj.texture.pixels ti tj) = [F32.fin false (13802532 * 2 ^ 119)] ∧
        (Parallel.updateGameState (binary32 m) gridSchedule
            (gridState gridLights)).objects.map
            (fun obj => obj.texture.pixels ti tj) = [F32.fin false (13802533 * 2 ^ 119)] ∧
        Parallel.updateGameState (binary32 m) gridSchedule (gridState gridLights) ≠
          Sequential.updateGameState (binary32 m) (gridState gridLights)) := by
  constructor
  · refine ⟨twoThreadSchedule_valid, originState_isBinary32 _ (by decide), ?_⟩
    intro m ti tj
    have hseq := seq_texels_single (binary32 m) 0 originObject fourLights ti tj
    rw [lightLoop_four m _ (origin_advanced m), originObject_pixels] at hseq
    have hpar := par_texels_single (binary32 m) twoThreadSchedule 0 originObject fourLights
      twoThreadSchedule_valid ti tj
    rw [lightReduction_twoThread m _ (origin_advanced m), originObject_pixels] at hpar
    refine ⟨hseq.trans (congrArg (fun x => [x]) f32_one_mul_two),
      hpar.trans (congrArg (fun x => [x]) f32_one_mul_two_ulp), ?_⟩
    intro heq
    have hne : F32.mul F32.one (F32.fin false (2 ^ 150 + 2 ^ 127)) ≠
        F32.mul F32.one (F32.fin false (2 ^ 150)) := by
      decide
    apply hne
    have h := congrArg (fun s : GameState F32 TEX_SIZE =>
      s.objects.map (fun obj => obj.texture.pixels ti tj)) heq
    exact (List.cons.inj (hpar.symm.trans (h.trans hseq))).1
  · refine ⟨gridSchedule_valid, gridState_isBinary32 _ (by decide), ?_⟩
    intro m ti tj
    have hseq := seq_texels_single (binary32 m) 0 gridObject gridLights ti tj
    rw [lightLoop_grid m _ (grid_advanced m), gridObject_pixels] at hseq
    have hpar := par_texels_single (binary32 m) gridSchedule 0 gridObject gridLights
      gridSchedule_valid ti tj
    rw [lightReduction_grid m _ (grid_advanced m), gridObject_pixels] at hpar
    refine ⟨hseq.trans (congrArg (fun x => [x]) f32_one_mul_grid.1),
      hpar.trans (congrArg (fun x => [x]) f32_one_mul_grid.2), ?_⟩
    intro heq
    have hne : F32.mul F32.one (F32.fin false (13802533 * 2 ^ 119)) ≠
        F32.mul F32.one (F32.fin false (13802532 * 2 ^ 119)) := by
      decide
    apply hne
    have h := congrArg (fun s : GameState F32 TEX_SIZE =>
      s.objects.map (fun obj => obj.texture.pixels ti tj)) heq
    exact (List.cons.inj (hpar.symm.trans (h.trans hseq))).1

/-- C4, amended: the `updateGameState` of `parallel.cpp` agrees with that of
`sequential.cpp` (1) in every arithmetic, on the whole state, under every valid schedule
(objects in any order, texels in any order) that combines each light reduction in the
sequential order; (2) in every arithmetic and under every valid schedule (reduction
combined in any order or grouping as well) on all object positions; (3) in exact
arithmetic and under every valid schedule on the whole state, textures included. -/
theorem C4_parallel_agrees_with_sequential :
    (∀ (F : Type) (S : Nat) (A : Arith F) (sched : Parallel.Schedule S) (s : GameState F S),
      sched.Valid s →
      (∀ obj_idx, sched.reduction obj_idx = Parallel.Reduction.chain s.lights.length) →
        Parallel.updateGameState A sched s = Sequential.updateGameState A s) ∧
    (∀ (F : Type) (S : Nat) (A : Arith F) (sched : Parallel.Schedule S) (s : GameState F S),
      sched.Valid s →
        (Parallel.updateGameState A sched s).objects.map (fun obj => obj.position) =
          (Sequential.updateGameState A s).objects.map (fun obj => obj.position)) ∧
    (∀ (S : Nat) (sched : Parallel.Schedule S) (s : GameState ℝ S),
      sched.Valid s →
        Parallel.updateGameState realArith sched s =
          Sequential.updateGameState realArith s) :=
  ⟨fun _ _ A sched s hvalid hchain => par_updateGameState_chain A sched s hvalid hchain,
    fun _ _ A sched s h => par_updateGameState_positions A sched s h,
    fun _ sched s h => par_updateGameState_real sched s h⟩

/-- Witness for C4 (amended): `sampleScheduleInOrder`, which reverses the object and
texel loops and keeps the order of the lights, and `sampleSchedule`, which reverses every
loop. -/
theorem C4_parallel_agrees_with_sequential_witness :
    (sampleScheduleInOrder.Valid sampleState ∧
      (∀ obj_idx, sampleScheduleInOrder.reduction obj_idx =
        Parallel.Reduction.chain sampleState.lights.length) ∧
      Parallel.updateGameState realArith sampleScheduleInOrder sampleState =
        Sequential.updateGameState realArith sampleState) ∧
    sampleSchedule.Valid sampleState ∧
    (Parallel.updateGameState realArith sampleSchedule sampleState).objects.map
        (fun obj => obj.position) =
      (Sequential.updateGameState realArith sampleState).objects.map
        (fun obj => obj.position) ∧
    Parallel.updateGameState realArith sampleSchedule sampleState =
      Sequential.updateGameState realArith sampleState :=
  ⟨⟨sampleScheduleInOrder_valid, fun _ => rfl,
      C4_parallel_agrees_with_sequential.1 ℝ 2 realArith sampleScheduleInOrder sampleState
        sampleScheduleInOrder_valid (fun _ => rfl)⟩,
    sampleSchedule_valid,
    C4_parallel_agrees_with_sequential.2.1 ℝ 2 realArith sampleSchedule sampleState
      sampleSchedule_valid,
    C4_parallel_agrees_with_sequential.2.2 2 sampleSchedule sampleState sampleSchedule_valid⟩

/-- C5, as stated, fails at rotation `(0, 0, 0)`: `updatePosition` first moves the object
from `(1, 0, 0)` to `(1.1, 0, 0.1)`, at distance `sqrt 1.22` from the light.  In single
precision `total_light` and every texel become `7971931 * 2^-25` (about `0.2376`), not
`0.25`; in exact arithmetic they differ from `1 / 4` as well. -/
theorem C5_scenario_fails_at_rotation_zero :
    unitState.IsBinary32 ∧
    (∀ m : Libm,
      Sequential.totalLights (binary32 m) unitState = [F32.fin false (7971931 * 2 ^ 124)] ∧
      Sequential.totalLights (binary32 m) unitState ≠ [F32.quarter] ∧
      ∀ ti tj : Fin TEX_SIZE,
        (Sequential.updateGameState (binary32 m) unitState).objects.map
            (fun obj => obj.texture.pixels ti tj) = [F32.fin false (7971931 * 2 ^ 124)] ∧
        (Sequential.updateGameState (binary32 m) unitState).objects.map
            (fun obj => obj.texture.pixels ti tj) ≠ [F32.quarter]) ∧
    Sequential.totalLights realArith unitStateReal ≠ [1 / 4] ∧
    ∀ ti tj : Fin TEX_SIZE,
      (Sequential.updateGameState realArith unitStateReal).objects.map
          (fun obj => obj.texture.pixels ti tj) ≠ [1 / 4] := by
  refine ⟨?_, ?_, ?_, ?_⟩
  · refine ⟨?_, by decide⟩
    intro obj hobj
    have hobj' : obj = objectAt ⟨F32.one, F32.zero, F32.zero⟩
        ⟨F32.zero, F32.zero, F32.zero⟩ F32.one := by
      simpa [unitState] using hobj
    subst hobj'
    refine ⟨by decide, by decide, fun _ _ => ?_⟩
    show F32.one.IsBinary32
    decide
  · intro m
    have htotal : Sequential.lightLoop (binary32 m) [originLight F32.half]
        (Sequential.updatePosition (binary32 m)
          (objectAt ⟨F32.one, F32.zero, F32.zero⟩ ⟨F32.zero, F32.zero, F32.zero⟩ F32.one)) =
        F32.fin false (7971931 * 2 ^ 124) :=
      lightLoop_half_moved m _ (unit_advanced m _ rfl rfl)
    have h1 : Sequential.totalLights (binary32 m) unitState =
        [F32.fin false (7971931 * 2 ^ 124)] :=
      congrArg (fun x => [x]) htotal
    refine ⟨h1, ?_, ?_⟩
    · rw [h1]
      decide
    · intro ti tj
      have h2 := seq_texels_single (binary32 m) 0
        (objectAt ⟨F32.one, F32.zero, F32.zero⟩ ⟨F32.zero, F32.zero, F32.zero⟩ F32.one)
        [originLight F32.half] ti tj
      rw [htotal] at h2
      have h3 : (Sequential.updateGameState (binary32 m) unitState).objects.map
          (fun obj => obj.texture.pixels ti tj) = [F32.fin false (7971931 * 2 ^ 124)] := by
        refine h2.trans (congrArg (fun x => [x]) ?_)
        show F32.mul F32.one (F32.fin false (7971931 * 2 ^ 124)) = _
        decide
      refine ⟨h3, ?_⟩
      rw [h3]
      decide
  · intro h
    have h1 := seq_totalLights_getElem? realArith unitStateReal 0
    rw [h] at h1
    exact lightLoop_unitStateReal (objectAt ⟨1, 0, 0⟩ ⟨0, 0, 0⟩ 1) rfl rfl
      (Option.some.inj h1).symm
  · intro ti tj h
    have h2 := seq_texels_single realArith 0 (objectAt ⟨1, 0, 0⟩ ⟨0, 0, 0⟩ (1 : ℝ))
      [⟨⟨0, 0, 0⟩, 1 / 2⟩] ti tj
    have h3 : (1 : ℝ) * Sequential.lightLoop realArith [⟨⟨0, 0, 0⟩, 1 / 2⟩]
        (Sequential.updatePosition realArith (objectAt ⟨1, 0, 0⟩ ⟨0, 0, 0⟩ 1)) = 1 / 4 :=
      (List.cons.inj (h2.symm.trans h)).1
    rw [one_mul] at h3
    exact lightLoop_unitStateReal (objectAt ⟨1, 0, 0⟩ ⟨0, 0, 0⟩ 1) rfl rfl h3

/-- C5, amended: for a participant with one light at `(0, 0, 0)` of intensity `0.5` and
an object with texels all `1.0` whose position after the `updatePosition` of the frame
is `(1, 0, 0)`, one frame update gives that object `total_light = 0.25` and makes every
texel `0.25` (first conjunct: exact arithmetic; second: single precision).  Third
conjunct: in exact arithmetic an object at `(1, 0, 0)` is at `(1, 0, 0)` after
`updatePosition` for every rotation with `cos(rotation.x) = sin(rotation.y) =
cos(rotation.z) = 0`. -/
theorem C5_scenario_at_unit_distance :
    (∀ (S : Nat) (s : GameState ℝ S) (i : Nat) (obj : GameObject ℝ S),
      s.lights = [⟨⟨0, 0, 0⟩, 1 / 2⟩] → s.objects[i]? = some obj →
      (Sequential.updatePosition realArith obj).position = ⟨1, 0, 0⟩ →
      (∀ ti tj, obj.texture.pixels ti tj = 1) →
      (Sequential.totalLights realArith s)[i]? = some (1 / 4) ∧
        ∀ ti tj : Fin S,
          ((Sequential.updateGameState realArith s).objects[i]?).map
            (fun o => o.texture.pixels ti tj) = some (1 / 4)) ∧
    (∀ (m : Libm) (S : Nat) (s : GameState F32 S) (i : Nat) (obj : GameObject F32 S),
      s.lights = [originLight F32.half] → s.objects[i]? = some obj →
      (Sequential.updatePosition (binary32 m) obj).position = ⟨F32.one, F32.zero, F32.zero⟩ →
      (∀ ti tj, obj.texture.pixels ti tj = F32.one) →
      (Sequential.totalLights (binary32 m) s)[i]? = some F32.quarter ∧
        ∀ ti tj : Fin S,
          ((Sequential.updateGameState (binary32 m) s).objects[i]?).map
            (fun o => o.texture.pixels ti tj) = some F32.quarter) ∧
    (∀ (S : Nat) (obj : GameObject ℝ S),
      obj.position = ⟨1, 0, 0⟩ → Real.cos obj.rotation.x = 0 →
      Real.sin obj.rotation.y = 0 → Real.cos obj.rotation.z = 0 →
      (Sequential.updatePosition realArith obj).position = ⟨1, 0, 0⟩) := by
  refine ⟨?_, ?_, ?_⟩
  · intro S s i obj hl ho hpos htex
    exact seq_single_light_outcome realArith s i obj _ (1 / 4) 1 (1 / 4) hl ho
      (lightLoop_half_real _ hpos) htex (one_mul _)
  · intro m S s i obj hl ho hpos htex
    exact seq_single_light_outcome (binary32 m) s i obj _ F32.quarter F32.one F32.quarter hl ho
      (lightLoop_half_f32 m _ hpos) htex f32_one_mul_quarter
  · intro S obj hp hx hy hz
    rw [updatePosition_still obj hx hy hz, hp]

/-- Witness for C5 (amended): in exact arithmetic the object at `(1, 0, 0)` with rotation
`(π/2, 0, π/2)`; in single precision the object at `(0.9f, 0, -0.1f)` with rotation
`(0, 0, 0)`, which `updatePosition` moves to `(1, 0, 0)`. -/
theorem C5_scenario_at_unit_distance_witness :
    (Sequential.updatePosition realArith
        (objectAt ⟨1, 0, 0⟩ ⟨Real.pi / 2, 0, Real.pi / 2⟩ 1)).position = ⟨1, 0, 0⟩ ∧
    ((Sequential.totalLights realArith unitStateStill)[0]? = some (1 / 4) ∧
      ∀ ti tj : Fin TEX_SIZE,
        ((Sequential.updateGameState realArith unitStateStill).objects[0]?).map
          (fun o => o.texture.pixels ti tj) = some (1 / 4)) ∧
    ((Sequential.totalLights (binary32 Libm.leading) unitStateArriving)[0]? =
        some F32.quarter ∧
      ∀ ti tj : Fin TEX_SIZE,
        ((Sequential.updateGameState (binary32 Libm.leading) unitStateArriving).objects[0]?).map
          (fun o => o.texture.pixels ti tj) = some F32.quarter) :=
  ⟨C5_scenario_at_unit_distance.2.2 TEX_SIZE _ rfl cos_pi_div_two_still.1
      cos_pi_div_two_still.2 cos_pi_div_two_still.1,
    C5_scenario_at_unit_distance.1 TEX_SIZE unitStateStill 0 _ rfl rfl
      (C5_scenario_at_unit_distance.2.2 TEX_SIZE _ rfl cos_pi_div_two_still.1
        cos_pi_div_two_still.2 cos_pi_div_two_still.1)
      (fun _ _ => rfl),
    C5_scenario_at_unit_distance.2.1 Libm.leading TEX_SIZE unitStateArriving 0 _ rfl rfl
      (arriving_at_unit Libm.leading _ rfl rfl) (fun _ _ => rfl)⟩

/-- C6, as stated, fails at rotation `(0, 0, 0)`: `updatePosition` first moves the object
from the origin to `(0.1, 0, 0.1)`, at distance `sqrt 0.02` from the light.  In single
precision the Pass-2 total and every texel become `7349265 * 2^-23` (about `0.8761`), not
`1.0`; in exact arithmetic they differ from `1` as well. -/
theorem C6_scenario_fails_at_rotation_zero :
    (originState [originLight F32.one]).IsBinary32 ∧
    (∀ m : Libm,
      Sequential.totalLights (binary32 m) (originState [originLight F32.one]) =
        [F32.fin false (7349265 * 2 ^ 126)] ∧
      Sequential.totalLights (binary32 m) (originState [originLight F32.one]) ≠ [F32.one] ∧
      ∀ ti tj : Fin TEX_SIZE,
        (Sequential.updateGameState (binary32 m)
            (originState [originLight F32.one])).objects.map
            (fun obj => obj.texture.pixels ti tj) = [F32.fin false (7349265 * 2 ^ 126)] ∧
        (Sequential.updateGameState (binary32 m)
            (originState [originLight F32.one])).objects.map
            (fun obj => obj.texture.pixels ti tj) ≠ [F32.one]) ∧
    Sequential.totalLights realArith zeroStateReal ≠ [1] ∧
    ∀ ti tj : Fin TEX_SIZE,
      (Sequential.updateGameState realArith zeroStateReal).objects.map
          (fun obj => obj.texture.pixels ti tj) ≠ [1] := by
  refine ⟨originState_isBinary32 _ (by decide), ?_, ?_, ?_⟩
  · intro m
    have htotal : Sequential.lightLoop (binary32 m) [originLight F32.one]
        (Sequential.updatePosition (binary32 m) originObject) =
        F32.fin false (7349265 * 2 ^ 126) :=
      lightLoop_one_moved m _ (origin_advanced m)
    have h1 : Sequential.totalLights (binary32 m) (originState [originLight F32.one]) =
        [F32.fin false (7349265 * 2 ^ 126)] :=
      congrArg (fun x => [x]) htotal
    refine ⟨h1, ?_, ?_⟩
    · rw [h1]
      decide
    · intro ti tj
      have h2 := seq_texels_single (binary32 m) 0 originObject [originLight F32.one] ti tj
      rw [htotal, originObject_pixels] at h2
      have h3 : (Sequential.updateGameState (binary32 m)
          (originState [originLight F32.one])).objects.map
          (fun obj => obj.texture.pixels ti tj) = [F32.fin false (7349265 * 2 ^ 126)] := by
        refine h2.trans (congrArg (fun x => [x]) ?_)
        show F32.mul F32.one (F32.fin false (7349265 * 2 ^ 126)) = _
        decide
      refine ⟨h3, ?_⟩
      rw [h3]
      decide
  · intro h
    have h1 := seq_totalLights_getElem? realArith zeroStateReal 0
    rw [h] at h1
    exact lightLoop_zeroStateReal (objectAt ⟨0, 0, 0⟩ ⟨0, 0, 0⟩ 1) rfl rfl
      (Option.some.inj h1).symm
  · intro ti tj h
    have h2 := seq_texels_single realArith 0 (objectAt ⟨0, 0, 0⟩ ⟨0, 0, 0⟩ (1 : ℝ))
      [⟨⟨0, 0, 0⟩, 1⟩] ti tj
    have h3 : (1 : ℝ) * Sequential.lightLoop realArith [⟨⟨0, 0, 0⟩, 1⟩]
        (Sequential.updatePosition realArith (objectAt ⟨0, 0, 0⟩ ⟨0, 0, 0⟩ 1)) = 1 :=
      (List.cons.inj (h2.symm.trans h)).1
    rw [one_mul] at h3
    exact lightLoop_zeroStateReal (objectAt ⟨0, 0, 0⟩ ⟨0, 0, 0⟩ 1) rfl rfl h3

/-- C6, amended: for a participant with one light at `(0, 0, 0)` of intensity `1.0` and
an object with texels all `1.0` whose position after the `updatePosition` of the frame
is `(0, 0, 0)`, one frame update gives that object a Pass-2 total of `1.0` and leaves
every texel equal to `1.0` (first conjunct: exact arithmetic; second: single precision).
Third conjunct: in exact arithmetic an object at `(0, 0, 0)` is at `(0, 0, 0)` after
`updatePosition` for every rotation with `cos(rotation.x) = sin(rotation.y) =
cos(rotation.z) = 0`. -/
theorem C6_scenario_at_zero_distance :
    (∀ (S : Nat) (s : GameState ℝ S) (i : Nat) (obj : GameObject ℝ S),
      s.lights = [⟨⟨0, 0, 0⟩, 1⟩] → s.objects[i]? = some obj →
      (Sequential.updatePosition realArith obj).position = ⟨0, 0, 0⟩ →
      (∀ ti tj, obj.texture.pixels ti tj = 1) →
      (Sequential.totalLights realArith s)[i]? = some 1 ∧
        ∀ ti tj : Fin S,
          ((Sequential.updateGameState realArith s).objects[i]?).map
            (fun o => o.texture.pixels ti tj) = some 1) ∧
    (∀ (m : Libm) (S : Nat) (s : GameState F32 S) (i : Nat) (obj : GameObject F32 S),
      s.lights = [originLight F32.one] → s.objects[i]? = some obj →
      (Sequential.updatePosition (binary32 m) obj).position =
        ⟨F32.zero, F32.zero, F32.zero⟩ →
      (∀ ti tj, obj.texture.pixels ti tj = F32.one) →
      (Sequential.totalLights (binary32 m) s)[i]? = some F32.one ∧
        ∀ ti tj : Fin S,
          ((Sequential.updateGameState (binary32 m) s).objects[i]?).map
            (fun o => o.texture.pixels ti tj) = some F32.one) ∧
    (∀ (S : Nat) (obj : GameObject ℝ S),
      obj.position = ⟨0, 0, 0⟩ → Real.cos obj.rotation.x = 0 →
      Real.sin obj.rotation.y = 0 → Real.cos obj.rotation.z = 0 →
      (Sequential.updatePosition realArith obj).position = ⟨0, 0, 0⟩) := by
  refine ⟨?_, ?_, ?_⟩
  · intro S s i obj hl ho hpos htex
    exact seq_single_light_outcome realArith s i obj _ 1 1 1 hl ho
      (lightLoop_one_real _ hpos) htex (one_mul _)
  · intro m S s i obj hl ho hpos htex
    exact seq_single_light_outcome (binary32 m) s i obj _ F32.one F32.one F32.one hl ho
      (lightLoop_one_f32 m _ hpos) htex f32_one_mul_one
  · intro S obj hp hx hy hz
    rw [updatePosition_still obj hx hy hz, hp]

/-- Witness for C6 (amended): in exact arithmetic the object at the origin with rotation
`(π/2, 0, π/2)`; in single precision the object at `(-0.1f, 0, -0.1f)` with rotation
`(0, 0, 0)`, which `updatePosition` moves to the origin. -/
theorem C6_scenario_at_zero_distance_witness :
    (Sequential.updatePosition realArith
        (objectAt ⟨0, 0, 0⟩ ⟨Real.pi / 2, 0, Real.pi / 2⟩ 1)).position = ⟨0, 0, 0⟩ ∧
    ((Sequential.totalLights realArith zeroStateStill)[0]? = some 1 ∧
      ∀ ti tj : Fin TEX_SIZE,
        ((Sequential.updateGameState realArith zeroStateStill).objects[0]?).map
          (fun o => o.texture.pixels ti tj) = some 1) ∧
    ((Sequential.totalLights (binary32 Libm.leading) zeroStateArriving)[0]? =
        some F32.one ∧
      ∀ ti tj : Fin TEX_SIZE,
        ((Sequential.updateGameState (binary32 Libm.leading) zeroStateArriving).objects[0]?).map
          (fun o => o.texture.pixels ti tj) = some F32.one) :=
  ⟨C6_scenario_at_zero_distance.2.2 TEX_SIZE _ rfl cos_pi_div_two_still.1
      cos_pi_div_two_still.2 cos_pi_div_two_still.1,
    C6_scenario_at_zero_distance.1 TEX_SIZE zeroStateStill 0 _ rfl rfl
      (C6_scenario_at_zero_distance.2.2 TEX_SIZE _ rfl cos_pi_div_two_still.1
        cos_pi_div_two_still.2 cos_pi_div_two_still.1)
      (fun _ _ => rfl),
    C6_scenario_at_zero_distance.2.1 Libm.leading TEX_SIZE zeroStateArriving 0 _ rfl rfl
      (arriving_at_zero Libm.leading _ rfl rfl) (fun _ _ => rfl)⟩

/-- C7: the divisor `distance + 1` of `computeLighting` is at least `1`, hence not zero,
and at zero distance the contribution is the intensity of the light.  First conjunct:
exact arithmetic, for every object and light.  Second conjunct: single precision, for
every object and light with finite coordinates and every finite binary32 intensity; the
divisor is a number of magnitude at least `1.0` with sign bit clear, or `+∞`, and the
contribution is finite (neither an infinity nor NaN). -/
theorem C7_divisor_at_least_one :
    (∀ (S : Nat) (obj : GameObject ℝ S) (light : Light ℝ),
      1 ≤ Sequential.distance realArith obj light + 1 ∧
      Sequential.distance realArith obj light + 1 ≠ 0 ∧
      Sequential.computeLighting realArith obj light =
        light.intensity / (Sequential.distance realArith obj light + 1) ∧
      (obj.position = light.position →
        Sequential.computeLighting realArith obj light = light.intensity)) ∧
    (∀ (m : Libm) (S : Nat) (obj : GameObject F32 S) (light : Light F32),
      obj.position.IsFinite → light.position.IsFinite →
      light.intensity.IsFinite → light.intensity.IsBinary32 →
      (F32.add (Sequential.distance (binary32 m) obj light) F32.one).AtLeastOne ∧
      Sequential.computeLighting (binary32 m) obj light =
        F32.div light.intensity
          (F32.add (Sequential.distance (binary32 m) obj light) F32.one) ∧
      (Sequential.computeLighting (binary32 m) obj light).IsFinite ∧
      (obj.position = light.position →
        Sequential.computeLighting (binary32 m) obj light = light.intensity)) := by
  constructor
  · intro S obj light
    have hnn : 0 ≤ Sequential.distance realArith obj light := by
      rw [seq_distance_real]
      exact Real.sqrt_nonneg _
    refine ⟨by linarith, by linarith, rfl, ?_⟩
    intro heq
    rw [seq_computeLighting_real, heq]
    simp [euclideanDistance]
  · intro m S obj light ho hl hfin hbin
    have hone := f32_add_one_atLeastOne _ (seq_distance_nonNeg m obj light ho hl)
    refine ⟨hone, rfl, ?_, ?_⟩
    · show (F32.div light.intensity
        (F32.add (Sequential.distance (binary32 m) obj light) F32.one)).IsFinite
      cases hi : light.intensity with
      | inf s =>
        rw [hi] at hfin
        exact hfin.elim
      | nan =>
        rw [hi] at hfin
        exact hfin.elim
      | fin s a =>
        rw [hi] at hbin
        exact f32_div_finite s a _ hbin hone
    · intro heq
      show F32.div light.intensity
        (F32.add (Sequential.distance (binary32 m) obj light) F32.one) = light.intensity
      rw [seq_distance_self m obj light ho heq, f32_zero_add_one]
      cases hi : light.intensity with
      | inf s =>
        rw [hi] at hfin
        exact hfin.elim
      | nan =>
        rw [hi] at hfin
        exact hfin.elim
      | fin s a =>
        rw [hi] at hbin
        exact f32_div_one s a hbin

/-- Witness for C7: the object at the origin and a light at the origin of intensity
`0.5`, in single precision. -/
theorem C7_divisor_at_least_one_witness :
    originObject.position.IsFinite ∧ (originLight F32.half).position.IsFinite ∧
    (originLight F32.half).intensity.IsFinite ∧ (originLight F32.half).intensity.IsBinary32 ∧
    originObject.position = (originLight F32.half).position ∧
    (F32.add (Sequential.distance (binary32 Libm.leading) originObject
      (originLight F32.half)) F32.one).AtLeastOne ∧
    (Sequential.computeLighting (binary32 Libm.leading) originObject
      (originLight F32.half)).IsFinite ∧
    Sequential.computeLighting (binary32 Libm.leading) originObject (originLight F32.half) =
      F32.half :=
  ⟨⟨trivial, trivial, trivial⟩, ⟨trivial, trivial, trivial⟩, trivial, by decide, rfl,
    (C7_divisor_at_least_one.2 Libm.leading TEX_SIZE originObject (originLight F32.half)
      ⟨trivial, trivial, trivial⟩ ⟨trivial, trivial, trivial⟩ trivial (by decide)).1,
    (C7_divisor_at_least_one.2 Libm.leading TEX_SIZE originObject (originLight F32.half)
      ⟨trivial, trivial, trivial⟩ ⟨trivial, trivial, trivial⟩ trivial (by decide)).2.2.1,
    (C7_divisor_at_least_one.2 Libm.leading TEX_SIZE originObject (originLight F32.half)
      ⟨trivial, trivial, trivial⟩ ⟨trivial, trivial, trivial⟩ trivial (by decide)).2.2.2 rfl⟩

/-- C8, as stated, fails in single precision.  First state: the participant owns one
object, at the origin with rotation `(0, 0, 0)`, and three lights at `(0.1f, 0, 0.1f)`,
the point the object is moved to, so that every contribution is the intensity of its
light.  With the intensities in the order `1, 2^-24, 2^-24` the loop computes `1.0f`
(each addition of `2^-24` to `1` is a tie that rounds back to `1`); in the order
`2^-24, 2^-24, 1` it computes `1 + 2^-23`.  Second state: values of the kind the
constructors produce: the object starts at the grid point `(5, 25, 84)` with rotation
`(0, 0, 0)`, the lights are at grid points with intensities `46/100.0f`, `24/100.0f`,
`14/100.0f`; in this order the total is `13802532 * 2^-30`, in the reverse order
`13802533 * 2^-30`.  Both hold whatever `cosf`, `sinf` are away from zero. -/
theorem C8_order_matters_in_binary32 :
    (lightsBigFirst.Perm lightsBigLast ∧
      (originState lightsBigFirst).IsBinary32 ∧
      (originState lightsBigLast).IsBinary32 ∧
      ∀ m : Libm,
        Sequential.totalLights (binary32 m) (originState lightsBigFirst) = [F32.one] ∧
        Sequential.totalLights (binary32 m) (originState lightsBigLast) =
          [F32.fin false (2 ^ 149 + 2 ^ 126)] ∧
        Sequential.totalLights (binary32 m) (originState lightsBigFirst) ≠
          Sequential.totalLights (binary32 m) (originState lightsBigLast)) ∧
    (gridLights.Perm gridLightsReversed ∧
      (gridState gridLights).IsBinary32 ∧
      (gridState gridLightsReversed).IsBinary32 ∧
      ∀ m : Libm,
        Sequential.totalLights (binary32 m) (gridState gridLights) =
          [F32.fin false (13802532 * 2 ^ 119)] ∧
        Sequential.totalLights (binary32 m) (gridState gridLightsReversed) =
          [F32.fin false (13802533 * 2 ^ 119)] ∧
        Sequential.totalLights (binary32 m) (gridState gridLights) ≠
          Sequential.totalLights (binary32 m) (gridState gridLightsReversed)) := by
  constructor
  · refine ⟨lightsBig_perm, originState_isBinary32 _ (by decide),
      originState_isBinary32 _ (by decide), ?_⟩
    intro m
    have h1 : Sequential.totalLights (binary32 m) (originState lightsBigFirst) = [F32.one] := by
      rw [seq_totalLights_origin, lightLoop_bigFirst m _ (origin_advanced m)]
    have h2 : Sequential.totalLights (binary32 m) (originState lightsBigLast) =
        [F32.fin false (2 ^ 149 + 2 ^ 126)] := by
      rw [seq_totalLights_origin, lightLoop_bigLast m _ (origin_advanced m)]
    refine ⟨h1, h2, ?_⟩
    rw [h1, h2]
    decide
  · refine ⟨gridLights_perm, gridState_isBinary32 _ (by decide),
      gridState_isBinary32 _ (by decide), ?_⟩
    intro m
    have h1 : Sequential.totalLights (binary32 m) (gridState gridLights) =
        [F32.fin false (13802532 * 2 ^ 119)] :=
      congrArg (fun x => [x]) (lightLoop_grid m _ (grid_advanced m))
    have h2 : Sequential.totalLights (binary32 m) (gridState gridLightsReversed) =
        [F32.fin false (13802533 * 2 ^ 119)] :=
      congrArg (fun x => [x]) (lightLoop_gridReversed m _ (grid_advanced m))
    refine ⟨h1, h2, ?_⟩
    rw [h1, h2]
    decide

/-- C8, amended: in exact arithmetic the `total_light` computed for each object by
`updateGameState` is the same for every reordering of the lights of the participant. -/
theorem C8_total_light_order_independent_exact (S : Nat) (s : GameState ℝ S)
    (lights' : List (Light ℝ)) (h : s.lights.Perm lights') :
    Sequential.totalLights realArith { s with lights := lights' } =
      Sequential.totalLights realArith s := by
  rw [seq_totalLights_real, seq_totalLights_real]
  apply List.map_congr_left
  intro obj _
  exact (illumination_perm h _).symm

/-- Witness for C8 (amended): two lights in either order. -/
theorem C8_total_light_order_independent_exact_witness :
    sampleState.lights.Perm sampleLightsSwapped ∧
    Sequential.totalLights realArith { sampleState with lights := sampleLightsSwapped } =
      Sequential.totalLights realArith sampleState :=
  ⟨sampleLights_perm,
    C8_total_light_order_independent_exact 2 sampleState sampleLightsSwapped sampleLights_perm⟩

/-- C9: one call of `updateGameState` leaves the participant's `player_id`, its lights
(position and intensity of each) and the rotation of every object unchanged, and keeps
the number of objects; only positions and textures of objects can differ. -/
theorem C9_updateGameState_frame {F : Type} {S : Nat} (A : Arith F) (s : GameState F S) :
    (Sequential.updateGameState A s).player_id = s.player_id ∧
      (Sequential.updateGameState A s).lights = s.lights ∧
      (Sequential.updateGameState A s).objects.map (fun obj => obj.rotation) =
        s.objects.map (fun obj => obj.rotation) ∧
      (Sequential.updateGameState A s).objects.length = s.objects.length := by
  refine ⟨rfl, rfl, ?_, seq_updateGameState_objects_length A s⟩
  simp [Sequential.updateGameState, Function.comp_def, seq_updateObject_fst_rotation]

/-- C10: `updateGameState` keeps the number of objects and the number of lights of a
participant, and the frame loop, run for any number of frames, keeps the number of
participants and, participant by participant, the number of objects and of lights. -/
theorem C10_population_invariant {F : Type} {S : Nat} (A : Arith F) :
    (∀ s : GameState F S,
      (Sequential.updateGameState A s).objects.length = s.objects.length ∧
        (Sequential.updateGameState A s).lights.length = s.lights.length) ∧
    (∀ (frames : Nat) (game_states : List (GameState F S)),
      (Sequential.frameLoop A frames game_states).1.length = game_states.length ∧
        (Sequential.frameLoop A frames game_states).1.map
            (fun s => (s.objects.length, s.lights.length)) =
          game_states.map (fun s => (s.objects.length, s.lights.length))) := by
  refine ⟨fun s => ⟨seq_updateGameState_objects_length A s, rfl⟩, ?_⟩
  intro frames game_states
  rw [seq_frameLoop_fst]
  refine ⟨by simp, ?_⟩
  rw [List.map_map]
  apply List.map_congr_left
  intro s _
  obtain ⟨h1, h2⟩ := seq_iterate_updateGameState_counts A frames s
  simp [h1, h2]

/-- C11: the object that `updateGameState` produces at index `i`, and the `total_light`
it computes for it, are determined by the object at index `i` before the call and by the
lights.  First conjunct: `sequential.cpp`, in every arithmetic: two participants that
agree on the lights and on object `i` agree on object `i` and on its total after the
call, whatever their other objects (and their number) are.  Second conjunct:
`parallel.cpp`, in every arithmetic, for valid schedules that combine the light
reduction of object `i` in the same way.  Third conjunct: `parallel.cpp`, in exact
arithmetic, for all valid schedules. -/
theorem C11_object_update_depends_on_own_state_and_lights :
    (∀ (F : Type) (S : Nat) (A : Arith F) (s₁ s₂ : GameState F S) (i : Nat),
      s₁.lights = s₂.lights → s₁.objects[i]? = s₂.objects[i]? →
        (Sequential.updateGameState A s₁).objects[i]? =
            (Sequential.updateGameState A s₂).objects[i]? ∧
          (Sequential.totalLights A s₁)[i]? = (Sequential.totalLights A s₂)[i]?) ∧
    (∀ (F : Type) (S : Nat) (A : Arith F) (sched₁ sched₂ : Parallel.Schedule S)
        (s₁ s₂ : GameState F S) (i : Nat),
      sched₁.Valid s₁ → sched₂.Valid s₂ →
      s₁.lights = s₂.lights → s₁.objects[i]? = s₂.objects[i]? →
      sched₁.reduction i = sched₂.reduction i →
        (Parallel.updateGameState A sched₁ s₁).objects[i]? =
          (Parallel.updateGameState A sched₂ s₂).objects[i]?) ∧
    (∀ (S : Nat) (sched₁ sched₂ : Parallel.Schedule S) (s₁ s₂ : GameState ℝ S) (i : Nat),
      sched₁.Valid s₁ → sched₂.Valid s₂ →
      s₁.lights = s₂.lights → s₁.objects[i]? = s₂.objects[i]? →
        (Parallel.updateGameState realArith sched₁ s₁).objects[i]? =
          (Parallel.updateGameState realArith sched₂ s₂).objects[i]?) := by
  have hseq : ∀ (F : Type) (S : Nat) (A : Arith F) (s₁ s₂ : GameState F S) (i : Nat),
      s₁.lights = s₂.lights → s₁.objects[i]? = s₂.objects[i]? →
        (Sequential.updateGameState A s₁).objects[i]? =
            (Sequential.updateGameState A s₂).objects[i]? ∧
          (Sequential.totalLights A s₁)[i]? = (Sequential.totalLights A s₂)[i]? := by
    intro F S A s₁ s₂ i hl ho
    constructor
    · rw [seq_updateGameState_getElem?, seq_updateGameState_getElem?, hl, ho]
    · rw [seq_totalLights_getElem?, seq_totalLights_getElem?, hl, ho]
  refine ⟨hseq, ?_, ?_⟩
  · intro F S A sched₁ sched₂ s₁ s₂ i hv₁ hv₂ hl ho hr
    rw [par_updateGameState_getElem? A sched₁ s₁ hv₁, par_updateGameState_getElem? A sched₂ s₂ hv₂,
      hl, ho, hr]
    congr 1
    funext obj
    exact par_updateObject_texelOrder A _ _ _ (hv₁.2.2 i) (hv₂.2.2 i) _ obj
  · intro S sched₁ sched₂ s₁ s₂ i hv₁ hv₂ hl ho
    rw [par_updateGameState_real sched₁ s₁ hv₁, par_updateGameState_real sched₂ s₂ hv₂]
    exact (hseq ℝ S realArith s₁ s₂ i hl ho).1

/-- Witness for C11: `sampleState` and `sampleStateOther` agree on the lights and on
object `0` and differ in their second object. -/
theorem C11_object_update_depends_on_own_state_and_lights_witness :
    sampleState.lights = sampleStateOther.lights ∧
    sampleState.objects[0]? = sampleStateOther.objects[0]? ∧
    sampleState.objects[1]? ≠ sampleStateOther.objects[1]? ∧
    sampleSchedule.Valid sampleState ∧ sampleScheduleInOrder.Valid sampleStateOther ∧
    (Sequential.updateGameState realArith sampleState).objects[0]? =
      (Sequential.updateGameState realArith sampleStateOther).objects[0]? ∧
    (Parallel.updateGameState realArith sampleSchedule sampleState).objects[0]? =
      (Parallel.updateGameState realArith sampleSchedule sampleStateOther).objects[0]? ∧
    (Parallel.updateGameState realArith sampleSchedule sampleState).objects[0]? =
      (Parallel.updateGameState realArith sampleScheduleInOrder sampleStateOther).objects[0]? := by
  have hin : sampleScheduleInOrder.Valid sampleStateOther := by
    refine ⟨?_, fun _ => ?_, fun _ => List.reverse_perm _⟩
    · exact List.Perm.swap 0 1 []
    · exact List.Perm.refl _
  refine ⟨rfl, rfl, ?_, sampleSchedule_valid, hin,
    (C11_object_update_depends_on_own_state_and_lights.1 ℝ 2 realArith sampleState
      sampleStateOther 0 rfl rfl).1,
    C11_object_update_depends_on_own_state_and_lights.2.1 ℝ 2 realArith sampleSchedule
      sampleSchedule sampleState sampleStateOther 0 sampleSchedule_valid
      sampleSchedule_valid_other rfl rfl rfl,
    C11_object_update_depends_on_own_state_and_lights.2.2 2 sampleSchedule
      sampleScheduleInOrder sampleState sampleStateOther 0 sampleSchedule_valid hin rfl rfl⟩
  intro h
  have h1 : sampleObject.position.x = (9 : ℝ) := by
    have h2 := Option.some.inj h
    exact congrArg (fun o : GameObject ℝ 2 => o.position.x) h2
  have h3 : sampleObject.position.x = (3 : ℝ) := rfl
  rw [h3] at h1
  norm_num at h1

/-- C12: the intensity of a light built by `Light::Light` when the call of `rand()` that
feeds it returns a non-negative value `r` (it is call number `n + 3` when the
constructor starts at call number `n`).  First conjunct, exact arithmetic: the intensity
is `k / 100` with `k = r % 100` one of `0, ..., 99`, so it lies in `[0, 1)`.  Second
conjunct, single precision: the intensity is the binary32 quotient of `k` by `100.0f`,
a finite number with sign bit clear and magnitude below `1.0f`.  The constructor of
`parallel.cpp` builds the same light. -/
theorem C12_light_intensity_in_unit_interval :
    (∀ (S : Nat) (P : Platform ℝ S) (n : Nat), 0 ≤ P.rand (n + 3) →
      ∃ k : Nat, k < 100 ∧ (k : Int) = Int.tmod (P.rand (n + 3)) 100 ∧
        (Sequential.Light.ctor realCtor P n).1.intensity = (k : ℝ) / 100 ∧
        0 ≤ (Sequential.Light.ctor realCtor P n).1.intensity ∧
        (Sequential.Light.ctor realCtor P n).1.intensity < 1 ∧
        Parallel.Light.ctor realCtor P n = Sequential.Light.ctor realCtor P n) ∧
    (∀ (m : Libm) (S : Nat) (P : Platform F32 S) (n : Nat), 0 ≤ P.rand (n + 3) →
      ∃ k : Nat, k < 100 ∧ (k : Int) = Int.tmod (P.rand (n + 3)) 100 ∧
        (Sequential.Light.ctor (binary32Ctor m) P n).1.intensity =
          F32.div (F32.ofNat k) (F32.ofNat 100) ∧
        (Sequential.Light.ctor (binary32Ctor m) P n).1.intensity.BelowOne ∧
        Parallel.Light.ctor (binary32Ctor m) P n =
          Sequential.Light.ctor (binary32Ctor m) P n) := by
  constructor
  · intro S P n hr
    obtain ⟨k, hk, hkr⟩ := tmod_nonneg_cases (P.rand (n + 3)) 100 hr (by decide)
    have h100 : ((100 : Nat) : Int) = 100 := rfl
    rw [h100] at hkr
    have hval : (Sequential.Light.ctor realCtor P n).1.intensity = (k : ℝ) / 100 := by
      rw [seq_light_intensity]
      show ((Int.tmod (P.rand (n + 3)) 100 : Int) : ℝ) / 100 = _
      rw [← hkr]
      simp
    have hk100 : (k : ℝ) < 100 := by exact_mod_cast hk
    refine ⟨k, hk, hkr, hval, ?_, ?_, par_light_eq_seq _ _ _⟩
    · rw [hval]
      positivity
    · rw [hval, div_lt_one (by norm_num)]
      exact hk100
  · intro m S P n hr
    obtain ⟨k, hk, hkr⟩ := tmod_nonneg_cases (P.rand (n + 3)) 100 hr (by decide)
    have h100 : ((100 : Nat) : Int) = 100 := rfl
    rw [h100] at hkr
    obtain ⟨h1, h2⟩ := f32_intensity_belowOne k hk
    have hval : (Sequential.Light.ctor (binary32Ctor m) P n).1.intensity =
        F32.div (F32.ofNat k) (F32.ofNat 100) := by
      rw [seq_light_intensity]
      show F32.div (F32.ofInt (Int.tmod (P.rand (n + 3)) 100)) (F32.ofNat 100) = _
      rw [← hkr, h1]
    refine ⟨k, hk, hkr, hval, ?_, par_light_eq_seq _ _ _⟩
    rw [hval]
    exact h2

/-- Witness for C12: the light built from call number `0` on, of the sequence
`255, 555, 855, 1155, ...`; the draw for the intensity is `1155`. -/
theorem C12_light_intensity_in_unit_interval_witness :
    (0 ≤ samplePlatform.rand (0 + 3) ∧
      ∃ k : Nat, k < 100 ∧ (k : Int) = Int.tmod (samplePlatform.rand (0 + 3)) 100 ∧
        (Sequential.Light.ctor realCtor samplePlatform 0).1.intensity = (k : ℝ) / 100 ∧
        0 ≤ (Sequential.Light.ctor realCtor samplePlatform 0).1.intensity ∧
        (Sequential.Light.ctor realCtor samplePlatform 0).1.intensity < 1 ∧
        Parallel.Light.ctor realCtor samplePlatform 0 =
          Sequential.Light.ctor realCtor samplePlatform 0) ∧
    (0 ≤ samplePlatformF32.rand (0 + 3) ∧
      ∃ k : Nat, k < 100 ∧ (k : Int) = Int.tmod (samplePlatformF32.rand (0 + 3)) 100 ∧
        (Sequential.Light.ctor (binary32Ctor Libm.leading) samplePlatformF32 0).1.intensity =
          F32.div (F32.ofNat k) (F32.ofNat 100) ∧
        (Sequential.Light.ctor (binary32Ctor Libm.leading) samplePlatformF32
          0).1.intensity.BelowOne ∧
        Parallel.Light.ctor (binary32Ctor Libm.leading) samplePlatformF32 0 =
          Sequential.Light.ctor (binary32Ctor Libm.leading) samplePlatformF32 0) :=
  ⟨⟨by decide, C12_light_intensity_in_unit_interval.1 2 samplePlatform 0 (by decide)⟩,
    ⟨by decide,
      C12_light_intensity_in_unit_interval.2 Libm.leading 2 samplePlatformF32 0 (by decide)⟩⟩

/-- C13: the samples of a texture built by `Texture::Texture`, the constructor starting
at call number `n` of `rand()` and `pixels` being the array before the loops.  First
conjunct (`sequential.cpp`, every arithmetic): `S * S` calls are made and the sample at
`(i, j)` is `static_cast<float>(r % 256) / 255.0f` with `r` the value returned by call
number `n + i * S + j`.  Second conjunct (`parallel.cpp`, every order of the iterations):
the same with `r` the value returned by the call made in iteration `(i, j)`.  Third and
fourth conjunct (exact arithmetic): when `r` is non-negative the sample is `k / 255`
with `k = r % 256` one of `0, ..., 255`, so it lies in `[0, 1]`.  Fifth and sixth
conjunct (single precision): when `r` is non-negative the sample is the binary32
quotient of `k` by `255.0f`, a finite number with sign bit clear and magnitude at most
`1.0f`. -/
theorem C13_texture_samples_in_unit_interval :
    (∀ (F : Type) (S : Nat) (A : CtorArith F) (rand : Nat → Int) (pixels : Texture F S)
        (n : Nat),
      (Sequential.Texture.ctor A rand pixels n).2 = n + S * S ∧
        ∀ i j : Fin S,
          (Sequential.Texture.ctor A rand pixels n).1.pixels i j =
            A.div (A.ofInt (Int.tmod (rand (n + (i * S + j))) 256)) A.twoFiftyFive) ∧
    (∀ (F : Type) (S : Nat) (A : CtorArith F) (rand : Nat → Int)
        (order : List (Fin S × Fin S)) (pixels : Texture F S) (n : Nat),
      order.Perm (Parallel.allTexels S) →
        (Parallel.Texture.ctor A rand order pixels n).2 = n + S * S ∧
          ∀ i j : Fin S,
            rank (i, j) order < S * S ∧
              (Parallel.Texture.ctor A rand order pixels n).1.pixels i j =
                A.div (A.ofInt (Int.tmod (rand (n + rank (i, j) order)) 256))
                  A.twoFiftyFive) ∧
    (∀ (S : Nat) (rand : Nat → Int) (pixels : Texture ℝ S) (n : Nat) (i j : Fin S),
      0 ≤ rand (n + (i * S + j)) →
        ∃ k : Nat, k < 256 ∧ (k : Int) = Int.tmod (rand (n + (i * S + j))) 256 ∧
          (Sequential.Texture.ctor realCtor rand pixels n).1.pixels i j = (k : ℝ) / 255 ∧
          0 ≤ (Sequential.Texture.ctor realCtor rand pixels n).1.pixels i j ∧
          (Sequential.Texture.ctor realCtor rand pixels n).1.pixels i j ≤ 1) ∧
    (∀ (S : Nat) (rand : Nat → Int) (order : List (Fin S × Fin S)) (pixels : Texture ℝ S)
        (n : Nat) (i j : Fin S),
      order.Perm (Parallel.allTexels S) → 0 ≤ rand (n + rank (i, j) order) →
        ∃ k : Nat, k < 256 ∧ (k : Int) = Int.tmod (rand (n + rank (i, j) order)) 256 ∧
          (Parallel.Texture.ctor realCtor rand order pixels n).1.pixels i j = (k : ℝ) / 255 ∧
          0 ≤ (Parallel.Texture.ctor realCtor rand order pixels n).1.pixels i j ∧
          (Parallel.Texture.ctor realCtor rand order pixels n).1.pixels i j ≤ 1) ∧
    (∀ (m : Libm) (S : Nat) (rand : Nat → Int) (pixels : Texture F32 S) (n : Nat)
        (i j : Fin S),
      0 ≤ rand (n + (i * S + j)) →
        ∃ k : Nat, k < 256 ∧ (k : Int) = Int.tmod (rand (n + (i * S + j))) 256 ∧
          (Sequential.Texture.ctor (binary32Ctor m) rand pixels n).1.pixels i j =
            F32.div (F32.ofNat k) (F32.ofNat 255) ∧
          ((Sequential.Texture.ctor (binary32Ctor m) rand pixels n).1.pixels i j).AtMostOne) ∧
    (∀ (m : Libm) (S : Nat) (rand : Nat → Int) (order : List (Fin S × Fin S))
        (pixels : Texture F32 S) (n : Nat) (i j : Fin S),
      order.Perm (Parallel.allTexels S) → 0 ≤ rand (n + rank (i, j) order) →
        ∃ k : Nat, k < 256 ∧ (k : Int) = Int.tmod (rand (n + rank (i, j) order)) 256 ∧
          (Parallel.Texture.ctor (binary32Ctor m) rand order pixels n).1.pixels i j =
            F32.div (F32.ofNat k) (F32.ofNat 255) ∧
          ((Parallel.Texture.ctor (binary32Ctor m) rand order pixels n).1.pixels
            i j).AtMostOne) := by
  refine ⟨?_, ?_, ?_, ?_, ?_, ?_⟩
  · intro F S A rand pixels n
    exact seq_texture_ctor A rand pixels n
  · intro F S A rand order pixels n horder
    obtain ⟨h1, h2⟩ := par_texture_ctor A rand order horder pixels n
    refine ⟨h1, fun i j => ⟨?_, h2 i j⟩⟩
    have := rank_lt_length (i, j) order (horder.mem_iff.mpr (mem_allTexels (i, j)))
    rwa [horder.length_eq, allTexels_length] at this
  · intro S rand pixels n i j hr
    obtain ⟨k, hk, hkr, hval, h0, h1⟩ := real_sample_range _ hr
    rw [(seq_texture_ctor realCtor rand pixels n).2 i j]
    exact ⟨k, hk, hkr, hval, h0, h1⟩
  · intro S rand order pixels n i j horder hr
    obtain ⟨k, hk, hkr, hval, h0, h1⟩ := real_sample_range _ hr
    rw [(par_texture_ctor realCtor rand order horder pixels n).2 i j]
    exact ⟨k, hk, hkr, hval, h0, h1⟩
  · intro m S rand pixels n i j hr
    obtain ⟨k, hk, hkr, hval, h1⟩ := f32_sample_range m _ hr
    rw [(seq_texture_ctor (binary32Ctor m) rand pixels n).2 i j, hval]
    exact ⟨k, hk, hkr, rfl, h1⟩
  · intro m S rand order pixels n i j horder hr
    obtain ⟨k, hk, hkr, hval, h1⟩ := f32_sample_range m _ hr
    rw [(par_texture_ctor (binary32Ctor m) rand order horder pixels n).2 i j, hval]
    exact ⟨k, hk, hkr, rfl, h1⟩

/-- Witness for C13: two-by-two textures built from the sequence `255, 555, 855, ...`,
the iterations of the parallel loops taken in reverse row-major order. -/
theorem C13_texture_samples_in_unit_interval_witness :
    ((Parallel.allTexels 2).reverse.Perm (Parallel.allTexels 2) ∧
      (Parallel.Texture.ctor realCtor sampleRand (Parallel.allTexels 2).reverse
        (flatTexture 2 0) 0).2 = 0 + 2 * 2) ∧
    (0 ≤ sampleRand (0 + (((1 : Fin 2) : Nat) * 2 + ((0 : Fin 2) : Nat))) ∧
      ∃ k : Nat, k < 256 ∧
        (k : Int) =
          Int.tmod (sampleRand (0 + (((1 : Fin 2) : Nat) * 2 + ((0 : Fin 2) : Nat)))) 256 ∧
        (Sequential.Texture.ctor realCtor sampleRand (flatTexture 2 0) 0).1.pixels 1 0 =
          (k : ℝ) / 255 ∧
        0 ≤ (Sequential.Texture.ctor realCtor sampleRand (flatTexture 2 0) 0).1.pixels 1 0 ∧
        (Sequential.Texture.ctor realCtor sampleRand (flatTexture 2 0) 0).1.pixels 1 0 ≤ 1) ∧
    (0 ≤ sampleRand (0 + rank ((1 : Fin 2), (0 : Fin 2)) (Parallel.allTexels 2).reverse) ∧
      ∃ k : Nat, k < 256 ∧
        (k : Int) =
          Int.tmod
            (sampleRand (0 + rank ((1 : Fin 2), (0 : Fin 2)) (Parallel.allTexels 2).reverse))
            256 ∧
        (Parallel.Texture.ctor (binary32Ctor Libm.leading) sampleRand
            (Parallel.allTexels 2).reverse (flatTexture 2 F32.nan) 0).1.pixels 1 0 =
          F32.div (F32.ofNat k) (F32.ofNat 255) ∧
        ((Parallel.Texture.ctor (binary32Ctor Libm.leading) sampleRand
          (Parallel.allTexels 2).reverse (flatTexture 2 F32.nan) 0).1.pixels 1 0).AtMostOne) :=
  ⟨⟨List.reverse_perm _,
      (C13_texture_samples_in_unit_interval.2.1 ℝ 2 realCtor sampleRand
        (Parallel.allTexels 2).reverse (flatTexture 2 0) 0 (List.reverse_perm _)).1⟩,
    ⟨by decide,
      C13_texture_samples_in_unit_interval.2.2.1 2 sampleRand (flatTexture 2 0) 0 1 0
        (by decide)⟩,
    ⟨by decide,
      C13_texture_samples_in_unit_interval.2.2.2.2.2 Libm.leading 2 sampleRand
        (Parallel.allTexels 2).reverse (flatTexture 2 F32.nan) 0 1 0 (List.reverse_perm _)
        (by decide)⟩⟩

/-- C14: a frame loop of zero iterations.  `main` with the frame count set to zero
returns the population built by the initialisation loop, every participant with the
objects (position, rotation, texture) and lights it was constructed with, and prints
nothing; this holds for `sequential.cpp` and for `parallel.cpp`, in every arithmetic, on
every platform and under every schedule.  More generally the frame loop of either file,
run for zero iterations on any population, returns that population. -/
theorem C14_zero_frames_leave_population_as_constructed :
    (∀ (F : Type) (S : Nat) (A : CtorArith F) (P : Platform F S),
      Sequential.main A P 0 = ((Sequential.initialise A P MAX_PLAYERS 0).1, [])) ∧
    (∀ (F : Type) (S : Nat) (A : CtorArith F) (P : Platform F S)
        (order : Nat → List (Fin S × Fin S)) (sched : Nat → Nat → Parallel.Schedule S),
      Parallel.main A P order sched 0 = ((Parallel.initialise A P order MAX_PLAYERS 0).1, [])) ∧
    (∀ (F : Type) (S : Nat) (A : Arith F) (game_states : List (GameState F S)),
      Sequential.frameLoop A 0 game_states = (game_states, [])) ∧
    (∀ (F : Type) (S : Nat) (A : Arith F) (sched : Nat → Nat → Parallel.Schedule S)
        (frame : Nat) (game_states : List (GameState F S)),
      Parallel.frameLoop A sched 0 frame game_states = (game_states, [])) :=
  ⟨fun _ _ _ _ => rfl, fun _ _ _ _ _ _ => rfl, fun _ _ _ _ => rfl, fun _ _ _ _ _ _ => rfl⟩

/-- C15: object `i` of a participant after `k` successive calls of `updateGameState`, in
exact arithmetic.  The object is still there, its rotation is unchanged, its position is
the initial position plus `k` times `(0.1 cos rotation.x, 0.1 sin rotation.y,
0.1 cos rotation.z)`, and every texel is its initial value times the product of the `k`
values taken by `total_light` for that object (no clamping); the value of `total_light`
in call number `f` (from zero) is the illumination of the lights at the position after
`f + 1` calls.  Second conjunct, every arithmetic: the position is the initial one
advanced `k` times by the assignments of `updatePosition`, and every texel is the
initial value multiplied in turn by the `k` values of `total_light`.  Third conjunct:
the frame loop of `main`, run for `frames` iterations, leaves every participant in the
state reached by `frames` successive calls of `updateGameState`. -/
theorem C15_state_after_k_calls :
    (∀ (S : Nat) (s : GameState ℝ S) (i : Nat) (obj : GameObject ℝ S) (k : Nat),
      s.objects[i]? = some obj →
        ∃ obj' : GameObject ℝ S,
          ((Sequential.updateGameState realArith)^[k] s).objects[i]? = some obj' ∧
            obj'.rotation = obj.rotation ∧
            obj'.position = positionAfter obj.rotation obj.position k ∧
            (∀ ti tj, obj'.texture.pixels ti tj =
              obj.texture.pixels ti tj *
                Finset.prod (Finset.range k) (fun f => frameTotalLight realArith s f i)) ∧
            ∀ f, frameTotalLight realArith s f i =
              illumination s.lights (positionAfter obj.rotation obj.position (f + 1))) ∧
    (∀ (F : Type) (S : Nat) (A : Arith F) (s : GameState F S) (i : Nat) (obj : GameObject F S)
        (k : Nat),
      s.objects[i]? = some obj →
        ∃ obj' : GameObject F S,
          ((Sequential.updateGameState A)^[k] s).objects[i]? = some obj' ∧
            obj'.rotation = obj.rotation ∧
            obj'.position = (advance A obj.rotation)^[k] obj.position ∧
            ∀ ti tj, obj'.texture.pixels ti tj =
              (List.range k).foldl (fun t f => A.mul t (frameTotalLight A s f i))
                (obj.texture.pixels ti tj)) ∧
    (∀ (F : Type) (S : Nat) (A : Arith F) (frames : Nat) (game_states : List (GameState F S)),
      (Sequential.frameLoop A frames game_states).1 =
        game_states.map (fun s => (Sequential.updateGameState A)^[frames] s)) := by
  refine ⟨?_, ?_, fun F S A frames game_states => seq_frameLoop_fst A frames game_states⟩
  · intro S s i obj k h
    obtain ⟨obj', h1, h2, h3, h4⟩ := seq_iterate_object realArith s i obj h k
    refine ⟨obj', h1, h2, ?_, ?_, ?_⟩
    · rw [h3, advance_iterate_real]
    · intro ti tj
      rw [h4, foldl_mul_eq_prod]
    · intro f
      obtain ⟨objf, g1, g2, g3, -⟩ := seq_iterate_object realArith s i obj h f
      rw [frameTotalLight_eq realArith s f i objf g1, seq_lightLoop_real,
        seq_updatePosition_position, g2, g3, ← advance_iterate_real,
        Function.iterate_succ_apply']
  · intro F S A s i obj k h
    exact seq_iterate_object A s i obj h k

/-- Witness for C15: the first object of `sampleState` after two calls. -/
theorem C15_state_after_k_calls_witness :
    sampleState.objects[0]? = some sampleObject ∧
      ∃ obj' : GameObject ℝ 2,
        ((Sequential.updateGameState realArith)^[2] sampleState).objects[0]? = some obj' ∧
          obj'.rotation = sampleObject.rotation ∧
          obj'.position = positionAfter sampleObject.rotation sampleObject.position 2 ∧
          (∀ ti tj, obj'.texture.pixels ti tj =
            sampleObject.texture.pixels ti tj *
              Finset.prod (Finset.range 2)
                (fun f => frameTotalLight realArith sampleState f 0)) ∧
          ∀ f, frameTotalLight realArith sampleState f 0 =
            illumination sampleState.lights
              (positionAfter sampleObject.rotation sampleObject.position (f + 1)) :=
  ⟨rfl, C15_state_after_k_calls.1 2 sampleState 0 sampleObject 2 rfl⟩

/-- C16, as stated, fails in five ways.  First conjunct: `darkState` has no light, so its
lights all have an intensity in `[0, 1)` and its texels are non-negative, but the value
of `total_light`, `0`, is not strictly below the number of lights, `0`.  Second
conjunct, single precision: the participant `originState lightsRoundUp` is made of
binary32 numbers, its two lights have the non-negative intensities `1` and
`2^-24 + 2^-47` and its texels are `1.0f`, but the value of `total_light`,
`1 + 2^-23`, exceeds the sum of the intensities (`2^149 + 2^126` against
`2^149 + 2^125 + 2^102` in units of `2^-149`): the last addition rounds up; it equals
the sum of the intensities accumulated in single precision.  Third conjunct, single
precision: `glareState` has a light of intensity `0` and texels `+∞`, which are `>= 0`;
`total_light` is `0` and every texel becomes `+∞ * 0`, that is NaN, which is not
`>= 0`.  Fourth conjunct, single precision: `blindingState` has texels `0` and two lights
whose intensity is the largest finite number; `total_light` overflows to `+∞` and every
texel becomes `0 * +∞`, that is NaN.  Fifth conjunct, single precision: `dazzleState` has
a light of intensity `+∞`, which is `>= 0`, at the origin and its object at `z = 1e30f`;
the squared distance overflows, the contribution is `+∞ / +∞` and `total_light` is NaN,
which is not `>= 0`. -/
theorem C16_bounds_fail :
    ((∀ light ∈ darkState.lights, 0 ≤ light.intensity ∧ light.intensity < 1) ∧
      (∀ obj ∈ darkState.objects, ∀ ti tj, 0 ≤ obj.texture.pixels ti tj) ∧
      Sequential.totalLights realArith darkState = [0] ∧
      ¬ ((0 : ℝ) < (darkState.lights.length : ℝ))) ∧
    (∀ m : Libm,
      (originState lightsRoundUp).IsBinary32 ∧
      (∀ light ∈ (originState lightsRoundUp).lights, light.intensity.NonNeg) ∧
      (∀ obj ∈ (originState lightsRoundUp).objects, ∀ ti tj,
        obj.texture.pixels ti tj = F32.one) ∧
      Sequential.totalLights (binary32 m) (originState lightsRoundUp) =
        [F32.fin false (2 ^ 149 + 2 ^ 126)] ∧
      intensityUnits (originState lightsRoundUp).lights = 2 ^ 149 + 2 ^ 125 + 2 ^ 102 ∧
      intensityUnits (originState lightsRoundUp).lights < 2 ^ 149 + 2 ^ 126 ∧
      intensitySum (binary32 m) (originState lightsRoundUp).lights =
        F32.fin false (2 ^ 149 + 2 ^ 126)) ∧
    (∀ m : Libm,
      (∀ light ∈ glareState.lights, light.position.IsFinite ∧ light.intensity.IsFinite ∧
        light.intensity.IsBinary32 ∧ F32.le F32.zero light.intensity) ∧
      (∀ obj ∈ glareState.objects, ∀ ti tj, F32.le F32.zero (obj.texture.pixels ti tj)) ∧
      (Sequential.totalLights (binary32 m) glareState)[0]? = some F32.zero ∧
      (∀ ti tj : Fin TEX_SIZE,
        ((Sequential.updateGameState (binary32 m) glareState).objects[0]?).map
          (fun o => o.texture.pixels ti tj) = some F32.nan) ∧
      ¬ F32.le F32.zero F32.nan) ∧
    (∀ m : Libm,
      (∀ light ∈ blindingState.lights, light.position.IsFinite ∧ light.intensity.IsFinite ∧
        light.intensity.IsBinary32 ∧ F32.le F32.zero light.intensity) ∧
      (∀ obj ∈ blindingState.objects, ∀ ti tj, F32.le F32.zero (obj.texture.pixels ti tj)) ∧
      (Sequential.totalLights (binary32 m) blindingState)[0]? = some (F32.inf false) ∧
      (∀ ti tj : Fin TEX_SIZE,
        ((Sequential.updateGameState (binary32 m) blindingState).objects[0]?).map
          (fun o => o.texture.pixels ti tj) = some F32.nan)) ∧
    (∀ m : Libm,
      (∀ light ∈ dazzleState.lights, light.position.IsFinite ∧
        F32.le F32.zero light.intensity) ∧
      (∀ obj ∈ dazzleState.objects, obj.position.IsFinite ∧ obj.position.IsBinary32 ∧
        obj.rotation.IsFinite ∧ ∀ ti tj, F32.le F32.zero (obj.texture.pixels ti tj)) ∧
      (Sequential.totalLights (binary32 m) dazzleState)[0]? = some F32.nan) := by
  refine ⟨?_, ?_, ?_, ?_, ?_⟩
  · refine ⟨?_, ?_, ?_, ?_⟩
    · intro light hlight
      exact absurd hlight (List.not_mem_nil _)
    · intro obj hobj ti tj
      have hobj' : obj = sampleObject := by simpa [darkState] using hobj
      subst hobj'
      show (0 : ℝ) ≤ 1
      norm_num
    · rw [seq_totalLights_real]
      simp [darkState, illumination]
    · simp [darkState]
  · intro m
    refine ⟨originState_isBinary32 _ ?_, ?_, ?_, ?_, by decide, by decide, ?_⟩
    · intro light hlight
      have hcases : light = spotLight F32.one ∨
          light = spotLight (F32.fin false (2 ^ 125 + 2 ^ 102)) := by
        simpa [lightsRoundUp] using hlight
      rcases hcases with h | h <;> subst h <;> decide
    · intro light hlight
      have hcases : light = spotLight F32.one ∨
          light = spotLight (F32.fin false (2 ^ 125 + 2 ^ 102)) := by
        simpa [originState, lightsRoundUp] using hlight
      rcases hcases with h | h <;> subst h <;> rfl
    · intro obj hobj ti tj
      have hobj' : obj = originObject := by simpa [originState] using hobj
      subst hobj'
      rfl
    · rw [seq_totalLights_origin, lightLoop_roundUp m _ (origin_advanced m)]
    · simp only [intensitySum, originState, lightsRoundUp, spotLight, binary32, List.foldl]
      decide
  · intro m
    refine ⟨?_, ?_, ?_, ?_, fun h => h⟩
    · intro light hlight
      have h : light = spotLight F32.zero := by simpa [glareState] using hlight
      subst h
      exact ⟨⟨trivial, trivial, trivial⟩, trivial, by decide,
        (f32_zero_le_fin _ _).mpr (Or.inl rfl)⟩
    · intro obj hobj ti tj
      have h : obj = objectAt ⟨F32.zero, F32.zero, F32.zero⟩
          ⟨F32.zero, F32.zero, F32.zero⟩ (F32.inf false) := by
        simpa [glareState] using hobj
      subst h
      exact f32_zero_le_of_nonNeg (F32.inf false) rfl
    · exact (seq_single_light_outcome (binary32 m) glareState 0 _ (spotLight F32.zero)
        F32.zero (F32.inf false) F32.nan rfl rfl
        (lightLoop_dark m _ (objectAt_origin_advanced m _)) (fun _ _ => rfl) rfl).1
    · exact (seq_single_light_outcome (binary32 m) glareState 0 _ (spotLight F32.zero)
        F32.zero (F32.inf false) F32.nan rfl rfl
        (lightLoop_dark m _ (objectAt_origin_advanced m _)) (fun _ _ => rfl) rfl).2
  · intro m
    refine ⟨?_, ?_, ?_, ?_⟩
    · intro light hlight
      have h : light = spotLight (F32.fin false F32.maxFinite) := by
        simpa [blindingState] using hlight
      subst h
      exact ⟨⟨trivial, trivial, trivial⟩, trivial, by decide,
        (f32_zero_le_fin _ _).mpr (Or.inl rfl)⟩
    · intro obj hobj ti tj
      have h : obj = objectAt ⟨F32.zero, F32.zero, F32.zero⟩
          ⟨F32.zero, F32.zero, F32.zero⟩ F32.zero := by
        simpa [blindingState] using hobj
      subst h
      exact (f32_zero_le_fin _ _).mpr (Or.inl rfl)
    · have hL := lightLoop_blinding m _ (objectAt_origin_advanced m F32.zero)
      rw [seq_totalLights_getElem?]
      exact congrArg some hL
    · intro ti tj
      have hL := lightLoop_blinding m _ (objectAt_origin_advanced m F32.zero)
      rw [seq_updateGameState_texel_getElem?]
      exact congrArg (fun t => some (F32.mul F32.zero t)) hL
  · intro m
    refine ⟨?_, ?_, ?_⟩
    · intro light hlight
      have h : light = ⟨⟨F32.zero, F32.zero, F32.zero⟩, F32.inf false⟩ := by
        simpa [dazzleState] using hlight
      subst h
      exact ⟨⟨trivial, trivial, trivial⟩, (rfl : false = false)⟩
    · intro obj hobj
      have h : obj = farObject := by simpa [dazzleState] using hobj
      subst h
      exact ⟨⟨trivial, trivial, trivial⟩, by decide, ⟨trivial, trivial, trivial⟩,
        fun _ _ => (f32_zero_le_fin _ _).mpr (Or.inl rfl)⟩
    · have hL := lightLoop_dazzle m _ (far_advanced_position m)
      rw [seq_totalLights_getElem?]
      exact congrArg some hL

/-- C16 amended.  First conjunct, exact arithmetic: for a participant whose lights all
have a non-negative intensity and whose texels are all non-negative, after any number `k`
of calls of `updateGameState` every texel is non-negative and every value taken by
`total_light` in the next call lies between `0` and the sum of the intensities; when the
participant has at least one light and all intensities are below `1`, every such value
is strictly below the number of lights.  Second conjunct, single precision: for a
participant whose lights have finite positions and finite binary32 intensities `>= 0`,
after any number `k` of calls, when the next call puts the objects at finite positions,
every value taken by `total_light` in it is `>= 0` and at most the sum of the
intensities accumulated in single precision in the order of the light loop; with at
least one light and all intensities below `1.0f` it is finite, with sign bit clear and
magnitude strictly below the number of lights.  Third conjunct, single precision: if
moreover the texels are all `>= 0` and in each of the first `k` calls the new positions
are finite and no texel is multiplied as a zero by an infinite total or as an infinity by
a zero total, then after these `k` calls every texel is `>= 0`.  Fourth conjunct: the
new positions are finite in every call when `cosf` and `sinf` return finite values of
magnitude at most `1` for finite arguments and the objects start with finite binary32
positions and finite rotations. -/
theorem C16_total_light_bounds :
    (∀ (S : Nat) (s : GameState ℝ S) (k : Nat),
      (∀ light ∈ s.lights, 0 ≤ light.intensity) →
      (∀ obj ∈ s.objects, ∀ ti tj, 0 ≤ obj.texture.pixels ti tj) →
        (∀ t ∈ Sequential.totalLights realArith
            ((Sequential.updateGameState realArith)^[k] s),
          0 ≤ t ∧ t ≤ (s.lights.map (fun light => light.intensity)).sum) ∧
        (∀ obj ∈ ((Sequential.updateGameState realArith)^[k] s).objects, ∀ ti tj,
          0 ≤ obj.texture.pixels ti tj) ∧
        ((∀ light ∈ s.lights, light.intensity < 1) → s.lights ≠ [] →
          ∀ t ∈ Sequential.totalLights realArith
              ((Sequential.updateGameState realArith)^[k] s),
            t < (s.lights.length : ℝ))) ∧
    (∀ (m : Libm) (S : Nat) (s : GameState F32 S) (k : Nat),
      (∀ light ∈ s.lights, light.position.IsFinite ∧ light.intensity.IsFinite ∧
        light.intensity.IsBinary32 ∧ F32.le F32.zero light.intensity) →
      (∀ obj ∈ ((Sequential.updateGameState (binary32 m))^[k] s).objects,
        (Sequential.updatePosition (binary32 m) obj).position.IsFinite) →
        (∀ t ∈ Sequential.totalLights (binary32 m)
            ((Sequential.updateGameState (binary32 m))^[k] s),
          F32.le F32.zero t ∧ F32.le t (intensitySum (binary32 m) s.lights)) ∧
        ((∀ light ∈ s.lights, F32.lt light.intensity F32.one) → s.lights ≠ [] →
          ∀ t ∈ Sequential.totalLights (binary32 m)
              ((Sequential.updateGameState (binary32 m))^[k] s),
            ∃ a, t = F32.fin false a ∧ a < s.lights.length * 2 ^ 149)) ∧
    (∀ (m : Libm) (S : Nat) (s : GameState F32 S) (k : Nat),
      (∀ light ∈ s.lights, light.position.IsFinite ∧ light.intensity.IsFinite ∧
        light.intensity.IsBinary32 ∧ F32.le F32.zero light.intensity) →
      (∀ obj ∈ s.objects, ∀ ti tj, F32.le F32.zero (obj.texture.pixels ti tj)) →
      (∀ f, f < k → ∀ obj ∈ ((Sequential.updateGameState (binary32 m))^[f] s).objects,
        (Sequential.updatePosition (binary32 m) obj).position.IsFinite ∧
        ∀ ti tj, ¬ F32.InvalidProduct (obj.texture.pixels ti tj)
          (Sequential.updateObject (binary32 m) s.lights obj).2) →
        ∀ obj ∈ ((Sequential.updateGameState (binary32 m))^[k] s).objects, ∀ ti tj,
          F32.le F32.zero (obj.texture.pixels ti tj)) ∧
    (∀ (m : Libm) (S : Nat) (s : GameState F32 S) (k : Nat),
      m.Bounded →
      (∀ obj ∈ s.objects, obj.position.IsFinite ∧ obj.position.IsBinary32 ∧
        obj.rotation.IsFinite) →
        ∀ obj ∈ ((Sequential.updateGameState (binary32 m))^[k] s).objects,
          (Sequential.updatePosition (binary32 m) obj).position.IsFinite) := by
  refine ⟨?_, ?_, ?_, ?_⟩
  · intro S s k hl ht
    have hbound : ∀ t ∈ Sequential.totalLights realArith
        ((Sequential.updateGameState realArith)^[k] s),
        0 ≤ t ∧ t ≤ (s.lights.map (fun light => light.intensity)).sum := by
      intro t ht'
      obtain ⟨p, hp⟩ := seq_totalLights_mem_real _ t ht'
      rw [seq_iterate_lights] at hp
      rw [hp]
      exact illumination_bounds s.lights p hl
    refine ⟨hbound, seq_iterate_texels_nonneg s hl ht k, ?_⟩
    intro hlt hne t ht'
    exact lt_of_le_of_lt (hbound t ht').2 ((intensities_sum_lt s.lights hlt).2 hne)
  · intro m S s k hl hpos
    constructor
    · intro t ht
      obtain ⟨obj, hobj, heq⟩ := seq_totalLights_mem _ _ t ht
      rw [seq_iterate_lights] at heq
      obtain ⟨h1, h2⟩ := seq_lightLoop_f32_bounds m s.lights _ (hpos obj hobj) hl
      rw [heq]
      exact ⟨f32_zero_le_of_nonNeg _ h1, h2⟩
    · intro hlt hne t ht
      obtain ⟨obj, hobj, heq⟩ := seq_totalLights_mem _ _ t ht
      rw [seq_iterate_lights] at heq
      rw [heq]
      exact seq_lightLoop_f32_lt m s.lights _ (hpos obj hobj) hl hlt hne
  · intro m S s k hl ht hfin
    exact seq_iterate_texels_f32 m s hl ht k hfin
  · intro m S s k hm ho obj hobj
    obtain ⟨hp, hr⟩ := seq_iterate_positions_inRange m hm s ho k obj hobj
    obtain ⟨hx, hy, hz⟩ := seq_updatePosition_inRange m hm obj hp hr
    exact ⟨f32_isFinite_of_inRange _ hx, f32_isFinite_of_inRange _ hy,
      f32_isFinite_of_inRange _ hz⟩

/-- Witness for the amended C16: in exact arithmetic `sampleState`, whose two lights have
the intensities `1/2` and `1/4` and whose texels are `1`, after three calls; in single
precision the participant `originState lightsDim`, whose object is moved to the place of
its two lights of intensities `0.5` and `0.25`, in its first call and after it, and
after two calls under the bounded libm `Libm.flat`. -/
theorem C16_total_light_bounds_witness :
    ((∀ light ∈ sampleState.lights, 0 ≤ light.intensity) ∧
      (∀ obj ∈ sampleState.objects, ∀ ti tj, 0 ≤ obj.texture.pixels ti tj) ∧
      (∀ light ∈ sampleState.lights, light.intensity < 1) ∧ sampleState.lights ≠ [] ∧
      (∀ t ∈ Sequential.totalLights realArith
          ((Sequential.updateGameState realArith)^[3] sampleState),
        0 ≤ t ∧ t ≤ (sampleState.lights.map (fun light => light.intensity)).sum) ∧
      (∀ obj ∈ ((Sequential.updateGameState realArith)^[3] sampleState).objects, ∀ ti tj,
        0 ≤ obj.texture.pixels ti tj) ∧
      (∀ t ∈ Sequential.totalLights realArith
          ((Sequential.updateGameState realArith)^[3] sampleState),
        t < (sampleState.lights.length : ℝ))) ∧
    ((∀ light ∈ (originState lightsDim).lights,
        light.position.IsFinite ∧ light.intensity.IsFinite ∧
          light.intensity.IsBinary32 ∧ F32.le F32.zero light.intensity) ∧
      (∀ light ∈ (originState lightsDim).lights, F32.lt light.intensity F32.one) ∧
      (originState lightsDim).lights ≠ [] ∧
      (∀ obj ∈ ((Sequential.updateGameState (binary32 Libm.leading))^[0]
          (originState lightsDim)).objects,
        (Sequential.updatePosition (binary32 Libm.leading) obj).position.IsFinite) ∧
      (∀ t ∈ Sequential.totalLights (binary32 Libm.leading)
          ((Sequential.updateGameState (binary32 Libm.leading))^[0] (originState lightsDim)),
        F32.le F32.zero t ∧
          F32.le t (intensitySum (binary32 Libm.leading) (originState lightsDim).lights)) ∧
      (∀ t ∈ Sequential.totalLights (binary32 Libm.leading)
          ((Sequential.updateGameState (binary32 Libm.leading))^[0] (originState lightsDim)),
        ∃ a, t = F32.fin false a ∧ a < (originState lightsDim).lights.length * 2 ^ 149)) ∧
    ((∀ obj ∈ (originState lightsDim).objects, ∀ ti tj,
        F32.le F32.zero (obj.texture.pixels ti tj)) ∧
      (∀ f, f < 1 →
        ∀ obj ∈ ((Sequential.updateGameState (binary32 Libm.leading))^[f]
            (originState lightsDim)).objects,
          (Sequential.updatePosition (binary32 Libm.leading) obj).position.IsFinite ∧
          ∀ ti tj, ¬ F32.InvalidProduct (obj.texture.pixels ti tj)
            (Sequential.updateObject (binary32 Libm.leading) (originState lightsDim).lights
              obj).2) ∧
      ∀ obj ∈ ((Sequential.updateGameState (binary32 Libm.leading))^[1]
          (originState lightsDim)).objects, ∀ ti tj,
        F32.le F32.zero (obj.texture.pixels ti tj)) ∧
    (Libm.flat.Bounded ∧
      (∀ obj ∈ (originState lightsDim).objects, obj.position.IsFinite ∧
        obj.position.IsBinary32 ∧ obj.rotation.IsFinite) ∧
      ∀ obj ∈ ((Sequential.updateGameState (binary32 Libm.flat))^[2]
          (originState lightsDim)).objects,
        (Sequential.updatePosition (binary32 Libm.flat) obj).position.IsFinite) := by
  have hl : ∀ light ∈ sampleState.lights, 0 ≤ light.intensity ∧ light.intensity < 1 := by
    intro light hlight
    have hcases : light = ⟨⟨0, 0, 0⟩, 1 / 2⟩ ∨ light = ⟨⟨1, 2, 3⟩, 1 / 4⟩ := by
      simpa [sampleState, sampleLights] using hlight
    rcases hcases with h | h <;> subst h <;> constructor <;> norm_num
  have ht : ∀ obj ∈ sampleState.objects, ∀ ti tj, 0 ≤ obj.texture.pixels ti tj := by
    intro obj hobj ti tj
    have hobj' : obj = sampleObject := by simpa [sampleState] using hobj
    subst hobj'
    show (0 : ℝ) ≤ 1
    norm_num
  have hne : sampleState.lights ≠ [] := by
    simp [sampleState, sampleLights]
  have hmain := C16_total_light_bounds.1 2 sampleState 3 (fun l h => (hl l h).1) ht
  have hlF : ∀ light ∈ (originState lightsDim).lights,
      light.position.IsFinite ∧ light.intensity.IsFinite ∧
        light.intensity.IsBinary32 ∧ F32.le F32.zero light.intensity :=
    fun l h => (lightsDim_wellFormed l h).1
  have hltF : ∀ light ∈ (originState lightsDim).lights, F32.lt light.intensity F32.one :=
    fun l h => (lightsDim_wellFormed l h).2
  have hneF : (originState lightsDim).lights ≠ [] := by
    simp [originState, lightsDim]
  have hposF : ∀ obj ∈ (originState lightsDim).objects,
      (Sequential.updatePosition (binary32 Libm.leading) obj).position.IsFinite := by
    intro obj hobj
    have hobj' : obj = originObject := List.mem_singleton.mp hobj
    rw [hobj', origin_advanced]
    exact ⟨trivial, trivial, trivial⟩
  have htF : ∀ obj ∈ (originState lightsDim).objects, ∀ ti tj,
      F32.le F32.zero (obj.texture.pixels ti tj) := by
    intro obj hobj ti tj
    have hobj' : obj = originObject := List.mem_singleton.mp hobj
    rw [hobj', originObject_pixels]
    exact (f32_zero_le_fin _ _).mpr (Or.inl rfl)
  have hfinF : ∀ f, f < 1 →
      ∀ obj ∈ ((Sequential.updateGameState (binary32 Libm.leading))^[f]
          (originState lightsDim)).objects,
        (Sequential.updatePosition (binary32 Libm.leading) obj).position.IsFinite ∧
        ∀ ti tj, ¬ F32.InvalidProduct (obj.texture.pixels ti tj)
          (Sequential.updateObject (binary32 Libm.leading) (originState lightsDim).lights
            obj).2 := by
    intro f hf obj hobj
    have hf0 : f = 0 := by omega
    subst hf0
    have hobj' : obj = originObject := List.mem_singleton.mp hobj
    subst hobj'
    refine ⟨hposF _ hobj, fun ti tj => ?_⟩
    show ¬ F32.InvalidProduct (originObject.texture.pixels ti tj)
      (Sequential.lightLoop (binary32 Libm.leading) lightsDim
        (Sequential.updatePosition (binary32 Libm.leading) originObject))
    rw [lightLoop_dim _ _ (origin_advanced _), originObject_pixels]
    exact fun h => h
  have hoF : ∀ obj ∈ (originState lightsDim).objects, obj.position.IsFinite ∧
      obj.position.IsBinary32 ∧ obj.rotation.IsFinite := by
    intro obj hobj
    have hobj' : obj = originObject := List.mem_singleton.mp hobj
    subst hobj'
    exact ⟨⟨trivial, trivial, trivial⟩, by decide, ⟨trivial, trivial, trivial⟩⟩
  have hmainF := C16_total_light_bounds.2.1 Libm.leading TEX_SIZE (originState lightsDim) 0
    hlF hposF
  exact ⟨⟨fun l h => (hl l h).1, ht, fun l h => (hl l h).2, hne, hmain.1, hmain.2.1,
      hmain.2.2 (fun l h => (hl l h).2) hne⟩,
    ⟨hlF, hltF, hneF, hposF, hmainF.1, hmainF.2 hltF hneF⟩,
    ⟨htF, hfinF,
      C16_total_light_bounds.2.2.1 Libm.leading TEX_SIZE (originState lightsDim) 1 hlF htF
        hfinF⟩,
    ⟨flat_bounded, hoF,
      C16_total_light_bounds.2.2.2 Libm.flat TEX_SIZE (originState lightsDim) 2
        flat_bounded hoF⟩⟩

end ParallelProject
